import Mathlib

/-!
# go-opml: the conversion layer between OPML wire records and the document model

A shallow embedding of `opml.go`.

* Go `string` values are sequences of code points (`GoString`).
* A Go slice is `Option (List α)`: `none` is the nil slice, `some []` the empty
  non-nil slice.  A pointer field is an `Option`: `none` is the nil pointer.
* A method with a pointer receiver that assigns through the receiver takes the
  receiver's value before the call and returns its value after the call.
* Go `int` is the 64-bit signed integer; values are `Int`, and the functions
  of `strconv` carry the range checks explicitly.
* The functions of the Go standard library that `opml.go` calls (`strings`,
  `strconv`, `time`) are written out from their documented behaviour.  For
  `time` these are `Time.Format` and `time.Parse` over the elements of a
  layout (the day-of-year elements, which no layout of `xmlTimeLayouts` has,
  are left out), the proleptic Gregorian calendar of `absDate` and `Date`, and
  locations that are UTC or a fixed zone; the location `time.Local` is an
  argument of `time.Parse`.
-/

namespace Opml

/-- Go `string`: the sequence of its code points. -/
abbrev GoString := List Char

/-- The `error` values the package hands back. -/
inductive Error where
  /-- An error of the XML decoder itself (malformed markup). -/
  | xml : GoString → Error
  /-- The error `strconv.ErrSyntax` wrapped in a `*strconv.NumError`. -/
  | numSyntax : GoString → Error
  /-- The error `strconv.ErrRange` wrapped in a `*strconv.NumError`. -/
  | numRange : GoString → Error
  /-- The error `*time.ParseError` of `time.Parse`. -/
  | timeParse : GoString → GoString → Error
  /-- The error `*url.Error` of `url.Parse`. -/
  | url : GoString → Error
  deriving DecidableEq, Repr

/-! ## `unicode`, `strings` -/

/-- Go `unicode.IsSpace`: the code points with the Unicode White_Space property. -/
def unicode.IsSpace (c : Char) : Bool :=
  let n := c.toNat
  (9 ≤ n && n ≤ 13) || n == 0x20 || n == 0x85 || n == 0xA0 || n == 0x1680 ||
  (0x2000 ≤ n && n ≤ 0x200A) || n == 0x2028 || n == 0x2029 || n == 0x202F ||
  n == 0x205F || n == 0x3000

/-- Go `strings.TrimSpace`: the string without its leading and trailing white space. -/
def strings.TrimSpace (s : GoString) : GoString :=
  ((s.dropWhile unicode.IsSpace).reverse.dropWhile unicode.IsSpace).reverse

/-- The scan of `strings.Split` for a one-character separator: the text before
the first separator, and the pieces after it. -/
def strings.splitScan (sep : Char) : GoString → GoString × List GoString
  | [] => ([], [])
  | c :: cs =>
    let r := strings.splitScan sep cs
    if c = sep then ([], r.1 :: r.2) else (c :: r.1, r.2)

/-- Go `strings.Split(s, sep)` for a one-character separator: the pieces of
`s` between the separators; a string without a separator is its own single piece. -/
def strings.Split (s : GoString) (sep : Char) : List GoString :=
  (strings.splitScan sep s).1 :: (strings.splitScan sep s).2

/-- Go `strings.Join(elems, sep)` for a one-character separator. -/
def strings.Join : List GoString → Char → GoString
  | [], _ => []
  | [e], _ => e
  | e :: e2 :: es, sep => e ++ sep :: strings.Join (e2 :: es) sep

/-! ## `strconv` -/

/-- The size of Go `int` in bits. -/
def strconv.intSize : Nat := 64

/-- The largest `uint64`. -/
def strconv.maxUint64 : Nat := 2 ^ 64 - 1

/-- The least Go `int`. -/
def minInt : Int := -(2 ^ (strconv.intSize - 1))

/-- The largest Go `int`. -/
def maxInt : Int := 2 ^ (strconv.intSize - 1) - 1

/-- An integer that is a value of Go `int`. -/
def IsGoInt (n : Int) : Prop := minInt ≤ n ∧ n ≤ maxInt

instance (n : Int) : Decidable (IsGoInt n) := by
  unfold IsGoInt; exact inferInstance

/-- The value of a decimal digit character, `none` for any other character. -/
def strconv.digitVal (c : Char) : Option Nat :=
  if '0'.toNat ≤ c.toNat ∧ c.toNat ≤ '9'.toNat then some (c.toNat - '0'.toNat) else none

/-- The digit loop of Go `strconv.ParseUint(s, 10, 64)`: `n` is the value read
so far.  A character that is no digit is a syntax error; a value that leaves
`uint64` is a range error. -/
def strconv.parseUintLoop (s0 : GoString) : Nat → GoString → Except Error Nat
  | n, [] => .ok n
  | n, c :: cs =>
    match strconv.digitVal c with
    | none => .error (.numSyntax s0)
    | some d =>
      if n ≥ strconv.maxUint64 / 10 + 1 then .error (.numRange s0)
      else if n * 10 + d > strconv.maxUint64 then .error (.numRange s0)
      else strconv.parseUintLoop s0 (n * 10 + d) cs

/-- Go `strconv.ParseUint(s, 10, 64)`. -/
def strconv.ParseUint (s : GoString) : Except Error Nat :=
  match s with
  | [] => .error (.numSyntax s)
  | _ => strconv.parseUintLoop s 0 s

/-- Go `strconv.ParseInt(s, 10, 0)`: an optional sign, then `ParseUint`, then
the check against the range of `int`. -/
def strconv.ParseInt (s : GoString) : Except Error Int :=
  match s with
  | [] => .error (.numSyntax s)
  | c :: cs =>
    let neg := c == '-'
    let body := if c == '+' ∨ c == '-' then cs else s
    match strconv.ParseUint body with
    | .error (.numRange _) => .error (.numRange s)
    | .error _ => .error (.numSyntax s)
    | .ok un =>
      let cutoff : Nat := 2 ^ (strconv.intSize - 1)
      if !neg ∧ un ≥ cutoff then .error (.numRange s)
      else if neg ∧ un > cutoff then .error (.numRange s)
      else .ok (if neg then -(un : Int) else (un : Int))

/-- Go `strconv.Atoi`: `ParseInt(s, 10, 0)` as an `int`.  (The short cut Go
takes for short strings gives the same result.) -/
def strconv.Atoi (s : GoString) : Except Error Int :=
  strconv.ParseInt s

/-- The character of a decimal digit. -/
def strconv.digitChar (d : Nat) : Char :=
  match d with
  | 0 => '0' | 1 => '1' | 2 => '2' | 3 => '3' | 4 => '4'
  | 5 => '5' | 6 => '6' | 7 => '7' | 8 => '8' | _ => '9'

/-- The digit loop of Go `strconv.formatBits` in base 10: the digits of `u`
are written in front of `acc`, least significant first.  The first argument
bounds the number of turns; `u` turns are always enough. -/
def strconv.formatBits : Nat → Nat → GoString → GoString
  | 0, u, acc => strconv.digitChar u :: acc
  | fuel + 1, u, acc =>
    if u ≥ 10 then strconv.formatBits fuel (u / 10) (strconv.digitChar (u % 10) :: acc)
    else strconv.digitChar u :: acc

/-- Go `strconv.Itoa`: the decimal text of `n`, with a leading `-` when negative. -/
def strconv.Itoa (n : Int) : GoString :=
  if n < 0 then '-' :: strconv.formatBits n.natAbs n.natAbs []
  else strconv.formatBits n.natAbs n.natAbs []

/-! ## The expansion state -/

/-- Go `type xmlExpansionState struct { expansionState []int }`. -/
structure xmlExpansionState where
  expansionState : Option (List Int)
  deriving DecidableEq, Repr

/-- The loop of `xmlExpansionState.UnmarshalXML` over the pieces of the text:
`state` is the slice built so far. -/
def xmlExpansionState.unmarshalLoop : List Int → List GoString → Except Error (List Int)
  | state, [] => .ok state
  | state, str :: rest =>
    let trimmed := strings.TrimSpace str
    if trimmed.length = 0 then xmlExpansionState.unmarshalLoop state rest
    else
      match strconv.Atoi trimmed with
      | .error err => .error err
      | .ok n => xmlExpansionState.unmarshalLoop (state ++ [n]) rest

/-- Go `(*xmlExpansionState).UnmarshalXML`.  `s` is the receiver before the
call and `dec` what `d.DecodeElement(&v, &start)` gave: the text `v` of the
element, or the decoder's error.  The result is the receiver after the call
and the error returned (`none` is nil). -/
def xmlExpansionState.UnmarshalXML (s : xmlExpansionState) (dec : Except Error GoString) :
    xmlExpansionState × Option Error :=
  match dec with
  | .error err => (s, some err)
  | .ok v =>
    match xmlExpansionState.unmarshalLoop [] (strings.Split v ',') with
    | .error err => (s, some err)
    | .ok state => (⟨some state⟩, none)

/-- Go `xmlExpansionState.MarshalXML`: the text handed to `e.EncodeElement`. -/
def xmlExpansionState.MarshalXML (s : xmlExpansionState) : GoString :=
  strings.Join ((s.expansionState.getD []).map strconv.Itoa) ','

/-! ## The reading of the expansion-state text in the specification -/

/-- The pieces of a comma-separated text that count: split on commas, trim
white space around each piece, skip the pieces that are empty after trimming. -/
def commaTokens (v : GoString) : List GoString :=
  ((strings.Split v ',').map strings.TrimSpace).filter (fun t => t ≠ [])

/-- The number a non-empty string of decimal digits denotes, `none` for any
other string. -/
def decimalNat (s : GoString) : Option Nat :=
  if s ≠ [] ∧ s.all Char.isDigit = true then
    some (s.foldl (fun n c => n * 10 + (c.toNat - '0'.toNat)) 0)
  else none

/-- The base-10 integer a token denotes: decimal digits after an optional
sign; `none` when the token is not of that form. -/
def decimalValue (s : GoString) : Option Int :=
  match s with
  | [] => none
  | c :: cs =>
    if c = '-' then (decimalNat cs).map (fun (n : Nat) => -(n : Int))
    else if c = '+' then (decimalNat cs).map (fun (n : Nat) => (n : Int))
    else (decimalNat s).map (fun (n : Nat) => (n : Int))

/-- The base-10 rendering of an integer: its digits without leading zeros,
after a `-` when it is negative. -/
def decimalText (n : Int) : GoString := (toString n).toList


/-! ## `net/url`, `time`: the values the records carry -/

/-- Go `url.Userinfo`. -/
structure Userinfo where
  username : GoString
  password : GoString
  passwordSet : Bool
  deriving DecidableEq, Repr

/-- Go `url.URL`. -/
structure URL where
  Scheme : GoString
  Opaque : GoString
  User : Option Userinfo
  Host : GoString
  Path : GoString
  RawPath : GoString
  ForceQuery : Bool
  RawQuery : GoString
  Fragment : GoString
  deriving DecidableEq, Repr

/-- Go `time.Location`, for the zones `time.FixedZone(name, offset)` makes: an
abbreviation and the seconds east of UTC. -/
structure Location where
  name : GoString
  offset : Int
  deriving DecidableEq, Repr

/-- Go `time.Time`: the seconds since January 1, year 1 00:00:00 UTC, the
nanoseconds within the second, and the location (`none` is the nil pointer,
which stands for UTC). -/
structure Time where
  sec : Int
  nsec : Nat
  loc : Option Location
  deriving DecidableEq, Repr

/-- The zero value `time.Time{}`. -/
def Time.zero : Time := ⟨0, 0, none⟩

/-- Go `Time.IsZero`: the instant is January 1, year 1, 00:00:00 UTC. -/
def Time.IsZero (t : Time) : Bool := t.sec == 0 && t.nsec == 0

/-- Go `type xmlTime time.Time`. -/
abbrev xmlTime := Time

/-- Go `type xmlURL url.URL`. -/
abbrev xmlURL := URL

/-- Go `type xmlCategories []string`. -/
abbrev xmlCategories := Option (List GoString)

/-- Go `xml.Name`. -/
structure xml.Name where
  Space : GoString
  Local : GoString
  deriving DecidableEq, Repr

/-! ## The document model -/

/-- Go `type Outline struct`.  The elements of `Outlines` are the nodes the
non-nil pointers of the slice point to. -/
structure Outline where
  Text : GoString
  Type' : GoString
  IsComment : Bool
  IsBreakpoint : Bool
  Created : Time
  Categories : Option (List GoString)
  XMLURL : Option URL
  Description : GoString
  HTMLURL : Option URL
  Language : GoString
  Title : GoString
  Version : GoString
  URL : Option URL
  Outlines : Option (List Outline)

/-- Go `type OPML struct`. -/
structure OPML where
  Version : GoString
  Title : GoString
  DateCreated : Time
  DateModified : Time
  OwnerName : GoString
  OwnerEmail : GoString
  OwnerID : Option URL
  Docs : Option URL
  ExpansionState : Option (List Int)
  VertScrollState : Int
  WindowTop : Int
  WindowLeft : Int
  WindowBottom : Int
  WindowRight : Int
  Outlines : Option (List Outline)

/-! ## The wire records -/

/-- Go `type xmlOutline struct`. -/
structure xmlOutline where
  Text : GoString
  Type' : GoString
  IsComment : Bool
  IsBreakpoint : Bool
  Created : Option xmlTime
  Categories : xmlCategories
  XMLURL : Option xmlURL
  Description : GoString
  HTMLURL : Option xmlURL
  Language : GoString
  Title : GoString
  Version : GoString
  URL : Option xmlURL
  Outlines : Option (List xmlOutline)

/-- Go `type xmlOutlines []*xmlOutline`. -/
abbrev xmlOutlines := Option (List xmlOutline)

/-- Go `type xmlHead struct`. -/
structure xmlHead where
  Version : GoString
  Title : GoString
  DateCreated : Option xmlTime
  DateModified : Option xmlTime
  OwnerName : GoString
  OwnerEmail : GoString
  OwnerID : Option xmlURL
  Docs : Option xmlURL
  ExpansionState : Option xmlExpansionState
  VertScrollState : Int
  WindowTop : Int
  WindowLeft : Int
  WindowBottom : Int
  WindowRight : Int

/-- Go `type xmlBody struct`. -/
structure xmlBody where
  Outlines : xmlOutlines

/-- Go `type xmlOPML struct`. -/
structure xmlOPML where
  XMLName : xml.Name
  Head : xmlHead
  Body : xmlBody

/-- The zero value of `xmlOutline`, what `var xo xmlOutline` declares. -/
def xmlOutline.zero : xmlOutline :=
  { Text := [], Type' := [], IsComment := false, IsBreakpoint := false, Created := none,
    Categories := none, XMLURL := none, Description := [], HTMLURL := none, Language := [],
    Title := [], Version := [], URL := none, Outlines := none }

/-- The zero value of `xmlHead`. -/
def xmlHead.zero : xmlHead :=
  { Version := [], Title := [], DateCreated := none, DateModified := none, OwnerName := [],
    OwnerEmail := [], OwnerID := none, Docs := none, ExpansionState := none,
    VertScrollState := 0, WindowTop := 0, WindowLeft := 0, WindowBottom := 0,
    WindowRight := 0 }

/-- The zero value of `xmlOPML`, what `var xmlOPML xmlOPML` declares. -/
def xmlOPML.zero : xmlOPML :=
  { XMLName := ⟨[], []⟩, Head := xmlHead.zero, Body := ⟨none⟩ }

/-- Go `append(s, x)` on a slice: the result is never nil. -/
def goAppend {α : Type} (s : Option (List α)) (x : α) : Option (List α) :=
  some (s.getD [] ++ [x])

/-! ## Wire record to model -/

mutual
/-- Go `(*xmlOutline).ToOutline`. -/
def xmlOutline.ToOutline : xmlOutline → Outline
  | ⟨text, type, isComment, isBreakpoint, created, categories, xmlURL, description, htmlURL,
      language, title, version, url, outlines⟩ =>
    { Text := text
      Type' := type
      IsComment := isComment
      IsBreakpoint := isBreakpoint
      Categories := categories
      XMLURL := xmlURL
      Description := description
      HTMLURL := htmlURL
      Language := language
      Title := title
      Version := version
      URL := url
      Outlines := xmlOutlines.ToOutlines outlines
      Created := match created with
        | none => Time.zero
        | some t => t }
/-- Go `xmlOutlines.ToOutlines`: nil for nil, otherwise a slice of the same length. -/
def xmlOutlines.ToOutlines : Option (List xmlOutline) → Option (List Outline)
  | none => none
  | some xos => some (xmlOutlines.ToOutlines_fill xos)
/-- The `range` loop of `ToOutlines`: `outlines[i] = o.ToOutline()`. -/
def xmlOutlines.ToOutlines_fill : List xmlOutline → List Outline
  | [] => []
  | o :: rest => xmlOutline.ToOutline o :: xmlOutlines.ToOutlines_fill rest
end

/-- Go `(*xmlOPML).ToOPML`. -/
def xmlOPML.ToOPML (xo : xmlOPML) : OPML :=
  { Version := xo.Head.Version
    Title := xo.Head.Title
    OwnerName := xo.Head.OwnerName
    OwnerEmail := xo.Head.OwnerEmail
    OwnerID := xo.Head.OwnerID
    Docs := xo.Head.Docs
    VertScrollState := xo.Head.VertScrollState
    WindowTop := xo.Head.WindowTop
    WindowLeft := xo.Head.WindowLeft
    WindowBottom := xo.Head.WindowBottom
    WindowRight := xo.Head.WindowRight
    Outlines := xmlOutlines.ToOutlines xo.Body.Outlines
    ExpansionState := match xo.Head.ExpansionState with
      | none => none
      | some es => es.expansionState
    DateCreated := match xo.Head.DateCreated with
      | none => Time.zero
      | some t => t
    DateModified := match xo.Head.DateModified with
      | none => Time.zero
      | some t => t }

/-! ## Model to wire record -/

mutual
/-- Go `(*xmlOutline).FromOutline`: `xo` is the receiver before the call, the
result the receiver after it. -/
def xmlOutline.FromOutline (xo : xmlOutline) : Outline → xmlOutline
  | ⟨text, type, isComment, isBreakpoint, created, categories, xmlURL, description, htmlURL,
      language, title, version, url, outlines⟩ =>
    { Text := text
      Type' := type
      IsComment := isComment
      IsBreakpoint := isBreakpoint
      Created := if created.IsZero then none else some created
      Categories := categories
      XMLURL := xmlURL
      Description := description
      HTMLURL := htmlURL
      Language := language
      Title := title
      Version := version
      URL := url
      Outlines := xmlOutlines.FromOutlines xo.Outlines outlines }
/-- Go `(*xmlOutlines).FromOutlines`: `xos` is the slice the receiver points to
before the call, the result the slice after it. -/
def xmlOutlines.FromOutlines (xos : xmlOutlines) : Option (List Outline) → xmlOutlines
  | none => xos
  | some os => xmlOutlines.FromOutlines_loop xos os
/-- The `range` loop of `FromOutlines`: each turn converts one outline into a
fresh `xmlOutline` and appends it. -/
def xmlOutlines.FromOutlines_loop (xos : xmlOutlines) : List Outline → xmlOutlines
  | [] => xos
  | o :: rest =>
    xmlOutlines.FromOutlines_loop (goAppend xos (xmlOutline.FromOutline xmlOutline.zero o)) rest
end

/-- Go `(*xmlOPML).FromOPML`: `xo` is the receiver before the call, the result
the receiver after it. -/
def xmlOPML.FromOPML (xo : xmlOPML) (o : OPML) : xmlOPML :=
  { XMLName := xo.XMLName
    Head :=
      { Version := o.Version
        Title := o.Title
        OwnerName := o.OwnerName
        OwnerEmail := o.OwnerEmail
        OwnerID := o.OwnerID
        Docs := o.Docs
        VertScrollState := o.VertScrollState
        WindowTop := o.WindowTop
        WindowLeft := o.WindowLeft
        WindowBottom := o.WindowBottom
        WindowRight := o.WindowRight
        ExpansionState := match o.ExpansionState with
          | none => none
          | some l => some ⟨some l⟩
        DateCreated := if o.DateCreated.IsZero then none else some o.DateCreated
        DateModified := if o.DateModified.IsZero then none else some o.DateModified }
    Body := ⟨xmlOutlines.FromOutlines xo.Body.Outlines o.Outlines⟩ }


/-! ## Documents that the wire record can hold without loss -/

/-- A timestamp with the zero instant is the zero value `time.Time{}`. -/
def Time.ZeroIsZeroValue (t : Time) : Bool :=
  !t.IsZero || decide (t = Time.zero)

mutual
/-- In the tree below this outline every outline sequence is nil or non-empty,
and every timestamp with the zero instant is the zero value. -/
def Outline.Lossless : Outline → Bool
  | ⟨_, _, _, _, created, _, _, _, _, _, _, _, _, outlines⟩ =>
    created.ZeroIsZeroValue && Outline.LosslessSeq outlines
/-- The sequence is nil or non-empty, and each of its outlines is `Lossless`. -/
def Outline.LosslessSeq : Option (List Outline) → Bool
  | none => true
  | some [] => false
  | some (o :: os) => Outline.Lossless o && Outline.LosslessAll os
/-- Each outline of the list is `Lossless`. -/
def Outline.LosslessAll : List Outline → Bool
  | [] => true
  | o :: os => Outline.Lossless o && Outline.LosslessAll os
end

/-- Every outline sequence of the document, at every level, is nil or non-empty
and every timestamp with the zero instant is the zero value. -/
def OPML.Lossless (o : OPML) : Bool :=
  o.DateCreated.ZeroIsZeroValue && o.DateModified.ZeroIsZeroValue &&
    Outline.LosslessSeq o.Outlines


/-! ## `time`: layouts

The layout constants of Go's `time` package that `xmlTimeLayouts` lists. -/

def time.ANSIC : GoString := "Mon Jan _2 15:04:05 2006".toList
def time.UnixDate : GoString := "Mon Jan _2 15:04:05 MST 2006".toList
def time.RubyDate : GoString := "Mon Jan 02 15:04:05 -0700 2006".toList
def time.RFC822 : GoString := "02 Jan 06 15:04 MST".toList
def time.RFC822Z : GoString := "02 Jan 06 15:04 -0700".toList
def time.RFC850 : GoString := "Monday, 02-Jan-06 15:04:05 MST".toList
def time.RFC1123 : GoString := "Mon, 02 Jan 2006 15:04:05 MST".toList
def time.RFC1123Z : GoString := "Mon, 02 Jan 2006 15:04:05 -0700".toList
def time.RFC3339 : GoString := "2006-01-02T15:04:05Z07:00".toList
def time.RFC3339Nano : GoString := "2006-01-02T15:04:05.999999999Z07:00".toList
def time.Kitchen : GoString := "3:04PM".toList
def time.Stamp : GoString := "Jan _2 15:04:05".toList
def time.StampMilli : GoString := "Jan _2 15:04:05.000".toList
def time.StampMicro : GoString := "Jan _2 15:04:05.000000".toList
def time.StampNano : GoString := "Jan _2 15:04:05.000000000".toList

/-- The elements of a layout that Go's `time` package recognises (its `std`
constants), without the day-of-year elements. -/
inductive time.Std where
  | stdLongMonth | stdMonth | stdNumMonth | stdZeroMonth
  | stdLongWeekDay | stdWeekDay
  | stdDay | stdUnderDay | stdZeroDay
  | stdHour | stdHour12 | stdZeroHour12
  | stdMinute | stdZeroMinute | stdSecond | stdZeroSecond
  | stdLongYear | stdYear
  | stdPM | stdpm
  | stdTZ
  | stdISO8601TZ | stdISO8601SecondsTZ | stdISO8601ShortTZ | stdISO8601ColonTZ
  | stdISO8601ColonSecondsTZ
  | stdNumTZ | stdNumSecondsTz | stdNumShortTZ | stdNumColonTZ | stdNumColonSecondsTZ
  /-- `.000` or `,000`: that many digits of the fraction, trailing zeros included. -/
  | stdFracSecond0 (digits : Nat) (sep : Char)
  /-- `.999` or `,999`: up to that many digits of the fraction, trailing zeros omitted. -/
  | stdFracSecond9 (digits : Nat) (sep : Char)
  deriving DecidableEq, Repr

/-- The rest of `s` after the prefix `p`, `none` when `s` does not start with `p`. -/
def time.cutPrefix : GoString → GoString → Option GoString
  | [], s => some s
  | _ :: _, [] => none
  | p :: ps, c :: cs => if p = c then time.cutPrefix ps cs else none

/-- Go `isDigit(s, 0)`: the string starts with a decimal digit. -/
def time.isDigit0 : GoString → Bool
  | [] => false
  | c :: _ => '0'.toNat ≤ c.toNat && c.toNat ≤ '9'.toNat

/-- Go `startsWithLowerCase`. -/
def time.startsWithLowerCase : GoString → Bool
  | [] => false
  | c :: _ => 'a'.toNat ≤ c.toNat && c.toNat ≤ 'z'.toNat

/-- The fractional-second element of a layout: the separator `sep`, then a run
of the digit `ch` (`0` or `9`) that no other digit follows. -/
def time.fracAt (sep ch : Char) (rest : GoString) : Option (GoString × time.Std × GoString) :=
  if ch = '0' ∨ ch = '9' then
    let run := (ch :: rest).takeWhile (fun c => c = ch)
    let after := (ch :: rest).dropWhile (fun c => c = ch)
    if time.isDigit0 after then none
    else if ch = '0' then some ([], .stdFracSecond0 run.length sep, after)
    else some ([], .stdFracSecond9 run.length sep, after)
  else none

/-- The element that starts at the head of the layout, with the rest of the
layout after it; `lit` is the part of the element that stays literal text (the
`_` of `_2006`).  One turn of the scan of Go `nextStdChunk`. -/
def time.stdAt (layout : GoString) : Option (GoString × time.Std × GoString) :=
  match layout with
  | [] => none
  | 'J' :: _ =>
    match time.cutPrefix "January".toList layout with
    | some rest => some ([], .stdLongMonth, rest)
    | none =>
      match time.cutPrefix "Jan".toList layout with
      | some rest => if time.startsWithLowerCase rest then none else some ([], .stdMonth, rest)
      | none => none
  | 'M' :: _ =>
    match time.cutPrefix "Monday".toList layout with
    | some rest => some ([], .stdLongWeekDay, rest)
    | none =>
      match time.cutPrefix "Mon".toList layout with
      | some rest => if time.startsWithLowerCase rest then none else some ([], .stdWeekDay, rest)
      | none =>
        match time.cutPrefix "MST".toList layout with
        | some rest => some ([], .stdTZ, rest)
        | none => none
  | '0' :: '1' :: rest => some ([], .stdZeroMonth, rest)
  | '0' :: '2' :: rest => some ([], .stdZeroDay, rest)
  | '0' :: '3' :: rest => some ([], .stdZeroHour12, rest)
  | '0' :: '4' :: rest => some ([], .stdZeroMinute, rest)
  | '0' :: '5' :: rest => some ([], .stdZeroSecond, rest)
  | '0' :: '6' :: rest => some ([], .stdYear, rest)
  | '1' :: '5' :: rest => some ([], .stdHour, rest)
  | '1' :: rest => some ([], .stdNumMonth, rest)
  | '2' :: rest =>
    match time.cutPrefix "006".toList rest with
    | some rest2 => some ([], .stdLongYear, rest2)
    | none => some ([], .stdDay, rest)
  | '_' :: '2' :: rest =>
    match time.cutPrefix "006".toList rest with
    | some rest2 => some (['_'], .stdLongYear, rest2)
    | none => some ([], .stdUnderDay, rest)
  | '3' :: rest => some ([], .stdHour12, rest)
  | '4' :: rest => some ([], .stdMinute, rest)
  | '5' :: rest => some ([], .stdSecond, rest)
  | 'P' :: 'M' :: rest => some ([], .stdPM, rest)
  | 'p' :: 'm' :: rest => some ([], .stdpm, rest)
  | '-' :: _ =>
    match time.cutPrefix "-070000".toList layout with
    | some rest => some ([], .stdNumSecondsTz, rest)
    | none =>
    match time.cutPrefix "-07:00:00".toList layout with
    | some rest => some ([], .stdNumColonSecondsTZ, rest)
    | none =>
    match time.cutPrefix "-0700".toList layout with
    | some rest => some ([], .stdNumTZ, rest)
    | none =>
    match time.cutPrefix "-07:00".toList layout with
    | some rest => some ([], .stdNumColonTZ, rest)
    | none =>
    match time.cutPrefix "-07".toList layout with
    | some rest => some ([], .stdNumShortTZ, rest)
    | none => none
  | 'Z' :: _ =>
    match time.cutPrefix "Z070000".toList layout with
    | some rest => some ([], .stdISO8601SecondsTZ, rest)
    | none =>
    match time.cutPrefix "Z07:00:00".toList layout with
    | some rest => some ([], .stdISO8601ColonSecondsTZ, rest)
    | none =>
    match time.cutPrefix "Z0700".toList layout with
    | some rest => some ([], .stdISO8601TZ, rest)
    | none =>
    match time.cutPrefix "Z07:00".toList layout with
    | some rest => some ([], .stdISO8601ColonTZ, rest)
    | none =>
    match time.cutPrefix "Z07".toList layout with
    | some rest => some ([], .stdISO8601ShortTZ, rest)
    | none => none
  | '.' :: ch :: rest => time.fracAt '.' ch rest
  | ',' :: ch :: rest => time.fracAt ',' ch rest
  | _ => none

/-- Go `nextStdChunk`: the literal text before the first element of the
layout, the element (`none` when there is none), and the layout after it. -/
def time.nextStdChunk : GoString → GoString × Option time.Std × GoString
  | [] => ([], none, [])
  | c :: rest =>
    match time.stdAt (c :: rest) with
    | some (lit, std, suffix) => (lit, some std, suffix)
    | none =>
      let r := time.nextStdChunk rest
      (c :: r.1, r.2.1, r.2.2)


/-! ## `time`: the calendar -/

/-- Go `absoluteYears`: the years from the absolute epoch, March 1 of the year
-292277022400, to March 1 of the year 0; a multiple of 400. -/
def time.absoluteYears : Int := 292277022400

/-- Go `marchThruDecember`: the days from March 1 to the end of a year. -/
def time.marchThruDecember : Nat := 306

/-- The seconds from the absolute epoch to January 1, year 1 (Go
`internalToAbsolute`): `(absoluteYears*365.2425 + marchThruDecember) * 86400`. -/
def time.internalToAbsolute : Int := 9223371966606163200

/-- A Go `int64` as a `uint64` (the conversion `uint64(x)`). -/
def toUint64 (x : Int) : Nat := (x % 2 ^ 64).toNat

/-- A Go `uint64` as an `int64` (the conversion `int64(x)`), and the wrap-around
of `int64` arithmetic. -/
def toInt64 (x : Int) : Int := (x + 2 ^ 63) % 2 ^ 64 - 2 ^ 63

/-- Go `isLeap`. -/
def time.isLeap (year : Int) : Bool :=
  year % 4 == 0 && (year % 100 != 0 || year % 400 == 0)

/-- Go `daysBefore[m]`: the days of a non-leap year before month `m + 1`. -/
def time.daysBefore (m : Nat) : Nat :=
  match m with
  | 0 => 0 | 1 => 31 | 2 => 59 | 3 => 90 | 4 => 120 | 5 => 151 | 6 => 181
  | 7 => 212 | 8 => 243 | 9 => 273 | 10 => 304 | 11 => 334 | _ => 365

/-- Go `daysIn(m, year)`. -/
def time.daysIn (m : Nat) (year : Int) : Nat :=
  if m = 2 ∧ time.isLeap year then 29
  else time.daysBefore m - time.daysBefore (m - 1)

/-- The civil date of a time: the year, month and day Go `absDays.date`
returns. -/
structure time.CivilDate where
  year : Int
  month : Nat
  day : Nat
  deriving DecidableEq, Repr

/-- Go `absDays.date`: the year, month and day of the absolute second `abs`,
by `absDays.split`, `absYday.split`, `absYday.janFeb`, `absCentury.year` and
`absMonth.month`.  The absolute year starts on March 1. -/
def time.absDate (abs : Nat) : time.CivilDate :=
  let days : Nat := abs / 86400
  -- century, year of the century and day of the absolute year
  let d : Nat := 4 * days + 3
  let century : Nat := d / 146097
  -- `uint32(d%146097) | 3`, which Go writes for `4*(uint32(d%146097)/4) + 3`
  let cd : Nat := 4 * (d % 146097 / 4) + 3
  -- `hi, lo := bits.Mul32(2939745, cd)`
  let hi : Nat := 2939745 * cd / 2 ^ 32
  let lo : Nat := 2939745 * cd % 2 ^ 32
  let cyear : Nat := hi
  let ayday : Nat := lo / 2939745 / 4
  -- month of the absolute year, from 3 to 14, and day of the month:
  -- `d2 >> 16` and `1 + (d2&0xFFFF)/2141`
  let d2 : Nat := 2141 * ayday + 197913
  let amonth : Nat := d2 / 2 ^ 16
  let mday : Nat := 1 + d2 % 2 ^ 16 / 2141
  let janFeb : Nat := if ayday ≥ time.marchThruDecember then 1 else 0
  ⟨(century : Int) * 100 - time.absoluteYears + (cyear : Int) + (janFeb : Int),
    amonth - janFeb * 12, mday⟩

/-- Go `absClock`: hour, minute and second of the day. -/
def time.absClock (abs : Nat) : Nat × Nat × Nat :=
  let sec := abs % 86400
  (sec / 3600, (sec % 3600) / 60, sec % 60)

/-- Go `absDays.weekday`: Sunday is 0; the absolute epoch was a Wednesday. -/
def time.absWeekday (abs : Nat) : Nat :=
  (abs / 86400 + 3) % 7

/-- Go `norm(hi, lo, base)`: `lo` brought into `[0, base)`, the excess carried
into `hi`. -/
def time.norm (hi lo base : Int) : Int × Int :=
  let r1 : Int × Int :=
    if lo < 0 then
      let n := (-lo - 1) / base + 1
      (hi - n, lo + n * base)
    else (hi, lo)
  if r1.2 ≥ base then
    let n := r1.2 / base
    (r1.1 + n, r1.2 - n * base)
  else r1

/-- Go `dateToAbsDays(year, month, day)`: the days from the absolute epoch to
the day, in `uint64` arithmetic; `month` is from 1 to 12. -/
def time.dateToAbsDays (year : Int) (month : Nat) (day : Int) : Nat :=
  let janFeb : Nat := if month < 3 then 1 else 0
  let amonth : Nat := month + 12 * janFeb
  let y : Nat := toUint64 (year - (janFeb : Int) + time.absoluteYears)
  -- `(979*amonth - 2919) >> 5`
  let ayday : Nat := (979 * amonth - 2919) / 2 ^ 5
  let century : Nat := y / 100
  let cyear : Nat := y % 100
  let cday : Nat := 1461 * cyear / 4
  let centurydays : Nat := 146097 * century % 2 ^ 64 / 4
  toUint64 ((centurydays : Int) + (((cday + ayday : Nat) : Int) + day - 1))

/-- The offset a location has, in seconds east of UTC (Go `Location.lookup`);
the nil location is UTC. -/
def Location.offsetOf (loc : Option Location) : Int :=
  match loc with
  | none => 0
  | some l => l.offset

/-- Go `time.Date`: the time of a civil date and clock in a location, the
fields normalised first. -/
def time.Date (year month day hour min sec nsec : Int) (loc : Option Location) : Time :=
  let ym := time.norm year (month - 1) 12
  let sn := time.norm sec nsec 1000000000
  let ms := time.norm min sn.1 60
  let hm := time.norm hour ms.1 60
  let dh := time.norm day hm.1 24
  let year := ym.1
  let month := ym.2 + 1
  let days := time.dateToAbsDays year month.toNat dh.1
  let abs : Int := toInt64 days * 86400 + (dh.2 * 3600 + hm.2 * 60 + ms.2)
  let internal := toInt64 (toInt64 abs - time.internalToAbsolute)
  ⟨toInt64 (internal - Location.offsetOf loc), sn.2.toNat, loc⟩

/-- Go `Time.abs` with the zone name of `Time.locabs`: the absolute second in
the time's location, and the abbreviation of the zone. -/
def Time.locabs (t : Time) : GoString × Int × Nat :=
  match t.loc with
  | none => ("UTC".toList, 0, toUint64 (t.sec + time.internalToAbsolute))
  | some l => (l.name, l.offset, toUint64 (t.sec + l.offset + time.internalToAbsolute))

/-- Go `Time.Year`. -/
def Time.Year (t : Time) : Int := (time.absDate t.locabs.2.2).year


/-! ## `time`: formatting -/

/-- Go `longDayNames`. -/
def time.longDayNames : List GoString :=
  ["Sunday".toList, "Monday".toList, "Tuesday".toList, "Wednesday".toList,
   "Thursday".toList, "Friday".toList, "Saturday".toList]

/-- Go `shortDayNames`. -/
def time.shortDayNames : List GoString :=
  ["Sun".toList, "Mon".toList, "Tue".toList, "Wed".toList, "Thu".toList, "Fri".toList,
   "Sat".toList]

/-- Go `longMonthNames`. -/
def time.longMonthNames : List GoString :=
  ["January".toList, "February".toList, "March".toList, "April".toList, "May".toList,
   "June".toList, "July".toList, "August".toList, "September".toList, "October".toList,
   "November".toList, "December".toList]

/-- Go `shortMonthNames`. -/
def time.shortMonthNames : List GoString :=
  ["Jan".toList, "Feb".toList, "Mar".toList, "Apr".toList, "May".toList, "Jun".toList,
   "Jul".toList, "Aug".toList, "Sep".toList, "Oct".toList, "Nov".toList, "Dec".toList]

/-- Go `appendInt(b, x, width)`: the decimal text of `x`, padded with zeros to
`width` digits, after a `-` when `x` is negative. -/
def time.appendInt (x : Int) (width : Nat) : GoString :=
  let digits := strconv.formatBits x.natAbs x.natAbs []
  let padded := List.replicate (width - digits.length) '0' ++ digits
  if x < 0 then '-' :: padded else padded

/-- Go `appendNano`: the fraction of the second, `n` digits after the separator;
with `trim` the trailing zeros go, and the separator with them when no digit
is left. -/
def time.appendNano (nanosec : Nat) (n : Nat) (sep : Char) (trim : Bool) : GoString :=
  if trim ∧ (n = 0 ∨ nanosec = 0) then []
  else
    let digits := (time.appendInt nanosec 9).take n
    if trim then
      let kept := (digits.reverse.dropWhile (fun c => c = '0')).reverse
      if kept = [] then [] else sep :: kept
    else sep :: digits

/-- The numeric zone of a layout element: sign, hours, and, as the element
asks, a colon, minutes and seconds. -/
def time.appendZone (offset : Int) (colon minutes seconds : Bool) : GoString :=
  let zone := Int.tdiv offset 60
  let sign : GoString := if zone < 0 then ['-'] else ['+']
  let zone := if zone < 0 then -zone else zone
  let absoffset := if Int.tdiv offset 60 < 0 then -offset else offset
  sign ++ time.appendInt (Int.tdiv zone 60) 2 ++
    (if colon then [':'] else []) ++
    (if minutes then time.appendInt (Int.tmod zone 60) 2 else []) ++
    (if seconds then
      (if colon then [':'] else []) ++ time.appendInt (Int.tmod absoffset 60) 2
     else [])

/-- The text Go `Time.AppendFormat` writes for one element of the layout. -/
def time.formatStd (t : Time) (std : time.Std) : GoString :=
  let name := t.locabs.1
  let offset := t.locabs.2.1
  let abs := t.locabs.2.2
  let date := time.absDate abs
  let hour := (time.absClock abs).1
  let min := (time.absClock abs).2.1
  let sec := (time.absClock abs).2.2
  match std with
  | .stdYear =>
    time.appendInt (Int.tmod (if date.year < 0 then -date.year else date.year) 100) 2
  | .stdLongYear => time.appendInt date.year 4
  | .stdMonth => (time.longMonthNames.getD (date.month - 1) []).take 3
  | .stdLongMonth => time.longMonthNames.getD (date.month - 1) []
  | .stdNumMonth => time.appendInt date.month 0
  | .stdZeroMonth => time.appendInt date.month 2
  | .stdWeekDay => (time.longDayNames.getD (time.absWeekday abs) []).take 3
  | .stdLongWeekDay => time.longDayNames.getD (time.absWeekday abs) []
  | .stdDay => time.appendInt date.day 0
  | .stdUnderDay => (if date.day < 10 then [' '] else []) ++ time.appendInt date.day 0
  | .stdZeroDay => time.appendInt date.day 2
  | .stdHour => time.appendInt hour 2
  | .stdHour12 => time.appendInt (if hour % 12 = 0 then 12 else hour % 12) 0
  | .stdZeroHour12 => time.appendInt (if hour % 12 = 0 then 12 else hour % 12) 2
  | .stdMinute => time.appendInt min 0
  | .stdZeroMinute => time.appendInt min 2
  | .stdSecond => time.appendInt sec 0
  | .stdZeroSecond => time.appendInt sec 2
  | .stdPM => if hour ≥ 12 then "PM".toList else "AM".toList
  | .stdpm => if hour ≥ 12 then "pm".toList else "am".toList
  | .stdISO8601TZ => if offset = 0 then ['Z'] else time.appendZone offset false true false
  | .stdISO8601ColonTZ => if offset = 0 then ['Z'] else time.appendZone offset true true false
  | .stdISO8601SecondsTZ => if offset = 0 then ['Z'] else time.appendZone offset false true true
  | .stdISO8601ShortTZ => if offset = 0 then ['Z'] else time.appendZone offset false false false
  | .stdISO8601ColonSecondsTZ =>
    if offset = 0 then ['Z'] else time.appendZone offset true true true
  | .stdNumTZ => time.appendZone offset false true false
  | .stdNumColonTZ => time.appendZone offset true true false
  | .stdNumSecondsTz => time.appendZone offset false true true
  | .stdNumShortTZ => time.appendZone offset false false false
  | .stdNumColonSecondsTZ => time.appendZone offset true true true
  | .stdTZ => if name ≠ [] then name else time.appendZone offset false true false
  | .stdFracSecond0 n sep => time.appendNano t.nsec n sep false
  | .stdFracSecond9 n sep => time.appendNano t.nsec n sep true

/-- The loop of Go `Time.AppendFormat` over the layout; the first argument
bounds the number of turns, one for each element of the layout. -/
def time.formatLoop (t : Time) : Nat → GoString → GoString
  | 0, _ => []
  | fuel + 1, layout =>
    match time.nextStdChunk layout with
    | (lit, none, _) => lit
    | (lit, some std, suffix) => lit ++ time.formatStd t std ++ time.formatLoop t fuel suffix

/-- Go `Time.Format(layout)`. -/
def Time.Format (t : Time) (layout : GoString) : GoString :=
  time.formatLoop t (layout.length + 1) layout


/-! ## `time`: parsing -/

/-- The values Go `time.parse` collects while it reads the elements of a layout. -/
structure time.Fields where
  year : Int
  month : Int
  day : Int
  hour : Int
  min : Int
  sec : Int
  nsec : Int
  /-- The location `z`, which is only ever nil or `UTC`: whether it is `UTC`. -/
  zUTC : Bool
  zoneOffset : Int
  zoneName : GoString
  amSet : Bool
  pmSet : Bool
  deriving DecidableEq, Repr

/-- The values before the first element is read. -/
def time.Fields.init : time.Fields :=
  { year := 0, month := -1, day := -1, hour := 0, min := 0, sec := 0, nsec := 0,
    zUTC := false, zoneOffset := -1, zoneName := [], amSet := false, pmSet := false }

/-- Go `cutspace`: the string without its leading blanks. -/
def time.cutspace (s : GoString) : GoString := s.dropWhile (fun c => c = ' ')

/-- Go `skip(value, prefix)`: the value after the literal text `prefix`; a blank
of the prefix stands for any number of blanks.  The first argument bounds the
number of turns. -/
def time.skip : Nat → GoString → GoString → Option GoString
  | _, value, [] => some value
  | 0, _, _ :: _ => none
  | fuel + 1, value, p :: ps =>
    if p = ' ' then
      match value with
      | [] => time.skip fuel [] (time.cutspace (p :: ps))
      | c :: cs =>
        if c ≠ ' ' then none
        else time.skip fuel (time.cutspace (c :: cs)) (time.cutspace (p :: ps))
    else
      match value with
      | [] => none
      | c :: cs => if c ≠ p then none else time.skip fuel cs ps

/-- Go `getnum(s, fixed)`: a number of one or two digits (of two digits when
`fixed`) at the head of `s`, and the rest. -/
def time.getnum (s : GoString) (fixed : Bool) : Option (Int × GoString) :=
  match s with
  | [] => none
  | c0 :: rest =>
    match strconv.digitVal c0 with
    | none => none
    | some d0 =>
      match rest with
      | [] => if fixed then none else some (d0, [])
      | c1 :: rest2 =>
        match strconv.digitVal c1 with
        | none => if fixed then none else some (d0, rest)
        | some d1 => some (d0 * 10 + d1, rest2)

/-- Go `leadingInt`: the number the leading digits of `s` denote and the rest
of `s`; `none` when the number leaves 63 bits. -/
def time.leadingInt : Nat → GoString → Option (Nat × GoString)
  | x, [] => some (x, [])
  | x, c :: cs =>
    match strconv.digitVal c with
    | none => some (x, c :: cs)
    | some d =>
      if x > 2 ^ 63 / 10 then none
      else if x * 10 + d > 2 ^ 63 then none
      else time.leadingInt (x * 10 + d) cs

/-- Go `atoi` of package `time`: an optional sign, then digits to the end. -/
def time.atoi (s : GoString) : Option Int :=
  let neg := match s with
    | c :: _ => c == '-'
    | [] => false
  let body := match s with
    | c :: cs => if c = '-' ∨ c = '+' then cs else s
    | [] => s
  match time.leadingInt 0 body with
  | some (q, []) => some (if neg then -(q : Int) else (q : Int))
  | _ => none

/-- One character of Go `match`: equal, or equal letters up to case. -/
def time.matchChar (c1 c2 : Char) : Bool :=
  c1 = c2 ||
    ((c1.toNat ||| 32) == (c2.toNat ||| 32) && 'a'.toNat ≤ (c1.toNat ||| 32) &&
      (c1.toNat ||| 32) ≤ 'z'.toNat)

/-- The rest of `val` after a name it starts with, up to the case of letters:
the test `len(val) >= len(v) && match(val[0:len(v)], v)` of Go `lookup`. -/
def time.matchName : GoString → GoString → Option GoString
  | [], val => some val
  | _ :: _, [] => none
  | n :: ns, c :: cs => if time.matchChar c n then time.matchName ns cs else none

/-- Go `lookup(tab, val)`: the index of the first name of the table that `val`
starts with, and the rest of `val`; `i` is the index of the head of `tab`. -/
def time.lookup (i : Nat) : List GoString → GoString → Option (Nat × GoString)
  | [], _ => none
  | v :: tab, val =>
    match time.matchName v val with
    | some rest => some (i, rest)
    | none => time.lookup (i + 1) tab val

/-- Go `parseSignedOffset`: the length of a sign and an hour of at most 23 at
the head of the value, 0 if there is none. -/
def time.parseSignedOffset (value : GoString) : Nat :=
  match value with
  | [] => 0
  | sign :: rest =>
    if sign ≠ '-' ∧ sign ≠ '+' then 0
    else
      match time.leadingInt 0 rest with
      | none => 0
      | some (x, rem) =>
        if rest.length = rem.length then 0
        else if x > 23 then 0
        else value.length - rem.length

/-- Go `parseGMT`: the length of `GMT` with an optional signed hour. -/
def time.parseGMT (value : GoString) : Nat :=
  match value.drop 3 with
  | [] => 3
  | rest => 3 + time.parseSignedOffset rest

/-- Go `parseTimeZone`: the length of the time-zone abbreviation at the head of
the value, `none` when there is none. -/
def time.parseTimeZone (value : GoString) : Option Nat :=
  if value.length < 3 then none
  else if value.take 4 = "ChST".toList ∨ value.take 4 = "MeST".toList then some 4
  else if value.take 3 = "GMT".toList then some (time.parseGMT value)
  else if value.head? = some '+' ∨ value.head? = some '-' then
    (if time.parseSignedOffset value > 0 then some (time.parseSignedOffset value) else none)
  else
    let nUpper := ((value.take 6).takeWhile
      (fun c => 'A'.toNat ≤ c.toNat && c.toNat ≤ 'Z'.toNat)).length
    match nUpper with
    | 5 => if value.get? 4 = some 'T' then some 5 else none
    | 4 => if value.get? 3 = some 'T' ∨ value.take 4 = "WITA".toList then some 4 else none
    | 3 => some 3
    | _ => none

/-- Go `parseNanoseconds(value, nbytes)`: the nanoseconds a separator and
`nbytes - 1` digits denote. -/
def time.parseNanoseconds (value : GoString) (nbytes : Nat) : Option Int :=
  match value with
  | [] => none
  | c :: _ =>
    if c ≠ '.' ∧ c ≠ ',' then none
    else
      let nbytes := if nbytes > 10 then 10 else nbytes
      match time.atoi ((value.take nbytes).drop 1) with
      | none => none
      | some ns => if ns < 0 then none else some (ns * 10 ^ (10 - nbytes))

/-- The numeric zone of the value: sign, hour, minute and second as the element
lays them out, and the rest of the value. -/
def time.splitZone (std : time.Std) (value : GoString) :
    Option (GoString × GoString × GoString × GoString × GoString) :=
  if std = .stdISO8601ColonTZ ∨ std = .stdNumColonTZ then
    if value.length < 6 then none
    else if value.get? 3 ≠ some ':' then none
    else some (value.take 1, (value.drop 1).take 2, (value.drop 4).take 2, "00".toList,
      value.drop 6)
  else if std = .stdNumShortTZ ∨ std = .stdISO8601ShortTZ then
    if value.length < 3 then none
    else some (value.take 1, (value.drop 1).take 2, "00".toList, "00".toList, value.drop 3)
  else if std = .stdISO8601ColonSecondsTZ ∨ std = .stdNumColonSecondsTZ then
    if value.length < 9 then none
    else if value.get? 3 ≠ some ':' ∨ value.get? 6 ≠ some ':' then none
    else some (value.take 1, (value.drop 1).take 2, (value.drop 4).take 2,
      (value.drop 7).take 2, value.drop 9)
  else if std = .stdISO8601SecondsTZ ∨ std = .stdNumSecondsTz then
    if value.length < 7 then none
    else some (value.take 1, (value.drop 1).take 2, (value.drop 3).take 2,
      (value.drop 5).take 2, value.drop 7)
  else
    if value.length < 5 then none
    else some (value.take 1, (value.drop 1).take 2, (value.drop 3).take 2, "00".toList,
      value.drop 5)

/-- The numeric zone elements of Go `time.parse`: the hour of the zone is at
most 24, its minute and its second at most 60. -/
def time.parseNumZone (std : time.Std) (value : GoString) (f : time.Fields) :
    Option (GoString × time.Fields) :=
  match time.splitZone std value with
  | none => none
  | some (sign, hour, min, seconds, rest) =>
    match time.getnum hour true, time.getnum min true, time.getnum seconds true with
    | some (hr, _), some (mm, _), some (ss, _) =>
      if hr > 24 ∨ mm > 60 ∨ ss > 60 then none
      else if sign = ['+'] then some (rest, { f with zoneOffset := (hr * 60 + mm) * 60 + ss })
      else if sign = ['-'] then some (rest, { f with zoneOffset := -((hr * 60 + mm) * 60 + ss) })
      else none
    | _, _, _ => none

/-- One element of the layout read from the value, in Go `time.parse`: the rest
of the value and the values collected, or `none` for a value that does not fit
(`err` or `rangeErrString` set).  `layout` is the layout after the element. -/
def time.parseStd (std : time.Std) (layout value : GoString) (f : time.Fields) :
    Option (GoString × time.Fields) :=
  match std with
  | .stdYear =>
    if value.length < 2 then none
    else
      match time.atoi (value.take 2) with
      | none => none
      | some y => some (value.drop 2, { f with year := if y ≥ 69 then y + 1900 else y + 2000 })
  | .stdLongYear =>
    if value.length < 4 ∨ ¬ time.isDigit0 value then none
    else
      match time.atoi (value.take 4) with
      | none => none
      | some y => some (value.drop 4, { f with year := y })
  | .stdMonth =>
    match time.lookup 0 time.shortMonthNames value with
    | none => none
    | some (m, rest) => some (rest, { f with month := m + 1 })
  | .stdLongMonth =>
    match time.lookup 0 time.longMonthNames value with
    | none => none
    | some (m, rest) => some (rest, { f with month := m + 1 })
  | .stdNumMonth =>
    match time.getnum value false with
    | none => none
    | some (m, rest) => if m ≤ 0 ∨ 12 < m then none else some (rest, { f with month := m })
  | .stdZeroMonth =>
    match time.getnum value true with
    | none => none
    | some (m, rest) => if m ≤ 0 ∨ 12 < m then none else some (rest, { f with month := m })
  | .stdWeekDay =>
    match time.lookup 0 time.shortDayNames value with
    | none => none
    | some (_, rest) => some (rest, f)
  | .stdLongWeekDay =>
    match time.lookup 0 time.longDayNames value with
    | none => none
    | some (_, rest) => some (rest, f)
  | .stdDay =>
    match time.getnum value false with
    | none => none
    | some (d, rest) => some (rest, { f with day := d })
  | .stdUnderDay =>
    let value := match value with
      | ' ' :: cs => cs
      | _ => value
    match time.getnum value false with
    | none => none
    | some (d, rest) => some (rest, { f with day := d })
  | .stdZeroDay =>
    match time.getnum value true with
    | none => none
    | some (d, rest) => some (rest, { f with day := d })
  | .stdHour =>
    match time.getnum value false with
    | none => none
    | some (h, rest) => if h < 0 ∨ 24 ≤ h then none else some (rest, { f with hour := h })
  | .stdHour12 =>
    match time.getnum value false with
    | none => none
    | some (h, rest) => if h < 0 ∨ 12 < h then none else some (rest, { f with hour := h })
  | .stdZeroHour12 =>
    match time.getnum value true with
    | none => none
    | some (h, rest) => if h < 0 ∨ 12 < h then none else some (rest, { f with hour := h })
  | .stdMinute =>
    match time.getnum value false with
    | none => none
    | some (m, rest) => if m < 0 ∨ 60 ≤ m then none else some (rest, { f with min := m })
  | .stdZeroMinute =>
    match time.getnum value true with
    | none => none
    | some (m, rest) => if m < 0 ∨ 60 ≤ m then none else some (rest, { f with min := m })
  | .stdSecond | .stdZeroSecond =>
    match time.getnum value (std = .stdZeroSecond) with
    | none => none
    | some (s, rest) =>
      if s < 0 ∨ 60 ≤ s then none
      else
        let f := { f with sec := s }
        -- a fraction in the value that the layout does not ask for
        match rest with
        | c :: d :: _ =>
          if (c = '.' ∨ c = ',') ∧ (strconv.digitVal d).isSome then
            match (time.nextStdChunk layout).2.1 with
            | some (.stdFracSecond0 _ _) => some (rest, f)
            | some (.stdFracSecond9 _ _) => some (rest, f)
            | _ =>
              let n := 1 + ((rest.drop 1).takeWhile (fun c => (strconv.digitVal c).isSome)).length
              match time.parseNanoseconds rest n with
              | none => none
              | some ns => some (rest.drop n, { f with nsec := ns })
          else some (rest, f)
        | _ => some (rest, f)
  | .stdPM =>
    if value.take 2 = "PM".toList then some (value.drop 2, { f with pmSet := true })
    else if value.take 2 = "AM".toList then some (value.drop 2, { f with amSet := true })
    else none
  | .stdpm =>
    if value.take 2 = "pm".toList then some (value.drop 2, { f with pmSet := true })
    else if value.take 2 = "am".toList then some (value.drop 2, { f with amSet := true })
    else none
  | .stdISO8601TZ | .stdISO8601ShortTZ | .stdISO8601ColonTZ | .stdISO8601SecondsTZ
  | .stdISO8601ColonSecondsTZ =>
    match value with
    | 'Z' :: rest => some (rest, { f with zUTC := true })
    | _ => time.parseNumZone std value f
  | .stdNumTZ | .stdNumShortTZ | .stdNumColonTZ | .stdNumSecondsTz | .stdNumColonSecondsTZ =>
    time.parseNumZone std value f
  | .stdTZ =>
    match time.cutPrefix "UTC".toList value with
    | some rest => some (rest, { f with zUTC := true })
    | none =>
      match time.parseTimeZone value with
      | none => none
      | some n => some (value.drop n, { f with zoneName := value.take n })
  | .stdFracSecond0 digits _ =>
    if value.length < 1 + digits then none
    else
      match time.parseNanoseconds value (1 + digits) with
      | none => none
      | some ns => some (value.drop (1 + digits), { f with nsec := ns })
  | .stdFracSecond9 _ _ =>
    match value with
    | c :: d :: _ =>
      if (c = '.' ∨ c = ',') ∧ (strconv.digitVal d).isSome then
        let n := 1 + ((value.drop 1).takeWhile (fun c => (strconv.digitVal c).isSome)).length
        match time.parseNanoseconds value n with
        | none => none
        | some ns => some (value.drop n, { f with nsec := ns })
      else some (value, f)
    | _ => some (value, f)

/-- The loop of Go `time.parse` over the elements of the layout: the values
collected when the value fits the layout to its end.  The first argument bounds
the number of turns, one for each element of the layout. -/
def time.parseLoop : Nat → GoString → GoString → time.Fields → Option time.Fields
  | 0, _, _, _ => none
  | fuel + 1, layout, value, f =>
    match time.nextStdChunk layout with
    | (lit, std, suffix) =>
      match time.skip lit.length value lit with
      | none => none
      | some value =>
        match std with
        | none => if value.length ≠ 0 then none else some f
        | some std =>
          match time.parseStd std suffix value f with
          | none => none
          | some (value, f) => time.parseLoop fuel suffix value f

/-- Go `(*Time).addSec` on a time without a monotonic clock reading: the time
`d` seconds later, or the end of the `int64` range when the sum leaves it. -/
def Time.addSec (t : Time) (d : Int) : Time :=
  let sum := toInt64 (t.sec + d)
  if decide (sum > t.sec) = decide (d > 0) then { t with sec := sum }
  else if d > 0 then { t with sec := 2 ^ 63 - 1 }
  else { t with sec := -(2 ^ 63 - 1) }

/-- The end of Go `time.parse`: the time of the values collected.  `loc` is
the location `time.Local`. -/
def time.parseFinish (loc : Option Location) (f : time.Fields) : Option Time :=
  let hour :=
    if f.pmSet ∧ f.hour < 12 then f.hour + 12
    else if f.amSet ∧ f.hour = 12 then 0
    else f.hour
  let month := if f.month < 0 then 1 else f.month
  let day := if f.day < 0 then 1 else f.day
  if day < 1 ∨ day > time.daysIn month.toNat f.year then none
  else if f.zUTC then some (time.Date f.year month day hour f.min f.sec f.nsec none)
  else if f.zoneOffset ≠ -1 then
    let t := time.Date f.year month day hour f.min f.sec f.nsec none
    let t := t.addSec (toInt64 (-f.zoneOffset))
    let localName : GoString := match loc with
      | none => "UTC".toList
      | some l => l.name
    if Location.offsetOf loc = f.zoneOffset ∧ (f.zoneName = [] ∨ localName = f.zoneName) then
      some { t with loc := loc }
    else some { t with loc := some ⟨f.zoneName, f.zoneOffset⟩ }
  else if f.zoneName ≠ [] then
    let t := time.Date f.year month day hour f.min f.sec f.nsec none
    match loc with
    | some l =>
      if l.name = f.zoneName then
        some { t.addSec (toInt64 (-l.offset)) with loc := loc }
      else
        let offset :=
          if f.zoneName.length > 3 ∧ f.zoneName.take 3 = "GMT".toList then
            (time.atoi (f.zoneName.drop 3)).getD 0 * 3600
          else 0
        some { t with loc := some ⟨f.zoneName, offset⟩ }
    | none =>
      let offset :=
        if f.zoneName.length > 3 ∧ f.zoneName.take 3 = "GMT".toList then
          (time.atoi (f.zoneName.drop 3)).getD 0 * 3600
        else 0
      some { t with loc := some ⟨f.zoneName, offset⟩ }
  else some (time.Date f.year month day hour f.min f.sec f.nsec none)

/-- Go `time.Parse(layout, value)`, with the location `time.Local` as `loc`:
the time the value denotes in the layout, or a `*time.ParseError`. -/
def time.Parse (loc : Option Location) (layout value : GoString) : Except Error Time :=
  match time.parseLoop (layout.length + 1) layout value time.Fields.init with
  | none => .error (.timeParse layout value)
  | some f =>
    match time.parseFinish loc f with
    | none => .error (.timeParse layout value)
    | some t => .ok t


/-! ## Timestamps on the wire -/

/-- Go `xmlTimeLayouts`. -/
def xmlTimeLayouts : List GoString :=
  [time.ANSIC, time.UnixDate, time.RubyDate, time.RFC822, time.RFC822Z, time.RFC850,
   time.RFC1123, time.RFC1123Z, time.RFC3339, time.RFC3339Nano, time.Kitchen, time.Stamp,
   time.StampMilli, time.StampMicro, time.StampNano]

/-- The `range` loop of `tryParseTime`.  `err` is the variable `err` declared
before the loop; the `t, err := time.Parse(l, v)` of the body declares
variables of its own, so no turn of the loop assigns to it. -/
def tryParseTime_loop (parse : GoString → GoString → Except Error Time) (v : GoString)
    (err : Option Error) : List GoString → Time × Option Error
  | [] => (Time.zero, err)
  | l :: ls =>
    match parse l v with
    | .ok t => (t, none)
    | .error _ => tryParseTime_loop parse v err ls

/-- Go `tryParseTime`, with `time.Parse` as `parse`: the time and the error
returned (`none` is nil). -/
def tryParseTime (parse : GoString → GoString → Except Error Time) (v : GoString) :
    Time × Option Error :=
  tryParseTime_loop parse v none xmlTimeLayouts

/-- Go `(*xmlTime).UnmarshalXML`.  `xt` is the receiver before the call and
`dec` what `d.DecodeElement(&v, &start)` gave; the result is the receiver
after the call and the error returned. -/
def xmlTime.UnmarshalXML (parse : GoString → GoString → Except Error Time) (xt : xmlTime)
    (dec : Except Error GoString) : xmlTime × Option Error :=
  match dec with
  | .error err => (xt, some err)
  | .ok v =>
    match tryParseTime parse v with
    | (_, some err) => (xt, some err)
    | (t, none) => (t, none)

/-- Go `xml.Attr`. -/
structure xml.Attr where
  Name : xml.Name
  Value : GoString
  deriving DecidableEq, Repr

/-- Go `(*xmlTime).UnmarshalXMLAttr`. -/
def xmlTime.UnmarshalXMLAttr (parse : GoString → GoString → Except Error Time) (xt : xmlTime)
    (attr : xml.Attr) : xmlTime × Option Error :=
  match tryParseTime parse attr.Value with
  | (_, some err) => (xt, some err)
  | (t, none) => (t, none)

/-- Go `(*xmlTime).MarshalXML`: the text handed to `e.EncodeElement`. -/
def xmlTime.MarshalXML (xt : xmlTime) : GoString :=
  xt.Format time.RFC1123

/-- Go `(*xmlTime).MarshalXMLAttr`. -/
def xmlTime.MarshalXMLAttr (xt : xmlTime) (name : xml.Name) : xml.Attr × Option Error :=
  (⟨name, xt.Format time.RFC1123⟩, none)

/-! ## The `expansionState` element of the head

The field `ExpansionState *xmlExpansionState` carries the tag
`xml:"expansionState,omitempty"`.  The encoder of `encoding/xml` leaves out a
pointer field tagged `omitempty` when the pointer is nil, and otherwise writes
the element the marshaller of the value gives.  The decoder leaves the pointer
as it is when the document has no such element, and otherwise points it to a
value (a fresh one for a nil pointer) and runs the unmarshaller on it. -/

/-- The text of the `expansionState` element the encoder writes for a head,
`none` when it writes no such element. -/
def xmlHead.encodeExpansionState (h : xmlHead) : Option GoString :=
  h.ExpansionState.map xmlExpansionState.MarshalXML

/-- The head after the decoder has met the `expansionState` element with the
text `elem` (`none`: the document has no such element), and the error. -/
def xmlHead.decodeExpansionState (h : xmlHead) (elem : Option GoString) :
    xmlHead × Option Error :=
  match elem with
  | none => (h, none)
  | some v =>
    let r := xmlExpansionState.UnmarshalXML (h.ExpansionState.getD ⟨none⟩) (.ok v)
    ({ h with ExpansionState := some r.1 }, r.2)


/-! ## Sample values -/

/-- An outline with a text and nothing else. -/
def Outline.ofText (text : GoString) : Outline :=
  { Text := text, Type' := [], IsComment := false, IsBreakpoint := false, Created := Time.zero,
    Categories := none, XMLURL := none, Description := [], HTMLURL := none, Language := [],
    Title := [], Version := [], URL := none, Outlines := none }

/-- The location `time.Parse` makes for the abbreviation `GMT`. -/
def sampleGMT : Location := ⟨"GMT".toList, 0⟩

/-- A document after `category` and `specification` of `opml_test.go`: an
empty non-nil expansion state, categories, a timestamp on an outline and
outlines two levels deep. -/
def sampleOPML : OPML :=
  { Version := "2.0".toList
    Title := "Illustrating the category attribute".toList
    DateCreated := ⟨63266383380, 0, some sampleGMT⟩
    DateModified := Time.zero
    OwnerName := "Dave Winer".toList
    OwnerEmail := []
    OwnerID := none
    Docs := none
    ExpansionState := some []
    VertScrollState := 1
    WindowTop := 146
    WindowLeft := 107
    WindowBottom := 468
    WindowRight := 560
    Outlines := some [
      { Outline.ofText "The Mets are the best team in baseball.".toList with
        Categories := some ["/Philosophy/Baseball/Mets".toList, "/Tourism/New York".toList]
        Created := ⟨63266379693, 0, some sampleGMT⟩ },
      { Outline.ofText "United States".toList with
        Outlines := some [Outline.ofText "Far West".toList, Outline.ofText "Great Plains".toList] }] }


/-! ## The text of a time in the layout RFC1123 -/

/-- The text `Mon, 02 Jan 2006 15:04:05 MST` with the day of the week `wd`
(Sunday is 0), the month `mo` (January is 0), the decimal digits of the day,
year, hour, minute and second, and the abbreviation `zone` of the time zone. -/
def rfc1123Text (wd mo d1 d0 y3 y2 y1 y0 h1 h0 m1 m0 s1 s0 : Nat) (zone : GoString) :
    GoString :=
  time.shortDayNames.getD wd [] ++ (',' :: ' ' :: strconv.digitChar d1 ::
    strconv.digitChar d0 :: ' ' :: (time.shortMonthNames.getD mo [] ++ (' ' ::
    strconv.digitChar y3 :: strconv.digitChar y2 :: strconv.digitChar y1 ::
    strconv.digitChar y0 :: ' ' :: strconv.digitChar h1 :: strconv.digitChar h0 :: ':' ::
    strconv.digitChar m1 :: strconv.digitChar m0 :: ':' :: strconv.digitChar s1 ::
    strconv.digitChar s0 :: ' ' :: zone)))


/-- The text `Mon, 02 Jan 2006 15:04:05 MST` of the date and the clock of the
absolute second `abs`, for a year from 0 to 9999, with the text `zone` of the
time zone. -/
def rfc1123TextAt (abs : Nat) (zone : GoString) : GoString :=
  rfc1123Text (time.absWeekday abs) ((time.absDate abs).month - 1)
    ((time.absDate abs).day / 10) ((time.absDate abs).day % 10)
    ((time.absDate abs).year.toNat / 1000) ((time.absDate abs).year.toNat / 100 % 10)
    ((time.absDate abs).year.toNat / 10 % 10) ((time.absDate abs).year.toNat % 10)
    ((time.absClock abs).1 / 10) ((time.absClock abs).1 % 10)
    ((time.absClock abs).2.1 / 10) ((time.absClock abs).2.1 % 10)
    ((time.absClock abs).2.2 / 10) ((time.absClock abs).2.2 % 10) zone

/-- The values `time.parse` has collected when it has read the date and the
clock of the absolute second `abs`, and no zone yet. -/
def time.Fields.ofAbs (abs : Nat) : time.Fields :=
  { year := (time.absDate abs).year, month := ((time.absDate abs).month : Int),
    day := ((time.absDate abs).day : Int), hour := ((time.absClock abs).1 : Int),
    min := ((time.absClock abs).2.1 : Int), sec := ((time.absClock abs).2.2 : Int),
    nsec := 0, zUTC := false, zoneOffset := -1, zoneName := [], amSet := false,
    pmSet := false }

/-- The text `Time.Format` writes at the element `MST` of a layout for a time
in the location: the abbreviation of the zone, or the offset in the form
`-0700` for a zone without abbreviation. -/
def Location.zoneText (l : Option Location) : GoString :=
  match l with
  | none => "UTC".toList
  | some z => if z.name ≠ [] then z.name else time.appendZone z.offset false true false

/-! ## Categories -/

/-- The `range` loop of `xmlCategories.UnmarshalXMLAttr` over the pieces of the
attribute value: `categories` is the slice built so far (nil at the start). -/
def xmlCategories.unmarshalLoop : Option (List GoString) → List GoString →
    Option (List GoString)
  | categories, [] => categories
  | categories, str :: rest =>
    let trimmed := strings.TrimSpace str
    if trimmed.length = 0 then xmlCategories.unmarshalLoop categories rest
    else xmlCategories.unmarshalLoop (goAppend categories trimmed) rest

/-- Go `(*xmlCategories).UnmarshalXMLAttr`: `_c` is the slice the receiver
points to before the call; the result is the slice after the call and the
error returned (`none` is nil). -/
def xmlCategories.UnmarshalXMLAttr (_c : xmlCategories) (attr : xml.Attr) :
    xmlCategories × Option Error :=
  (xmlCategories.unmarshalLoop none (strings.Split attr.Value ','), none)

/-- Go `xmlCategories.MarshalXMLAttr`. -/
def xmlCategories.MarshalXMLAttr (c : xmlCategories) (name : xml.Name) :
    xml.Attr × Option Error :=
  (⟨name, strings.Join (c.getD []) ','⟩, none)

/-- The wire outline after the decoder has met the attribute `category` of its
start tag (`none`: the start tag has no such attribute), and the error.  The
decoder calls `UnmarshalXMLAttr` on the address of the field `Categories`, and
leaves the field as it is when the attribute is missing. -/
def xmlOutline.decodeCategory (xo : xmlOutline) (attr : Option xml.Attr) :
    xmlOutline × Option Error :=
  match attr with
  | none => (xo, none)
  | some a =>
    match xmlCategories.UnmarshalXMLAttr xo.Categories a with
    | (c, err) => ({ xo with Categories := c }, err)

/-- A string without leading and without trailing white space: neither its
first nor its last character is a space character. -/
def Trimmed (e : GoString) : Bool :=
  !(e.head?.any unicode.IsSpace) && !(e.getLast?.any unicode.IsSpace)

/-- A category string that is non-empty, contains no comma and has no leading
or trailing white space. -/
def PlainCategory (e : GoString) : Bool :=
  !e.isEmpty && !e.contains ',' && Trimmed e

/-! ## URLs on the wire -/

/-- Go `(*xmlURL).MarshalXMLAttr`.  `urlString` is `(*url.URL).String`. -/
def xmlURL.MarshalXMLAttr (urlString : URL → GoString) (u : xmlURL) (name : xml.Name) :
    xml.Attr × Option Error :=
  (⟨name, urlString u⟩, none)

/-! ## The start tag and the children of an outline element

The encoder of `encoding/xml` walks the fields of `xmlOutline` tagged `attr` in
the order of their declaration.  A field tagged `omitempty` is skipped when it
is empty: a string of length 0, a false boolean, a nil pointer, a slice of
length 0.  For a value that implements `xml.MarshalerAttr` the encoder calls
`MarshalXMLAttr` with the name of the tag, fails when the call fails, and adds
the attribute returned when its local name is not empty; a string is written
as it is and a boolean as `strconv.FormatBool` gives it.  The field `Outlines`,
tagged `outline,omitempty`, gives one nested `outline` element for each element
of the slice. -/

/-- Go `strconv.FormatBool`. -/
def strconv.FormatBool (b : Bool) : GoString :=
  if b then "true".toList else "false".toList

/-- The encoder on a string field tagged `name,attr`, with `omitempty` when
`omitEmpty` is set. -/
def xml.stringAttr (omitEmpty : Bool) (name : GoString) (v : GoString) :
    Except Error (List xml.Attr) :=
  if omitEmpty && v.length = 0 then .ok [] else .ok [⟨⟨[], name⟩, v⟩]

/-- The encoder on a boolean field tagged `name,attr`, with `omitempty` when
`omitEmpty` is set. -/
def xml.boolAttr (omitEmpty : Bool) (name : GoString) (v : Bool) :
    Except Error (List xml.Attr) :=
  if omitEmpty && v = false then .ok [] else .ok [⟨⟨[], name⟩, strconv.FormatBool v⟩]

/-- The encoder on what `MarshalXMLAttr` returned for a field. -/
def xml.marshalerAttr (r : xml.Attr × Option Error) : Except Error (List xml.Attr) :=
  match r with
  | (_, some err) => .error err
  | (attr, none) => if attr.Name.Local ≠ [] then .ok [attr] else .ok []

/-- The encoder on a pointer field tagged `name,attr,omitempty` whose type
implements `xml.MarshalerAttr` by `marshal`. -/
def xml.pointerAttr {α : Type} (marshal : α → xml.Name → xml.Attr × Option Error)
    (name : GoString) (p : Option α) : Except Error (List xml.Attr) :=
  match p with
  | none => .ok []
  | some v => xml.marshalerAttr (marshal v ⟨[], name⟩)

/-- The encoder on the field `Categories xmlCategories`, tagged
`category,attr,omitempty`. -/
def xml.categoriesAttr (name : GoString) (c : xmlCategories) : Except Error (List xml.Attr) :=
  if (c.getD []).length = 0 then .ok []
  else xml.marshalerAttr (xmlCategories.MarshalXMLAttr c ⟨[], name⟩)

/-- The attributes of the start tag the encoder writes for an outline, in
order, after the struct tags of `xmlOutline`. -/
def xmlOutline.encodeAttrs (urlString : Opml.URL → GoString) (xo : xmlOutline) :
    Except Error (List xml.Attr) := do
  let text ← xml.stringAttr false "text".toList xo.Text
  let type ← xml.stringAttr true "type".toList xo.Type'
  let isComment ← xml.boolAttr true "isComment".toList xo.IsComment
  let isBreakpoint ← xml.boolAttr true "isBreakpoint".toList xo.IsBreakpoint
  let created ← xml.pointerAttr xmlTime.MarshalXMLAttr "created".toList xo.Created
  let category ← xml.categoriesAttr "category".toList xo.Categories
  let xmlUrl ← xml.pointerAttr (xmlURL.MarshalXMLAttr urlString) "xmlUrl".toList xo.XMLURL
  let description ← xml.stringAttr true "description".toList xo.Description
  let htmlUrl ← xml.pointerAttr (xmlURL.MarshalXMLAttr urlString) "htmlUrl".toList xo.HTMLURL
  let language ← xml.stringAttr true "language".toList xo.Language
  let title ← xml.stringAttr true "title".toList xo.Title
  let version ← xml.stringAttr true "version".toList xo.Version
  let url ← xml.pointerAttr (xmlURL.MarshalXMLAttr urlString) "url".toList xo.URL
  return text ++ type ++ isComment ++ isBreakpoint ++ created ++ category ++ xmlUrl ++
    description ++ htmlUrl ++ language ++ title ++ version ++ url

/-- The wire outlines for which the encoder writes a nested `outline` element
inside the element of `xo`, in order: the elements of the slice `Outlines`. -/
def xmlOutline.encodeChildren (xo : xmlOutline) : List xmlOutline :=
  xo.Outlines.getD []

/-- The wire outlines for which the encoder writes an `outline` element inside
`body`, in order. -/
def xmlBody.encodeChildren (b : xmlBody) : List xmlOutline :=
  b.Outlines.getD []

/-- Whether a start tag carries an attribute with the local name `name`. -/
def xml.hasAttr (attrs : List xml.Attr) (name : GoString) : Bool :=
  attrs.any (fun a => a.Name.Local = name)

/-- The text of the `dateCreated` element the encoder writes for a head, `none`
when it writes no such element: the field is a pointer tagged `omitempty`. -/
def xmlHead.encodeDateCreated (h : xmlHead) : Option GoString :=
  h.DateCreated.map xmlTime.MarshalXML

/-- The text of the `dateModified` element the encoder writes for a head,
`none` when it writes no such element. -/
def xmlHead.encodeDateModified (h : xmlHead) : Option GoString :=
  h.DateModified.map xmlTime.MarshalXML

/-! ## Parsing a document -/

/-- Go `*xml.Decoder` as far as `Parse` uses it: `Decode` takes the value its
argument points to before the call and gives the value after the call and the
error returned (`none` is nil). -/
structure xml.Decoder where
  Decode : xmlOPML → xmlOPML × Option Error

/-- Go `type Parser struct`. -/
structure Parser where
  XMLDecoder : xml.Decoder

/-- Go `NewParser`.  `newDecoder` is `xml.NewDecoder`, and `Reader` the type of
what it reads from. -/
def NewParser {Reader : Type} (newDecoder : Reader → xml.Decoder) (r : Reader) : Parser :=
  { XMLDecoder := newDecoder r }

/-- Go `(*Parser).Parse`: the pointer to the document (`none` is nil) and the
error (`none` is nil). -/
def Parser.Parse (p : Parser) : Option OPML × Option Error :=
  match p.XMLDecoder.Decode xmlOPML.zero with
  | (_, some err) => (none, some err)
  | (xmlOPML, none) => (some xmlOPML.ToOPML, none)

/-- Go `Parse`. -/
def Parse {Reader : Type} (newDecoder : Reader → xml.Decoder) (r : Reader) :
    Option OPML × Option Error :=
  (NewParser newDecoder r).Parse

/-- A decoder that fails with `err` and leaves its argument as it is. -/
def sampleFailingDecoder (err : Error) : xml.Decoder :=
  ⟨fun v => (v, some err)⟩

/-- A decoder that stores `x` and returns no error. -/
def sampleDecoder (x : xmlOPML) : xml.Decoder :=
  ⟨fun _ => (x, none)⟩

/-! ## URLs: reading -/

/-- Go `(*xmlURL).UnmarshalXML`.  `parse` is `url.Parse` (the URL its result
points to, or its error), `u` the receiver before the call and `dec` what
`d.DecodeElement(&v, &start)` gave: the text `v` of the element, or the
decoder's error.  The result is the receiver after the call and the error
returned (`none` is nil). -/
def xmlURL.UnmarshalXML (parse : GoString → Except Error URL) (u : xmlURL)
    (dec : Except Error GoString) : xmlURL × Option Error :=
  match dec with
  | .error err => (u, some err)
  | .ok v =>
    match parse v with
    | .error err => (u, some err)
    | .ok url => (url, none)

/-- Go `(*xmlURL).UnmarshalXMLAttr`. -/
def xmlURL.UnmarshalXMLAttr (parse : GoString → Except Error URL) (u : xmlURL)
    (attr : xml.Attr) : xmlURL × Option Error :=
  match parse attr.Value with
  | .error err => (u, some err)
  | .ok url => (url, none)

/-- Go `(*xmlURL).MarshalXML`: the text handed to `e.EncodeElement`. -/
def xmlURL.MarshalXML (urlString : URL → GoString) (u : xmlURL) : GoString :=
  urlString u

/-! ## The attributes of start tags on reading

For a struct the decoder of `encoding/xml` goes through the attributes of the
start tag in order and hands each one to the field tagged `attr` whose name is
the local name of the attribute; an attribute no such field takes is ignored.
A string field receives the value of the attribute. -/

/-- The decoder on a string field tagged `name,attr`: `field` is the field
before, the result the field after the attributes `attrs` of the start tag. -/
def xml.decodeStringAttr (name : GoString) (field : GoString) (attrs : List xml.Attr) :
    GoString :=
  attrs.foldl (fun f a => if a.Name.Local = name then a.Value else f) field

/-- The wire document after the attributes of the start tag of the root
element `opml`: `xmlOPML` has no field tagged `attr`, so every attribute is
ignored. -/
def xmlOPML.decodeAttrs (x : xmlOPML) (_attrs : List xml.Attr) : xmlOPML :=
  x

/-- The wire head after the attributes of the start tag of the element `head`:
`Version` is the one field tagged `attr`. -/
def xmlHead.decodeAttrs (h : xmlHead) (attrs : List xml.Attr) : xmlHead :=
  { h with Version := xml.decodeStringAttr "version".toList h.Version attrs }

/-- The wire document after the start tags of the root element, with the
attributes `rootAttrs`, and of its `head` element, with `headAttrs`. -/
def xmlOPML.decodeStartTags (x : xmlOPML) (rootAttrs headAttrs : List xml.Attr) : xmlOPML :=
  { x.decodeAttrs rootAttrs with Head := (x.decodeAttrs rootAttrs).Head.decodeAttrs headAttrs }

/-- The wire outline after the decoder has gone through the attributes of its
start tag for the field `Text`, tagged `text,attr`. -/
def xmlOutline.decodeText (xo : xmlOutline) (attrs : List xml.Attr) : xmlOutline :=
  { xo with Text := xml.decodeStringAttr "text".toList xo.Text attrs }

/-! ## The elements the encoder writes

The encoder writes a struct as an element named after the tag of the field
that holds it (the root after the tag of `XMLName`), with the fields tagged
`attr` as attributes and every other field as child elements, in the order of
declaration.  A field tagged `omitempty` is left out when it is empty (string
of length 0, integer 0, nil pointer, slice of length 0).  A string gives an
element holding the string, an integer one holding `strconv.Itoa` of it, a
pointer to a value with `MarshalXML` the element `EncodeElement` writes for
the text the method hands over, and a slice one element for each of its
elements. -/

/-- An element as written: its name, the attributes of its start tag, its
character data and its child elements. -/
structure xml.Element where
  Name : GoString
  Attr : List xml.Attr
  CharData : GoString
  Children : List xml.Element

/-- The encoder on a string field tagged `name`, with `omitempty` when
`omitEmpty` is set. -/
def xml.stringElem (omitEmpty : Bool) (name : GoString) (v : GoString) : List xml.Element :=
  if omitEmpty && v.length = 0 then [] else [⟨name, [], v, []⟩]

/-- The encoder on an `int` field tagged `name`, with `omitempty` when
`omitEmpty` is set. -/
def xml.intElem (omitEmpty : Bool) (name : GoString) (v : Int) : List xml.Element :=
  if omitEmpty && v = 0 then [] else [⟨name, [], strconv.Itoa v, []⟩]

/-- The encoder on a pointer field tagged `name,omitempty` whose value has
`MarshalXML`: `text` is the text the method hands to `EncodeElement`, `none`
for the nil pointer. -/
def xml.textElem (name : GoString) (text : Option GoString) : List xml.Element :=
  match text with
  | none => []
  | some t => [⟨name, [], t, []⟩]

/-- The attributes of the start tag the encoder writes for the root element:
`xmlOPML` has no field tagged `attr`. -/
def xmlOPML.encodeAttrs (_x : xmlOPML) : List xml.Attr :=
  []

/-- The attributes of the start tag the encoder writes for `head`: the field
`Version`, tagged `version,attr`. -/
def xmlHead.encodeAttrs (h : xmlHead) : List xml.Attr :=
  [⟨⟨[], "version".toList⟩, h.Version⟩]

/-- The element the encoder writes for the field `Head`, tagged `head`. -/
def xmlHead.encode (urlString : Opml.URL → GoString) (h : xmlHead) : xml.Element :=
  { Name := "head".toList
    Attr := h.encodeAttrs
    CharData := []
    Children :=
      xml.stringElem true "title".toList h.Title ++
      xml.textElem "dateCreated".toList h.encodeDateCreated ++
      xml.textElem "dateModified".toList h.encodeDateModified ++
      xml.stringElem true "ownerName".toList h.OwnerName ++
      xml.stringElem true "ownerEmail".toList h.OwnerEmail ++
      xml.textElem "ownerId".toList (h.OwnerID.map (xmlURL.MarshalXML urlString)) ++
      xml.textElem "docs".toList (h.Docs.map (xmlURL.MarshalXML urlString)) ++
      xml.textElem "expansionState".toList h.encodeExpansionState ++
      xml.intElem true "vertScrollState".toList h.VertScrollState ++
      xml.intElem true "windowTop".toList h.WindowTop ++
      xml.intElem true "windowLeft".toList h.WindowLeft ++
      xml.intElem true "windowBottom".toList h.WindowBottom ++
      xml.intElem true "windowRight".toList h.WindowRight }

mutual
/-- The element the encoder writes for a wire outline, or the error of a
`MarshalXMLAttr` it called. -/
def xmlOutline.encode (urlString : Opml.URL → GoString) : xmlOutline → Except Error xml.Element
  | ⟨text, type, isComment, isBreakpoint, created, categories, xmlURL, description, htmlURL,
      language, title, version, url, outlines⟩ =>
    match xmlOutline.encodeAttrs urlString ⟨text, type, isComment, isBreakpoint, created,
      categories, xmlURL, description, htmlURL, language, title, version, url, outlines⟩ with
    | .error err => .error err
    | .ok attrs =>
      match xmlOutlines.encode urlString outlines with
      | .error err => .error err
      | .ok children => .ok ⟨"outline".toList, attrs, [], children⟩
/-- The elements the encoder writes for a slice of wire outlines. -/
def xmlOutlines.encode (urlString : Opml.URL → GoString) :
    Option (List xmlOutline) → Except Error (List xml.Element)
  | none => .ok []
  | some xos => xmlOutlines.encode_loop urlString xos
/-- The encoder's walk over the elements of a slice of wire outlines. -/
def xmlOutlines.encode_loop (urlString : Opml.URL → GoString) :
    List xmlOutline → Except Error (List xml.Element)
  | [] => .ok []
  | xo :: rest =>
    match xmlOutline.encode urlString xo with
    | .error err => .error err
    | .ok e =>
      match xmlOutlines.encode_loop urlString rest with
      | .error err => .error err
      | .ok es => .ok (e :: es)
end

/-- The element the encoder writes for the field `Body`, tagged `body`. -/
def xmlBody.encode (urlString : Opml.URL → GoString) (b : xmlBody) : Except Error xml.Element :=
  match xmlOutlines.encode urlString b.Outlines with
  | .error err => .error err
  | .ok children => .ok ⟨"body".toList, [], [], children⟩

/-- The element the encoder writes for a wire document: the root `opml` with
the elements of `Head` and `Body`. -/
def xmlOPML.encode (urlString : Opml.URL → GoString) (x : xmlOPML) : Except Error xml.Element :=
  match x.Body.encode urlString with
  | .error err => .error err
  | .ok body => .ok ⟨"opml".toList, x.encodeAttrs, [], [x.Head.encode urlString, body]⟩

/-! ## Rendering a document -/

/-- Go `*xml.Encoder` as far as `Render` uses it: `write` is the underlying
writer, giving the error of writing the markup of an element (`none` is nil). -/
structure xml.Encoder where
  write : xml.Element → Option Error

/-- Go `(*xml.Encoder).Encode` on a wire document: the error of a marshaller,
or else the error of the writer. -/
def xml.Encoder.Encode (urlString : URL → GoString) (e : xml.Encoder) (v : xmlOPML) :
    Option Error :=
  match v.encode urlString with
  | .error err => some err
  | .ok element => e.write element

/-- Go `type Renderer struct`. -/
structure Renderer where
  XMLEncoder : xml.Encoder

/-- Go `NewRenderer`.  `newEncoder` is `xml.NewEncoder`, and `Writer` the type
of what it writes to. -/
def NewRenderer {Writer : Type} (newEncoder : Writer → xml.Encoder) (w : Writer) : Renderer :=
  { XMLEncoder := newEncoder w }

/-- Go `(*Renderer).Render`: the error returned (`none` is nil). -/
def Renderer.Render (urlString : URL → GoString) (r : Renderer) (opml : OPML) : Option Error :=
  r.XMLEncoder.Encode urlString (xmlOPML.zero.FromOPML opml)

/-- Go `Render`. -/
def Render {Writer : Type} (urlString : URL → GoString) (newEncoder : Writer → xml.Encoder)
    (w : Writer) (opml : OPML) : Option Error :=
  (NewRenderer newEncoder w).Render urlString opml

/-! ## The shape of an outline tree -/

/-- A tree of texts: what is left of an outline tree when only the text of
each node and the nesting are kept. -/
inductive TextTree where
  | node (text : GoString) (children : List TextTree) : TextTree

mutual
/-- The number of nodes of a tree. -/
def TextTree.size : TextTree → Nat
  | .node _ children => 1 + TextTree.sizeAll children
/-- The number of nodes of a list of trees. -/
def TextTree.sizeAll : List TextTree → Nat
  | [] => 0
  | t :: rest => TextTree.size t + TextTree.sizeAll rest
end

mutual
/-- The nesting depth of a tree: 1 for a node without children. -/
def TextTree.depth : TextTree → Nat
  | .node _ children => 1 + TextTree.depthAll children
/-- The greatest nesting depth in a list of trees, 0 for the empty list. -/
def TextTree.depthAll : List TextTree → Nat
  | [] => 0
  | t :: rest => max (TextTree.depth t) (TextTree.depthAll rest)
end

mutual
/-- The texts of the nodes of a tree, each node before its children. -/
def TextTree.texts : TextTree → List GoString
  | .node text children => text :: TextTree.textsAll children
/-- The texts of the nodes of a list of trees. -/
def TextTree.textsAll : List TextTree → List GoString
  | [] => []
  | t :: rest => TextTree.texts t ++ TextTree.textsAll rest
end

mutual
/-- The tree of texts of an outline. -/
def Outline.shape : Outline → TextTree
  | ⟨text, _, _, _, _, _, _, _, _, _, _, _, _, outlines⟩ =>
    .node text (Outline.shapeSeq outlines)
/-- The trees of texts of a slice of outlines; nil has none. -/
def Outline.shapeSeq : Option (List Outline) → List TextTree
  | none => []
  | some os => Outline.shapeAll os
/-- The trees of texts of a list of outlines. -/
def Outline.shapeAll : List Outline → List TextTree
  | [] => []
  | o :: rest => Outline.shape o :: Outline.shapeAll rest
end

mutual
/-- The tree of texts of a wire outline. -/
def xmlOutline.shape : xmlOutline → TextTree
  | ⟨text, _, _, _, _, _, _, _, _, _, _, _, _, outlines⟩ =>
    .node text (xmlOutline.shapeSeq outlines)
/-- The trees of texts of a slice of wire outlines; nil has none. -/
def xmlOutline.shapeSeq : Option (List xmlOutline) → List TextTree
  | none => []
  | some xos => xmlOutline.shapeAll xos
/-- The trees of texts of a list of wire outlines. -/
def xmlOutline.shapeAll : List xmlOutline → List TextTree
  | [] => []
  | xo :: rest => xmlOutline.shape xo :: xmlOutline.shapeAll rest
end

/-! ## More sample values -/

/-- The start of `http://dev.opml.org/examples/specification.opml`, the file
of the test `TestParseSpecification`: the attributes of the start tag
`<opml version="1.0">`. -/
def sampleRootAttrs : List xml.Attr :=
  [⟨⟨[], "version".toList⟩, "1.0".toList⟩]

/-- A document with a version, a title and one outline. -/
def sampleSmallOPML : OPML :=
  { sampleOPML with
    Version := "1.0".toList
    Title := "specification.xml".toList
    DateCreated := Time.zero
    Outlines := some [Outline.ofText "Music".toList] }

/-- A stand-in for `url.URL.String` on documents without URLs. -/
def sampleURLString (u : URL) : GoString :=
  u.Path

/-- An outline tree with five nodes on three levels, after `states` of
`opml_test.go`. -/
def sampleTreeOutline : Outline :=
  { Outline.ofText "United States".toList with
    Outlines := some [
      { Outline.ofText "Far West".toList with
        Outlines := some [Outline.ofText "Alaska".toList, Outline.ofText "California".toList] },
      { Outline.ofText "Great Plains".toList with Outlines := some [] }] }

/-! ## Documents with their pointers

In Go the elements of `Outlines []*Outline` are pointers, and `Render` takes a
`*OPML`: either may be nil.  `Outline` and `OPML` above are the documents all
of whose pointers point to a value.  The types below keep the pointers, with
`none` for nil, and the conversions to the wire records are given on them with
the run-time panic of a nil dereference as a result of its own. -/

/-- A run-time panic of the Go program. -/
inductive Panic where
  | nilDereference
  deriving DecidableEq, Repr

/-- Go `type Outline struct` with `Outlines []*Outline` as a slice of pointers:
an element is nil (`none`) or points to an outline. -/
structure PtrOutline where
  Text : GoString
  Type' : GoString
  IsComment : Bool
  IsBreakpoint : Bool
  Created : Time
  Categories : Option (List GoString)
  XMLURL : Option URL
  Description : GoString
  HTMLURL : Option URL
  Language : GoString
  Title : GoString
  Version : GoString
  URL : Option URL
  Outlines : Option (List (Option PtrOutline))

/-- Go `type OPML struct` with `Outlines []*Outline` as a slice of pointers. -/
structure PtrOPML where
  Version : GoString
  Title : GoString
  DateCreated : Time
  DateModified : Time
  OwnerName : GoString
  OwnerEmail : GoString
  OwnerID : Option URL
  Docs : Option URL
  ExpansionState : Option (List Int)
  VertScrollState : Int
  WindowTop : Int
  WindowLeft : Int
  WindowBottom : Int
  WindowRight : Int
  Outlines : Option (List (Option PtrOutline))

mutual
/-- Go `(*xmlOutline).FromOutline` on a pointer: `xo` is the receiver before
the call and `o` the argument; the result is the receiver after the call, or
the panic of the dereference `o.Text` of a nil `o`. -/
def xmlOutline.FromOutlinePtr (xo : xmlOutline) : Option PtrOutline → Except Panic xmlOutline
  | none => .error .nilDereference
  | some ⟨text, type, isComment, isBreakpoint, created, categories, xmlURL, description,
      htmlURL, language, title, version, url, outlines⟩ =>
    match xmlOutlines.FromOutlinesPtr xo.Outlines outlines with
    | .error p => .error p
    | .ok xos =>
      .ok { Text := text
            Type' := type
            IsComment := isComment
            IsBreakpoint := isBreakpoint
            Created := if created.IsZero then none else some created
            Categories := categories
            XMLURL := xmlURL
            Description := description
            HTMLURL := htmlURL
            Language := language
            Title := title
            Version := version
            URL := url
            Outlines := xos }
/-- Go `(*xmlOutlines).FromOutlines` on a slice of pointers. -/
def xmlOutlines.FromOutlinesPtr (xos : xmlOutlines) :
    Option (List (Option PtrOutline)) → Except Panic xmlOutlines
  | none => .ok xos
  | some os => xmlOutlines.FromOutlinesPtr_loop xos os
/-- The `range` loop of `FromOutlines` on a slice of pointers. -/
def xmlOutlines.FromOutlinesPtr_loop (xos : xmlOutlines) :
    List (Option PtrOutline) → Except Panic xmlOutlines
  | [] => .ok xos
  | o :: rest =>
    match xmlOutline.FromOutlinePtr xmlOutline.zero o with
    | .error p => .error p
    | .ok xo => xmlOutlines.FromOutlinesPtr_loop (goAppend xos xo) rest
end

/-- Go `(*xmlOPML).FromOPML` on a pointer: `xo` is the receiver before the call
and `o` the argument; the result is the receiver after the call, or the panic
of the dereference `o.Version` of a nil `o` or of a nil outline. -/
def xmlOPML.FromOPMLPtr (xo : xmlOPML) : Option PtrOPML → Except Panic xmlOPML
  | none => .error .nilDereference
  | some o =>
    match xmlOutlines.FromOutlinesPtr xo.Body.Outlines o.Outlines with
    | .error p => .error p
    | .ok xos =>
      .ok { XMLName := xo.XMLName
            Head :=
              { Version := o.Version
                Title := o.Title
                OwnerName := o.OwnerName
                OwnerEmail := o.OwnerEmail
                OwnerID := o.OwnerID
                Docs := o.Docs
                VertScrollState := o.VertScrollState
                WindowTop := o.WindowTop
                WindowLeft := o.WindowLeft
                WindowBottom := o.WindowBottom
                WindowRight := o.WindowRight
                ExpansionState := match o.ExpansionState with
                  | none => none
                  | some l => some ⟨some l⟩
                DateCreated := if o.DateCreated.IsZero then none else some o.DateCreated
                DateModified := if o.DateModified.IsZero then none else some o.DateModified }
            Body := ⟨xos⟩ }

/-- Go `(*Renderer).Render` on a pointer: the error returned (`none` is nil),
or the panic of `FromOPML`. -/
def Renderer.RenderPtr (urlString : URL → GoString) (r : Renderer) (opml : Option PtrOPML) :
    Except Panic (Option Error) :=
  match xmlOPML.zero.FromOPMLPtr opml with
  | .error p => .error p
  | .ok xmlOPML => .ok (r.XMLEncoder.Encode urlString xmlOPML)

/-- Go `Render` on a pointer. -/
def RenderPtr {Writer : Type} (urlString : URL → GoString) (newEncoder : Writer → xml.Encoder)
    (w : Writer) (opml : Option PtrOPML) : Except Panic (Option Error) :=
  (NewRenderer newEncoder w).RenderPtr urlString opml

mutual
/-- The outline with pointers that an outline all of whose pointers point to a
value stands for. -/
def Outline.toPtr : Outline → PtrOutline
  | ⟨text, type, isComment, isBreakpoint, created, categories, xmlURL, description, htmlURL,
      language, title, version, url, outlines⟩ =>
    ⟨text, type, isComment, isBreakpoint, created, categories, xmlURL, description, htmlURL,
      language, title, version, url, Outline.toPtrSeq outlines⟩
/-- A slice of outlines as a slice of non-nil pointers. -/
def Outline.toPtrSeq : Option (List Outline) → Option (List (Option PtrOutline))
  | none => none
  | some os => some (Outline.toPtrAll os)
/-- A list of outlines as a list of non-nil pointers. -/
def Outline.toPtrAll : List Outline → List (Option PtrOutline)
  | [] => []
  | o :: rest => some (Outline.toPtr o) :: Outline.toPtrAll rest
end

/-- The document with pointers that a document all of whose pointers point to
a value stands for. -/
def OPML.toPtr (o : OPML) : PtrOPML :=
  { Version := o.Version
    Title := o.Title
    DateCreated := o.DateCreated
    DateModified := o.DateModified
    OwnerName := o.OwnerName
    OwnerEmail := o.OwnerEmail
    OwnerID := o.OwnerID
    Docs := o.Docs
    ExpansionState := o.ExpansionState
    VertScrollState := o.VertScrollState
    WindowTop := o.WindowTop
    WindowLeft := o.WindowLeft
    WindowBottom := o.WindowBottom
    WindowRight := o.WindowRight
    Outlines := Outline.toPtrSeq o.Outlines }

mutual
/-- No slice of the outline, at any depth, holds a nil pointer. -/
def PtrOutline.NilFree : PtrOutline → Bool
  | ⟨_, _, _, _, _, _, _, _, _, _, _, _, _, outlines⟩ => PtrOutline.NilFreeSeq outlines
/-- No pointer of the slice is nil, and none of the outlines they point to
holds one. -/
def PtrOutline.NilFreeSeq : Option (List (Option PtrOutline)) → Bool
  | none => true
  | some os => PtrOutline.NilFreeAll os
/-- No pointer of the list is nil, and none of the outlines they point to holds
one. -/
def PtrOutline.NilFreeAll : List (Option PtrOutline) → Bool
  | [] => true
  | none :: _ => false
  | some o :: rest => PtrOutline.NilFree o && PtrOutline.NilFreeAll rest
end

/-- A document pointer that is not nil and reaches no nil outline pointer. -/
def PtrOPML.NilFree : Option PtrOPML → Bool
  | none => false
  | some o => PtrOutline.NilFreeSeq o.Outlines

/-- The document `&OPML{Version: "2.0", Outlines: []*Outline{nil}}`. -/
def samplePtrOPML : PtrOPML :=
  { (OPML.toPtr sampleSmallOPML) with Version := "2.0".toList, Outlines := some [none] }

/-- A document with a nil pointer one level down: the one top-level outline has
`Outlines: []*Outline{nil}`. -/
def sampleDeepPtrOPML : PtrOPML :=
  { (OPML.toPtr sampleSmallOPML) with
    Outlines := some [some { (Outline.ofText "Music".toList).toPtr with Outlines := some [none] }] }

/-! # Theorems -/

/-! ## Digits -/

theorem isDigit_iff (c : Char) : c.isDigit = true ↔ 48 ≤ c.toNat ∧ c.toNat ≤ 57 := by
  unfold Char.isDigit
  simp only [Bool.and_eq_true, decide_eq_true_eq, ge_iff_le]
  rfl

theorem digitVal_eq_some_iff (c : Char) (d : Nat) :
    strconv.digitVal c = some d ↔ c.isDigit = true ∧ d = c.toNat - '0'.toNat := by
  rw [isDigit_iff]
  unfold strconv.digitVal
  have h0 : '0'.toNat = 48 := rfl
  have h9 : '9'.toNat = 57 := rfl
  rw [h0, h9]
  split
  · rename_i h
    simp only [Option.some.injEq, h, true_and, and_self]
    exact eq_comm
  · rename_i h
    simp [h]

theorem digitVal_eq_none_iff (c : Char) :
    strconv.digitVal c = none ↔ c.isDigit = false := by
  rw [← Bool.not_eq_true, isDigit_iff]
  unfold strconv.digitVal
  have h0 : '0'.toNat = 48 := rfl
  have h9 : '9'.toNat = 57 := rfl
  rw [h0, h9]
  split <;> simp_all


/-! ## `strconv.Atoi` reads the decimal value -/

theorem horner_ge (cs : GoString) (n : Nat) :
    n ≤ cs.foldl (fun n c => n * 10 + (c.toNat - '0'.toNat)) n := by
  induction cs generalizing n with
  | nil => simp
  | cons c cs ih =>
    simp only [List.foldl_cons]
    exact le_trans (by omega) (ih _)

theorem parseUintLoop_ok_iff (s0 cs : GoString) (n m : Nat) (hn : n ≤ strconv.maxUint64) :
    strconv.parseUintLoop s0 n cs = .ok m ↔
      cs.all Char.isDigit = true ∧
      cs.foldl (fun n c => n * 10 + (c.toNat - '0'.toNat)) n = m ∧ m ≤ strconv.maxUint64 := by
  induction cs generalizing n with
  | nil =>
    simp only [strconv.parseUintLoop, Except.ok.injEq, List.all_nil, List.foldl_nil, true_and]
    constructor
    · rintro rfl; exact ⟨rfl, hn⟩
    · rintro ⟨h, _⟩; exact h
  | cons c cs ih =>
    simp only [strconv.parseUintLoop, List.all_cons, List.foldl_cons, Bool.and_eq_true]
    cases hd : strconv.digitVal c with
    | none =>
      have hc := (digitVal_eq_none_iff c).1 hd
      simp [hc]
    | some d =>
      obtain ⟨hc, hdv⟩ := (digitVal_eq_some_iff c d).1 hd
      have hd9 : d ≤ 9 := by
        have := (isDigit_iff c).1 hc
        have h0 : '0'.toNat = 48 := rfl
        omega
      have hmax : strconv.maxUint64 = 18446744073709551615 := by decide
      simp only [hc, true_and]
      rw [← hdv]
      by_cases h1 : n ≥ strconv.maxUint64 / 10 + 1
      · simp only [h1, if_true, reduceCtorEq, false_iff]
        rintro ⟨_, rfl, hle⟩
        have := horner_ge cs (n * 10 + d)
        rw [hmax] at h1 hle
        omega
      · simp only [h1, if_false]
        by_cases h2 : n * 10 + d > strconv.maxUint64
        · simp only [h2, if_true, reduceCtorEq, false_iff]
          rintro ⟨_, rfl, hle⟩
          have := horner_ge cs (n * 10 + d)
          omega
        · simp only [h2, if_false]
          exact ih (n * 10 + d) (by omega)

theorem ParseUint_ok_iff (s : GoString) (m : Nat) :
    strconv.ParseUint s = .ok m ↔ decimalNat s = some m ∧ m ≤ strconv.maxUint64 := by
  unfold strconv.ParseUint decimalNat
  cases s with
  | nil => simp
  | cons c cs =>
    simp only [parseUintLoop_ok_iff _ _ _ _ (Nat.zero_le _), ne_eq, reduceCtorEq,
      not_false_eq_true, true_and]
    by_cases h : (c :: cs).all Char.isDigit = true
    · simp [h]
    · simp [h]


theorem parseInt_tail_ok_iff (s : GoString) ( neg : Bool) (r : Except Error Nat) (n : Int) :
    (match r with
      | .error (.numRange _) => (.error (.numRange s) : Except Error Int)
      | .error _ => .error (.numSyntax s)
      | .ok un =>
        let cutoff : Nat := 2 ^ (strconv.intSize - 1)
        if !neg ∧ un ≥ cutoff then .error (.numRange s)
        else if neg ∧ un > cutoff then .error (.numRange s)
        else .ok (if neg then -(un : Int) else (un : Int))) = .ok n ↔
    ∃ un, r = .ok un ∧ n = (if neg then -(un : Int) else (un : Int)) ∧ IsGoInt n := by
  have hc : (2 : Nat) ^ (strconv.intSize - 1) = 9223372036854775808 := by decide
  have hmin : minInt = -9223372036854775808 := by decide
  have hmax : maxInt = 9223372036854775807 := by decide
  unfold IsGoInt
  rw [hmin, hmax]
  split
  · simp
  · simp
  · rename_i un
    simp only [hc, Except.ok.injEq, exists_eq_left']
    cases neg
    · simp only [Bool.not_false, true_and, Bool.false_eq_true, false_and, if_false]
      by_cases h : un ≥ 9223372036854775808
      · simp only [h, if_true, reduceCtorEq, false_iff]
        rintro ⟨rfl, _, h2⟩
        omega
      · simp only [h, if_false, Except.ok.injEq]
        constructor
        · rintro rfl; exact ⟨rfl, by omega, by omega⟩
        · rintro ⟨rfl, _⟩; rfl
    · simp only [Bool.not_true, Bool.false_eq_true, false_and, if_false, true_and, if_true]
      by_cases h : un > 9223372036854775808
      · simp only [h, if_true, reduceCtorEq, false_iff]
        rintro ⟨rfl, h2, _⟩
        omega
      · simp only [h, if_false, Except.ok.injEq]
        constructor
        · rintro rfl; exact ⟨rfl, by omega, by omega⟩
        · rintro ⟨rfl, _⟩; rfl

theorem option_map_eq_some_iff (o : Option Nat) (f : Nat → Int) (n : Int) :
    o.map f = some n ↔ ∃ un, o = some un ∧ n = f un := by
  cases o <;> simp [eq_comm]

theorem Atoi_ok_iff (s : GoString) (n : Int) :
    strconv.Atoi s = .ok n ↔ decimalValue s = some n ∧ IsGoInt n := by
  have hmin : minInt = -9223372036854775808 := by decide
  have hmax : maxInt = 9223372036854775807 := by decide
  have hU : strconv.maxUint64 = 18446744073709551615 := by decide
  have key : ∀ (body : GoString) ( neg : Bool),
      (∃ un, strconv.ParseUint body = .ok un ∧
          n = (if neg then -(un : Int) else (un : Int)) ∧ IsGoInt n) ↔
      (∃ un, decimalNat body = some un ∧
          n = (if neg then -(un : Int) else (un : Int))) ∧ IsGoInt n := by
    intro body neg
    constructor
    · rintro ⟨un, h1, h2, h3⟩
      exact ⟨⟨un, ((ParseUint_ok_iff _ _).1 h1).1, h2⟩, h3⟩
    · rintro ⟨⟨un, h1, h2⟩, h3⟩
      refine ⟨un, (ParseUint_ok_iff _ _).2 ⟨h1, ?_⟩, h2, h3⟩
      unfold IsGoInt at h3
      rw [hmin, hmax] at h3
      rw [hU]
      cases neg <;> simp at h2 <;> omega
  unfold strconv.Atoi strconv.ParseInt
  cases s with
  | nil => simp [decimalValue]
  | cons c cs =>
    simp only [parseInt_tail_ok_iff, key]
    unfold decimalValue
    by_cases h1 : c = '-'
    · subst h1
      simp only [beq_self_eq_true, or_true, if_true, option_map_eq_some_iff]
    · by_cases h2 : c = '+'
      · subst h2
        have h3 : ('+' == '-') = false := by decide
        simp only [beq_self_eq_true, true_or, if_true, h1, if_false, h3,
          option_map_eq_some_iff, Bool.false_eq_true]
      · have h3 : (c == '-') = false := by simpa using h1
        have h4 : (c == '+') = false := by simpa using h2
        simp only [h3, h4, Bool.false_eq_true, or_self, if_false, h1, h2,
          option_map_eq_some_iff]

theorem Atoi_error_iff (s : GoString) :
    (∃ err, strconv.Atoi s = .error err) ↔ ¬ ∃ n, decimalValue s = some n ∧ IsGoInt n := by
  constructor
  · rintro ⟨err, he⟩ ⟨n, hn⟩
    rw [(Atoi_ok_iff s n).2 hn] at he
    cases he
  · intro h
    cases hr : strconv.Atoi s with
    | error err => exact ⟨err, rfl⟩
    | ok n => exact absurd ⟨n, (Atoi_ok_iff s n).1 hr⟩ h

/-! ## `strconv.Itoa` writes decimal digits -/

theorem digitChar_mem (d : Nat) :
    strconv.digitChar d ∈ ['0', '1', '2', '3', '4', '5', '6', '7', '8', '9'] := by
  unfold strconv.digitChar
  split <;> simp

theorem digitChar_isDigit (d : Nat) : (strconv.digitChar d).isDigit = true := by
  have h : ∀ c ∈ ['0', '1', '2', '3', '4', '5', '6', '7', '8', '9'], c.isDigit = true := by
    decide
  exact h _ (digitChar_mem d)

theorem digitChar_toNat (d : Nat) (hd : d ≤ 9) :
    (strconv.digitChar d).toNat - '0'.toNat = d := by
  interval_cases d <;> rfl

theorem digitChar_eq_nat_digitChar (d : Nat) (hd : d ≤ 9) :
    strconv.digitChar d = Nat.digitChar d := by
  interval_cases d <;> rfl

theorem formatBits_all_isDigit (fuel u : Nat) (acc : GoString)
    (hacc : acc.all Char.isDigit = true) :
    (strconv.formatBits fuel u acc).all Char.isDigit = true := by
  induction fuel generalizing u acc with
  | zero => simp [strconv.formatBits, digitChar_isDigit, hacc]
  | succ fuel ih =>
    unfold strconv.formatBits
    split
    · exact ih _ _ (by simp [digitChar_isDigit, hacc])
    · simp [digitChar_isDigit, hacc]

theorem formatBits_ne_nil (fuel u : Nat) (acc : GoString) :
    strconv.formatBits fuel u acc ≠ [] := by
  induction fuel generalizing u acc with
  | zero => simp [strconv.formatBits]
  | succ fuel ih =>
    unfold strconv.formatBits
    split
    · exact ih _ _
    · simp

theorem formatBits_foldl (fuel u : Nat) (acc : GoString) (hu : u ≤ fuel) :
    (strconv.formatBits fuel u acc).foldl (fun n c => n * 10 + (c.toNat - '0'.toNat)) 0 =
      acc.foldl (fun n c => n * 10 + (c.toNat - '0'.toNat)) u := by
  induction fuel generalizing u acc with
  | zero =>
    have : u = 0 := by omega
    subst this
    rfl
  | succ fuel ih =>
    unfold strconv.formatBits
    split
    · rw [ih _ _ (by omega)]
      simp only [List.foldl_cons]
      rw [digitChar_toNat _ (by omega)]
      congr 1
      omega
    · simp only [List.foldl_cons]
      rw [digitChar_toNat _ (by omega)]
      simp

theorem formatBits_eq_toDigitsCore (fuel u : Nat) (acc : GoString) (hu : u ≤ fuel) :
    strconv.formatBits fuel u acc = Nat.toDigitsCore 10 (fuel + 1) u acc := by
  induction fuel generalizing u acc with
  | zero =>
    have : u = 0 := by omega
    subst this
    rfl
  | succ fuel ih =>
    unfold strconv.formatBits
    rw [Nat.toDigitsCore]
    split
    · rename_i h
      rw [ih _ _ (by omega)]
      have h2 : ¬ u / 10 = 0 := by omega
      simp only [h2, if_false]
      rw [digitChar_eq_nat_digitChar _ (by omega)]
    · rename_i h
      have h2 : u / 10 = 0 := by omega
      simp only [h2, if_true]
      rw [digitChar_eq_nat_digitChar _ (by omega)]
      congr 2
      omega

theorem decimalNat_formatBits (u : Nat) : decimalNat (strconv.formatBits u u []) = some u := by
  unfold decimalNat
  rw [if_pos ⟨formatBits_ne_nil _ _ _, formatBits_all_isDigit _ _ _ (by simp)⟩,
    formatBits_foldl _ _ _ (le_refl _)]
  simp

theorem formatBits_head_isDigit (u : Nat) :
    ∃ c cs, strconv.formatBits u u [] = c :: cs ∧ c.isDigit = true := by
  have h1 := formatBits_ne_nil u u []
  have h2 := formatBits_all_isDigit u u [] (by simp)
  cases h : strconv.formatBits u u [] with
  | nil => exact absurd h h1
  | cons c cs =>
    rw [h] at h2
    simp only [List.all_cons, Bool.and_eq_true] at h2
    exact ⟨c, cs, rfl, h2.1⟩

theorem decimalValue_Itoa (n : Int) : decimalValue (strconv.Itoa n) = some n := by
  unfold strconv.Itoa
  by_cases hn : n < 0
  · simp only [hn, if_true, decimalValue, decimalNat_formatBits, Option.map_some']
    congr 1
    omega
  · simp only [hn, if_false]
    obtain ⟨c, cs, hcs, hc⟩ := formatBits_head_isDigit n.natAbs
    have hd := decimalNat_formatBits n.natAbs
    rw [hcs] at hd ⊢
    have h1 : c ≠ '-' := by rintro rfl; revert hc; decide
    have h2 : c ≠ '+' := by rintro rfl; revert hc; decide
    simp only [decimalValue, h1, h2, if_false, hd, Option.map_some']
    congr 1
    omega

theorem Atoi_Itoa (n : Int) (hn : IsGoInt n) : strconv.Atoi (strconv.Itoa n) = .ok n :=
  (Atoi_ok_iff _ _).2 ⟨decimalValue_Itoa n, hn⟩

theorem Itoa_eq_decimalText (n : Int) : strconv.Itoa n = decimalText n := by
  unfold strconv.Itoa decimalText
  cases n with
  | ofNat m =>
    have h : ¬ Int.ofNat m < 0 := by simp
    rw [if_neg h, formatBits_eq_toDigitsCore _ _ _ (le_refl _)]
    rfl
  | negSucc m =>
    have h : Int.negSucc m < 0 := Int.negSucc_lt_zero m
    rw [if_pos h, formatBits_eq_toDigitsCore _ _ _ (le_refl _)]
    rfl

/-! ## `strings.TrimSpace`, `strings.Split`, `strings.Join` -/

theorem isDigit_not_space (c : Char) (h : c.isDigit = true) : unicode.IsSpace c = false := by
  have := (isDigit_iff c).1 h
  unfold unicode.IsSpace
  simp only [Bool.or_eq_false_iff, Bool.and_eq_false_iff, decide_eq_false_iff_not,
    beq_eq_false_iff_ne, ne_eq]
  omega

theorem isDigit_ne_comma (c : Char) (h : c.isDigit = true) : c ≠ ',' := by
  rintro rfl; revert h; decide

theorem Itoa_chars (n : Int) : ∀ c ∈ strconv.Itoa n, c.isDigit = true ∨ c = '-' := by
  have h := formatBits_all_isDigit n.natAbs n.natAbs [] (by simp)
  rw [List.all_eq_true] at h
  intro c hc
  unfold strconv.Itoa at hc
  split at hc
  · rcases List.mem_cons.1 hc with rfl | hc
    · exact Or.inr rfl
    · exact Or.inl (h c hc)
  · exact Or.inl (h c hc)

theorem Itoa_ne_nil (n : Int) : strconv.Itoa n ≠ [] := by
  unfold strconv.Itoa
  split
  · simp
  · exact formatBits_ne_nil _ _ _

theorem Itoa_not_space (n : Int) : ∀ c ∈ strconv.Itoa n, unicode.IsSpace c = false := by
  intro c hc
  rcases Itoa_chars n c hc with h | rfl
  · exact isDigit_not_space c h
  · decide

theorem Itoa_no_comma (n : Int) : ',' ∉ strconv.Itoa n := by
  intro hc
  rcases Itoa_chars n ',' hc with h | h
  · revert h; decide
  · revert h; decide

theorem dropWhile_eq_self_of_forall {p : Char → Bool} (s : GoString)
    (h : ∀ c ∈ s, p c = false) : s.dropWhile p = s := by
  cases s with
  | nil => rfl
  | cons c cs => simp [List.dropWhile, h c (List.mem_cons_self _ _)]

theorem TrimSpace_eq_self (s : GoString) (h : ∀ c ∈ s, unicode.IsSpace c = false) :
    strings.TrimSpace s = s := by
  unfold strings.TrimSpace
  rw [dropWhile_eq_self_of_forall s h,
    dropWhile_eq_self_of_forall s.reverse (fun c hc => h c (List.mem_reverse.1 hc)),
    List.reverse_reverse]

theorem splitScan_of_not_mem (sep : Char) (e : GoString) (h : sep ∉ e) :
    strings.splitScan sep e = (e, []) := by
  induction e with
  | nil => rfl
  | cons c cs ih =>
    have hc : c ≠ sep := fun hc => h (hc ▸ List.mem_cons_self _ _)
    have hcs : sep ∉ cs := fun hm => h (List.mem_cons_of_mem _ hm)
    simp [strings.splitScan, hc, ih hcs]

theorem splitScan_append (sep : Char) (e rest : GoString) (h : sep ∉ e) :
    strings.splitScan sep (e ++ sep :: rest) =
      (e, (strings.splitScan sep rest).1 :: (strings.splitScan sep rest).2) := by
  induction e with
  | nil => simp [strings.splitScan]
  | cons c cs ih =>
    have hc : c ≠ sep := fun hc => h (hc ▸ List.mem_cons_self _ _)
    have hcs : sep ∉ cs := fun hm => h (List.mem_cons_of_mem _ hm)
    simp [strings.splitScan, hc, ih hcs]

theorem Split_Join (sep : Char) (es : List GoString) (hne : es ≠ [])
    (h : ∀ e ∈ es, sep ∉ e) : strings.Split (strings.Join es sep) sep = es := by
  induction es with
  | nil => exact absurd rfl hne
  | cons e es ih =>
    cases es with
    | nil =>
      simp [strings.Split, strings.Join, splitScan_of_not_mem sep e (h e (List.mem_cons_self _ _))]
    | cons e2 es =>
      have ih2 := ih (by simp) (fun x hx => h x (List.mem_cons_of_mem _ hx))
      unfold strings.Split at ih2 ⊢
      rw [strings.Join, splitScan_append sep e _ (h e (List.mem_cons_self _ _)), ih2]

theorem Join_eq_intercalate (sep : Char) (es : List GoString) :
    strings.Join es sep = List.intercalate [sep] es := by
  induction es with
  | nil => rfl
  | cons e es ih =>
    cases es with
    | nil => simp [strings.Join, List.intercalate]
    | cons e2 es =>
      rw [strings.Join, ih]
      simp [List.intercalate]

theorem mem_Join (sep : Char) (es : List GoString) (c : Char) (hc : c ∈ strings.Join es sep) :
    c = sep ∨ ∃ e ∈ es, c ∈ e := by
  induction es with
  | nil => simp [strings.Join] at hc
  | cons e es ih =>
    cases es with
    | nil =>
      simp only [strings.Join] at hc
      exact Or.inr ⟨e, List.mem_cons_self _ _, hc⟩
    | cons e2 es =>
      rw [strings.Join] at hc
      rcases List.mem_append.1 hc with h | h
      · exact Or.inr ⟨e, List.mem_cons_self _ _, h⟩
      · rcases List.mem_cons.1 h with h | h
        · exact Or.inl h
        · rcases ih h with h | ⟨x, hx, hcx⟩
          · exact Or.inl h
          · exact Or.inr ⟨x, List.mem_cons_of_mem _ hx, hcx⟩

/-! ## The loop of `UnmarshalXML` -/

theorem unmarshalLoop_map_Itoa (state l : List Int) (hl : ∀ n ∈ l, IsGoInt n) :
    xmlExpansionState.unmarshalLoop state (l.map strconv.Itoa) = .ok (state ++ l) := by
  induction l generalizing state with
  | nil => simp [xmlExpansionState.unmarshalLoop]
  | cons n l ih =>
    simp only [List.map_cons, xmlExpansionState.unmarshalLoop]
    rw [TrimSpace_eq_self _ (Itoa_not_space n)]
    have hlen : ¬ (strconv.Itoa n).length = 0 := by
      simpa [List.length_eq_zero] using Itoa_ne_nil n
    simp only [hlen, if_false, Atoi_Itoa n (hl n (List.mem_cons_self _ _))]
    rw [ih _ (fun m hm => hl m (List.mem_cons_of_mem _ hm))]
    simp

theorem unmarshalLoop_ok (state l : List Int) (pieces : List GoString)
    (h : xmlExpansionState.unmarshalLoop state pieces = .ok l) :
    ∃ ns, l = state ++ ns ∧
      ((pieces.map strings.TrimSpace).filter (fun t => t ≠ [])).map decimalValue = ns.map some := by
  induction pieces generalizing state with
  | nil =>
    simp only [xmlExpansionState.unmarshalLoop, Except.ok.injEq] at h
    exact ⟨[], by simp [h]⟩
  | cons p ps ih =>
    simp only [xmlExpansionState.unmarshalLoop] at h
    by_cases hp : (strings.TrimSpace p).length = 0
    · simp only [hp, if_true] at h
      obtain ⟨ns, h1, h2⟩ := ih state h
      refine ⟨ns, h1, ?_⟩
      have : strings.TrimSpace p = [] := List.length_eq_zero.1 hp
      simpa [this] using h2
    · simp only [hp, if_false] at h
      cases ha : strconv.Atoi (strings.TrimSpace p) with
      | error err => rw [ha] at h; cases h
      | ok n =>
        rw [ha] at h
        obtain ⟨ns, h1, h2⟩ := ih _ h
        refine ⟨n :: ns, by simp [h1], ?_⟩
        have hne : strings.TrimSpace p ≠ [] := fun hnil => hp (by simp [hnil])
        have hv := ((Atoi_ok_iff _ _).1 ha).1
        simp only [List.map_cons, List.filter_cons, hne, ne_eq, not_false_eq_true,
          decide_True, if_true, hv]
        rw [← h2]

theorem unmarshalLoop_error_iff (state : List Int) (pieces : List GoString) :
    (∃ err, xmlExpansionState.unmarshalLoop state pieces = .error err) ↔
      ∃ t ∈ pieces.map strings.TrimSpace,
        t ≠ [] ∧ ¬ ∃ n, decimalValue t = some n ∧ IsGoInt n := by
  induction pieces generalizing state with
  | nil => simp [xmlExpansionState.unmarshalLoop]
  | cons p ps ih =>
    simp only [xmlExpansionState.unmarshalLoop, List.map_cons, List.mem_cons, exists_eq_or_imp]
    by_cases hp : (strings.TrimSpace p).length = 0
    · have hnil : strings.TrimSpace p = [] := List.length_eq_zero.1 hp
      simp only [hp, if_true, ih state, hnil, ne_eq, not_true_eq_false, false_and, false_or,
        List.length_nil]
    · have hne : strings.TrimSpace p ≠ [] := fun hnil => hp (by simp [hnil])
      simp only [hp, if_false, hne, ne_eq, not_false_eq_true, true_and]
      cases ha : strconv.Atoi (strings.TrimSpace p) with
      | error err =>
        have := (Atoi_error_iff _).1 ⟨err, ha⟩
        simp only [this, not_false_eq_true, true_or, iff_true]
        exact ⟨err, rfl⟩
      | ok n =>
        have hn := (Atoi_ok_iff _ _).1 ha
        have : ¬ ¬ ∃ n, decimalValue (strings.TrimSpace p) = some n ∧ IsGoInt n :=
          fun hc => hc ⟨n, hn⟩
        simp only [ih, this, false_or]

/-! ## The round trip between the model and the wire record -/

theorem ToOutlines_fill_eq_map (xos : List xmlOutline) :
    xmlOutlines.ToOutlines_fill xos = xos.map xmlOutline.ToOutline := by
  induction xos with
  | nil => simp [xmlOutlines.ToOutlines_fill]
  | cons x xs ih => simp [xmlOutlines.ToOutlines_fill, ih]

theorem FromOutlines_loop_eq (xos : xmlOutlines) (os : List Outline) :
    xmlOutlines.FromOutlines_loop xos os =
      match os with
      | [] => xos
      | _ :: _ => some (xos.getD [] ++ os.map (xmlOutline.FromOutline xmlOutline.zero)) := by
  induction os generalizing xos with
  | nil => simp [xmlOutlines.FromOutlines_loop]
  | cons o os ih =>
    rw [xmlOutlines.FromOutlines_loop, ih]
    cases os with
    | nil => simp [goAppend]
    | cons o2 os => simp [goAppend]

theorem zero_eq_of_isZero (t : Time) (h : t.ZeroIsZeroValue = true) (hz : t.IsZero = true) :
    Time.zero = t := by
  unfold Time.ZeroIsZeroValue at h
  simp only [hz, Bool.not_true, Bool.false_or, decide_eq_true_eq] at h
  exact h.symm

mutual
theorem ToOutline_FromOutline : (o : Outline) → o.Lossless = true →
    xmlOutline.ToOutline (xmlOutline.FromOutline xmlOutline.zero o) = o
  | ⟨text, type, isComment, isBreakpoint, created, categories, xmlURL, description, htmlURL,
      language, title, version, url, outlines⟩, h => by
    simp only [Outline.Lossless, Bool.and_eq_true] at h
    have ih := ToOutlines_FromOutlines outlines h.2
    by_cases hz : created.IsZero = true
    · simp only [xmlOutline.FromOutline, xmlOutline.ToOutline, xmlOutline.zero, hz, if_true, ih,
        zero_eq_of_isZero created h.1 hz]
    · simp only [xmlOutline.FromOutline, xmlOutline.ToOutline, xmlOutline.zero, hz, Bool.false_eq_true, if_false, ih]
theorem ToOutlines_FromOutlines : (os : Option (List Outline)) → Outline.LosslessSeq os = true →
    xmlOutlines.ToOutlines (xmlOutlines.FromOutlines none os) = os
  | none, _ => by simp [xmlOutlines.FromOutlines, xmlOutlines.ToOutlines]
  | some [], h => by simp [Outline.LosslessSeq] at h
  | some (o :: os), h => by
    simp only [Outline.LosslessSeq, Bool.and_eq_true] at h
    simp only [xmlOutlines.FromOutlines, FromOutlines_loop_eq, xmlOutlines.ToOutlines,
      ToOutlines_fill_eq_map, Option.getD_none, List.nil_append, List.map_cons,
      ToOutline_FromOutline o h.1, List.map_map]
    have := map_ToOutline_FromOutline os h.2
    simp only [List.map_map] at this
    rw [this]
theorem map_ToOutline_FromOutline : (os : List Outline) → Outline.LosslessAll os = true →
    (os.map (xmlOutline.FromOutline xmlOutline.zero)).map xmlOutline.ToOutline = os
  | [], _ => rfl
  | o :: os, h => by
    simp only [Outline.LosslessAll, Bool.and_eq_true] at h
    simp only [List.map_cons, ToOutline_FromOutline o h.1, map_ToOutline_FromOutline os h.2]
end

/-- C1: for every document in which every outline sequence at every level is
nil or non-empty and every timestamp with the zero instant is the zero value,
`FromOPML` on a fresh `xmlOPML` followed by `ToOPML` gives the document back,
field for field. -/
theorem ToOPML_FromOPML (o : OPML) (h : o.Lossless = true) :
    xmlOPML.ToOPML (xmlOPML.FromOPML xmlOPML.zero o) = o := by
  simp only [OPML.Lossless, Bool.and_eq_true] at h
  obtain ⟨⟨h1, h2⟩, h3⟩ := h
  cases o with
  | mk version title dateCreated dateModified ownerName ownerEmail ownerID docs expansionState
      vertScrollState windowTop windowLeft windowBottom windowRight outlines =>
    simp only at h1 h2 h3
    have e1 : (match (if dateCreated.IsZero = true then none else some dateCreated :
        Option xmlTime) with
      | none => Time.zero
      | some t => t) = dateCreated := by
      by_cases hz : dateCreated.IsZero = true
      · simp only [hz, if_true, zero_eq_of_isZero _ h1 hz]
      · simp only [hz, Bool.false_eq_true, if_false]
    have e2 : (match (if dateModified.IsZero = true then none else some dateModified :
        Option xmlTime) with
      | none => Time.zero
      | some t => t) = dateModified := by
      by_cases hz : dateModified.IsZero = true
      · simp only [hz, if_true, zero_eq_of_isZero _ h2 hz]
      · simp only [hz, Bool.false_eq_true, if_false]
    simp only [xmlOPML.FromOPML, xmlOPML.ToOPML, xmlOPML.zero, e1, e2,
      ToOutlines_FromOutlines _ h3]
    cases expansionState <;> rfl

/-- Witness of C1: the sample document, with an empty non-nil expansion state,
nil and non-empty outline sequences and non-zero timestamps, comes back
unchanged. -/
theorem ToOPML_FromOPML_witness :
    sampleOPML.Lossless = true ∧
      xmlOPML.ToOPML (xmlOPML.FromOPML xmlOPML.zero sampleOPML) = sampleOPML :=
  ⟨by decide, ToOPML_FromOPML sampleOPML (by decide)⟩

/-! ## The expansion state -/

/-- C2: for every list `l` of Go `int` values, the empty non-nil list included,
`UnmarshalXML` on the text `MarshalXML` produces for `l` returns no error and
stores exactly `l`, in the same order. -/
theorem expansionState_roundtrip (s : xmlExpansionState) (l : List Int)
    (hl : ∀ n ∈ l, IsGoInt n) :
    xmlExpansionState.UnmarshalXML s (.ok (xmlExpansionState.MarshalXML ⟨some l⟩)) =
      (⟨some l⟩, none) := by
  unfold xmlExpansionState.UnmarshalXML xmlExpansionState.MarshalXML
  simp only [Option.getD_some]
  cases l with
  | nil => rfl
  | cons n l =>
    rw [Split_Join ',' _ (by simp) (by
      intro e he
      obtain ⟨m, _, rfl⟩ := List.mem_map.1 he
      exact Itoa_no_comma m)]
    rw [unmarshalLoop_map_Itoa [] (n :: l) hl]
    rfl

/-- Witness of C2: the expansion state of `states.opml`, with the extreme
values of `int` added. -/
theorem expansionState_roundtrip_witness :
    (∀ n ∈ [1, 6, 13, 16, 18, 20, -9223372036854775808, 9223372036854775807], IsGoInt n) ∧
      xmlExpansionState.UnmarshalXML ⟨none⟩ (.ok (xmlExpansionState.MarshalXML
        ⟨some [1, 6, 13, 16, 18, 20, -9223372036854775808, 9223372036854775807]⟩)) =
      (⟨some [1, 6, 13, 16, 18, 20, -9223372036854775808, 9223372036854775807]⟩, none) :=
  ⟨by decide, expansionState_roundtrip _ _ (by decide)⟩

/-- C3: when `UnmarshalXML` succeeds on the text `v`, the list it stores is the
list of the base-10 integers that the tokens of `v` denote: `v` split on
commas, each piece trimmed, the empty pieces skipped, in their order. -/
theorem expansionState_decode_values (s s' : xmlExpansionState) (v : GoString)
    (h : xmlExpansionState.UnmarshalXML s (.ok v) = (s', none)) :
    ∃ l, s'.expansionState = some l ∧ (commaTokens v).map decimalValue = l.map some := by
  unfold xmlExpansionState.UnmarshalXML at h
  simp only at h
  cases hloop : xmlExpansionState.unmarshalLoop [] (strings.Split v ',') with
  | error err => rw [hloop] at h; simp at h
  | ok state =>
    rw [hloop] at h
    simp only [Prod.mk.injEq, and_true] at h
    obtain ⟨ns, h1, h2⟩ := unmarshalLoop_ok _ _ _ hloop
    refine ⟨state, by rw [← h], ?_⟩
    rw [h1]
    exact h2

/-- Witness of C3: a text with blanks, empty pieces and signs. -/
theorem expansionState_decode_values_witness :
    xmlExpansionState.UnmarshalXML ⟨none⟩ (.ok " 1, 6,,13 ,-4 , +7,".toList) =
        (⟨some [1, 6, 13, -4, 7]⟩, none) ∧
      ∃ l, (⟨some [1, 6, 13, -4, 7]⟩ : xmlExpansionState).expansionState = some l ∧
        (commaTokens " 1, 6,,13 ,-4 , +7,".toList).map decimalValue = l.map some :=
  ⟨by decide, expansionState_decode_values ⟨none⟩ _ _ (by decide)⟩

/-- Counterexample to C4 as stated: every token of the text
`9223372036854775808` is a base-10 integer, and `UnmarshalXML` returns an
error all the same, because the integer is not a value of `int`. -/
theorem expansionState_rejects_valid_integer :
    (xmlExpansionState.UnmarshalXML ⟨none⟩ (.ok "9223372036854775808".toList)).2 =
        some (.numRange "9223372036854775808".toList) ∧
      (∀ t ∈ (strings.Split "9223372036854775808".toList ',').map strings.TrimSpace,
        t = [] ∨ decimalValue t = some 9223372036854775808) := by
  decide

/-- C4, amended: `UnmarshalXML` returns an error on the text `v` exactly when
some piece of `v` between commas is, after trimming, non-empty and not a
base-10 integer in the range of `int`; and when it returns an error the
receiver is left as it was. -/
theorem expansionState_error_iff (s : xmlExpansionState) (v : GoString) :
    ((xmlExpansionState.UnmarshalXML s (.ok v)).2 ≠ none ↔
      ∃ t ∈ (strings.Split v ',').map strings.TrimSpace,
        t ≠ [] ∧ ¬ ∃ n, decimalValue t = some n ∧ IsGoInt n) ∧
    ((xmlExpansionState.UnmarshalXML s (.ok v)).2 ≠ none →
      (xmlExpansionState.UnmarshalXML s (.ok v)).1 = s) := by
  rw [← unmarshalLoop_error_iff []]
  unfold xmlExpansionState.UnmarshalXML
  cases hloop : xmlExpansionState.unmarshalLoop [] (strings.Split v ',') with
  | error err => simp [hloop]
  | ok state => simp [hloop]

/-- C7: the text `MarshalXML` hands to the encoder is the base-10 renderings
of the elements of the list, in order, joined by single commas; it has no
white space anywhere, and it is empty for the empty list. -/
theorem expansionState_encode_text (s : xmlExpansionState) :
    xmlExpansionState.MarshalXML s =
        List.intercalate [','] ((s.expansionState.getD []).map decimalText) ∧
      (∀ c ∈ xmlExpansionState.MarshalXML s, unicode.IsSpace c = false) ∧
      xmlExpansionState.MarshalXML ⟨some []⟩ = [] := by
  refine ⟨?_, ?_, rfl⟩
  · unfold xmlExpansionState.MarshalXML
    rw [Join_eq_intercalate]
    congr 1
    exact List.map_congr_left (fun n _ => Itoa_eq_decimalText n)
  · intro c hc
    unfold xmlExpansionState.MarshalXML at hc
    rcases mem_Join _ _ _ hc with rfl | ⟨e, he, hce⟩
    · decide
    · obtain ⟨n, _, rfl⟩ := List.mem_map.1 he
      exact Itoa_not_space n c hce

/-! ## The `expansionState` element: nil and empty -/

/-- Counterexample to C5 as stated: for the sample document, whose expansion
state is empty and not nil, the encoder writes an `expansionState` element
(with empty text); for the same document with a nil expansion state it writes
none. -/
theorem encodeExpansionState_empty_ne_nil :
    sampleOPML.ExpansionState = some [] ∧
      (xmlOPML.FromOPML xmlOPML.zero sampleOPML).Head.encodeExpansionState = some [] ∧
      (xmlOPML.FromOPML xmlOPML.zero
        { sampleOPML with ExpansionState := none }).Head.encodeExpansionState = none := by
  refine ⟨rfl, rfl, rfl⟩

/-- C5, amended: `FromOPML` leaves the wire field nil, so that the
`expansionState` element is omitted, exactly when the expansion state of the
document is nil; for an empty non-nil list the field is set and the element is
written with empty text. -/
theorem encodeExpansionState_eq (xo : xmlOPML) (o : OPML) :
    (xmlOPML.FromOPML xo o).Head.encodeExpansionState =
        o.ExpansionState.map (fun l => strings.Join (l.map strconv.Itoa) ',') ∧
      ((xmlOPML.FromOPML xo o).Head.encodeExpansionState = none ↔ o.ExpansionState = none) ∧
      (xmlOPML.FromOPML xo { o with ExpansionState := some [] }).Head.encodeExpansionState =
        some [] := by
  refine ⟨?_, ?_, rfl⟩
  · unfold xmlOPML.FromOPML xmlHead.encodeExpansionState
    cases o.ExpansionState <;> rfl
  · unfold xmlOPML.FromOPML xmlHead.encodeExpansionState
    cases o.ExpansionState <;> simp

theorem unmarshalLoop_no_tokens (state : List Int) (pieces : List GoString)
    (h : (pieces.map strings.TrimSpace).filter (fun t => t ≠ []) = []) :
    xmlExpansionState.unmarshalLoop state pieces = .ok state := by
  induction pieces with
  | nil => rfl
  | cons p ps ih =>
    simp only [List.map_cons, List.filter_cons] at h
    by_cases hp : strings.TrimSpace p = []
    · simp only [hp, ne_eq, not_true_eq_false, decide_False, Bool.false_eq_true, if_false] at h
      simp [xmlExpansionState.unmarshalLoop, hp, ih h]
    · simp [hp] at h

/-- C6: an `expansionState` element whose text has no non-empty token decodes,
without error, to the empty non-nil list, a document without the element keeps
the nil list, and the documents `ToOPML` returns for the two differ in
`ExpansionState`. -/
theorem decodeExpansionState_empty_present (name : xml.Name) (body : xmlBody) (v : GoString)
    (hv : commaTokens v = []) :
    (xmlHead.decodeExpansionState xmlHead.zero (some v)).2 = none ∧
      (xmlOPML.ToOPML
        ⟨name, (xmlHead.decodeExpansionState xmlHead.zero (some v)).1, body⟩).ExpansionState =
          some [] ∧
      (xmlOPML.ToOPML
        ⟨name, (xmlHead.decodeExpansionState xmlHead.zero none).1, body⟩).ExpansionState =
          none ∧
      (xmlOPML.ToOPML
        ⟨name, (xmlHead.decodeExpansionState xmlHead.zero (some v)).1, body⟩).ExpansionState ≠
      (xmlOPML.ToOPML
        ⟨name, (xmlHead.decodeExpansionState xmlHead.zero none).1, body⟩).ExpansionState := by
  have hloop := unmarshalLoop_no_tokens [] (strings.Split v ',') hv
  simp [xmlHead.decodeExpansionState, xmlExpansionState.UnmarshalXML, hloop, xmlOPML.ToOPML,
    xmlHead.zero]

/-- Witness of C6: a text of blanks and commas only. -/
theorem decodeExpansionState_empty_present_witness :
    commaTokens " , ,\t".toList = [] ∧
      (xmlOPML.ToOPML ⟨⟨[], []⟩,
        (xmlHead.decodeExpansionState xmlHead.zero (some " , ,\t".toList)).1,
        ⟨none⟩⟩).ExpansionState = some [] :=
  ⟨by decide,
    (decodeExpansionState_empty_present ⟨[], []⟩ ⟨none⟩ " , ,\t".toList (by decide)).2.1⟩

/-! ## Timestamps -/

theorem tryParseTime_loop_err (parse : GoString → GoString → Except Error Time) (v : GoString)
    (err : Option Error) (ls : List GoString) :
    (tryParseTime_loop parse v err ls).2 = none ∨
      tryParseTime_loop parse v err ls = (Time.zero, err) := by
  induction ls with
  | nil => exact Or.inr rfl
  | cons l ls ih =>
    unfold tryParseTime_loop
    cases parse l v with
    | ok t => exact Or.inl rfl
    | error e => exact ih

/-- The error `tryParseTime` returns is nil for every parser and every string:
the variable returned after the loop is never assigned. -/
theorem tryParseTime_error_nil (parse : GoString → GoString → Except Error Time)
    (v : GoString) : (tryParseTime parse v).2 = none := by
  unfold tryParseTime
  rcases tryParseTime_loop_err parse v none xmlTimeLayouts with h | h
  · exact h
  · rw [h]

theorem tryParseTime_loop_all_fail (parse : GoString → GoString → Except Error Time)
    (v : GoString) (err : Option Error) (ls : List GoString)
    (h : ∀ l ∈ ls, (parse l v).toOption = none) :
    tryParseTime_loop parse v err ls = (Time.zero, err) := by
  induction ls with
  | nil => rfl
  | cons l ls ih =>
    unfold tryParseTime_loop
    have hl := h l (List.mem_cons_self _ _)
    cases hp : parse l v with
    | ok t => rw [hp] at hl; simp [Except.toOption] at hl
    | error e => exact ih (fun l' hl' => h l' (List.mem_cons_of_mem _ hl'))

theorem tryParseTime_loop_first (parse : GoString → GoString → Except Error Time)
    (v : GoString) (err : Option Error) (pre post : List GoString) (l : GoString) (t : Time)
    (hpre : ∀ l' ∈ pre, (parse l' v).toOption = none) (hl : parse l v = .ok t) :
    tryParseTime_loop parse v err (pre ++ l :: post) = (t, none) := by
  induction pre with
  | nil => simp [tryParseTime_loop, hl]
  | cons p pre ih =>
    simp only [List.cons_append, tryParseTime_loop]
    have hp := hpre p (List.mem_cons_self _ _)
    cases hpp : parse p v with
    | ok t' => rw [hpp] at hp; simp [Except.toOption] at hp
    | error e => exact ih (fun l' hl' => hpre l' (List.mem_cons_of_mem _ hl'))

/-- C8 on the code: for every string `v` that no layout of `xmlTimeLayouts`
parses, `tryParseTime` returns the zero time with a nil error, so that
`UnmarshalXML` and `UnmarshalXMLAttr` store the zero time and report success.
The claim asks for a non-nil error and nothing stored. -/
theorem tryParseTime_unparseable_nil_error (parse : GoString → GoString → Except Error Time)
    (v : GoString) (xt : xmlTime) (name : xml.Name)
    (h : ∀ l ∈ xmlTimeLayouts, (parse l v).toOption = none) :
    tryParseTime parse v = (Time.zero, none) ∧
      xmlTime.UnmarshalXML parse xt (.ok v) = (Time.zero, none) ∧
      xmlTime.UnmarshalXMLAttr parse xt ⟨name, v⟩ = (Time.zero, none) := by
  have h1 : tryParseTime parse v = (Time.zero, none) :=
    tryParseTime_loop_all_fail parse v none xmlTimeLayouts h
  refine ⟨h1, ?_, ?_⟩
  · simp [xmlTime.UnmarshalXML, h1]
  · simp [xmlTime.UnmarshalXMLAttr, h1]

set_option maxRecDepth 100000 in
/-- Witness of C8 on the code: no layout parses the text `yesterday`; decoding
it into a timestamp that held a date stores the zero time and returns nil. -/
theorem tryParseTime_unparseable_nil_error_witness :
    (∀ l ∈ xmlTimeLayouts, (time.Parse none l "yesterday".toList).toOption = none) ∧
      xmlTime.UnmarshalXML (time.Parse none) ⟨63266383380, 0, none⟩ (.ok "yesterday".toList) =
        (Time.zero, none) :=
  ⟨by decide,
    (tryParseTime_unparseable_nil_error (time.Parse none) "yesterday".toList
      ⟨63266383380, 0, none⟩ ⟨[], []⟩ (by decide)).2.1⟩

/-- C9: `xmlTimeLayouts` is the fifteen layouts in the order ANSIC, UnixDate,
RubyDate, RFC822, RFC822Z, RFC850, RFC1123, RFC1123Z, RFC3339, RFC3339Nano,
Kitchen, Stamp, StampMilli, StampMicro, StampNano; when `l` is the first of
them that parses `v`, `tryParseTime` returns the time `l` gives, with a nil
error, whatever the layouts after `l` would do with `v`. -/
theorem tryParseTime_first_layout (parse : GoString → GoString → Except Error Time)
    (v : GoString) (pre post : List GoString) (l : GoString) (t : Time)
    (hsplit : xmlTimeLayouts = pre ++ l :: post)
    (hpre : ∀ l' ∈ pre, (parse l' v).toOption = none) (hl : parse l v = .ok t) :
    xmlTimeLayouts =
        [time.ANSIC, time.UnixDate, time.RubyDate, time.RFC822, time.RFC822Z, time.RFC850,
         time.RFC1123, time.RFC1123Z, time.RFC3339, time.RFC3339Nano, time.Kitchen, time.Stamp,
         time.StampMilli, time.StampMicro, time.StampNano] ∧
      tryParseTime parse v = (t, none) ∧
      ∀ parse' : GoString → GoString → Except Error Time,
        (∀ l' ∈ pre ++ [l], parse' l' v = parse l' v) → tryParseTime parse' v = (t, none) := by
  refine ⟨rfl, ?_, ?_⟩
  · unfold tryParseTime
    rw [hsplit]
    exact tryParseTime_loop_first parse v none pre post l t hpre hl
  · intro parse' hagree
    unfold tryParseTime
    rw [hsplit]
    refine tryParseTime_loop_first parse' v none pre post l t ?_ ?_
    · intro l' hl'
      rw [hagree l' (List.mem_append_left _ hl')]
      exact hpre l' hl'
    · rw [hagree l (List.mem_append_right _ (List.mem_singleton_self l))]
      exact hl

set_option maxRecDepth 100000 in
/-- Witness of C9: the text `2005-10-31T19:23:00Z` is parsed by RFC3339 and by
no layout before it; RFC3339Nano, which comes later, parses it as well. -/
theorem tryParseTime_first_layout_witness :
    (time.Parse none time.RFC3339Nano "2005-10-31T19:23:00Z".toList).toOption =
        some ⟨63266383380, 0, none⟩ ∧
      tryParseTime (time.Parse none) "2005-10-31T19:23:00Z".toList =
        (⟨63266383380, 0, none⟩, none) :=
  ⟨by decide,
    (tryParseTime_first_layout (time.Parse none) "2005-10-31T19:23:00Z".toList
      [time.ANSIC, time.UnixDate, time.RubyDate, time.RFC822, time.RFC822Z, time.RFC850,
       time.RFC1123, time.RFC1123Z]
      [time.RFC3339Nano, time.Kitchen, time.Stamp, time.StampMilli, time.StampMicro,
       time.StampNano]
      time.RFC3339 ⟨63266383380, 0, none⟩ rfl (by decide) (by rfl)).2.1⟩
/-! ## The calendar: `time.Date` undoes `absDate` and `absClock` -/

theorem isLeap_iff (y : Int) :
    time.isLeap y = true ↔ (y % 4 = 0 ∧ (y % 100 ≠ 0 ∨ y % 400 = 0)) := by
  unfold time.isLeap
  simp

theorem norm_of_inRange (hi lo base : Int) (h0 : 0 ≤ lo) (h1 : lo < base) :
    time.norm hi lo base = (hi, lo) := by
  unfold time.norm
  have h2 : ¬ lo < 0 := by omega
  have h3 : ¬ lo ≥ base := by omega
  simp only [h2, if_false, h3]

theorem split_spec (days century r cd cyear lo ayday : Nat)
    (hc : century = (4 * days + 3) / 146097) (hr : r = (4 * days + 3) % 146097)
    (hcd : cd = 4 * (r / 4) + 3) (hcy : cyear = 2939745 * cd / 2 ^ 32)
    (hlo : lo = 2939745 * cd % 2 ^ 32) (hay : ayday = lo / 2939745 / 4) :
    cyear ≤ 99 ∧ ayday ≤ 365 ∧ days = 146097 * century / 4 + 1461 * cyear / 4 + ayday ∧
      (ayday = 365 → cyear % 4 = 3 ∧ (cyear = 99 → century % 4 = 3)) := by
  have h2 : (2 : Nat) ^ 32 = 4294967296 := by norm_num
  rw [h2] at hcy hlo
  have hq : cyear = cd / 1461 := by omega
  have hl : lo = 149 * (cd / 1461) + 2939745 * (cd % 1461) := by omega
  have ha : ayday = cd % 1461 / 4 := by omega
  clear hcy hlo hay hl
  have e1 : 146097 * century / 4 = 36524 * century + century / 4 := by omega
  have e2 : 1461 * cyear / 4 = 365 * cyear + cyear / 4 := by omega
  rw [e1, e2]
  have hb : century % 4 < 4 := Nat.mod_lt _ (by norm_num)
  have hb2 : cyear % 4 < 4 := Nat.mod_lt _ (by norm_num)
  have hcq : century = 4 * (century / 4) + century % 4 := by omega
  have hyq : cyear = 4 * (cyear / 4) + cyear % 4 := by omega
  generalize century / 4 = cq at *
  generalize cyear / 4 = yq at *
  generalize century % 4 = cb at *
  generalize cyear % 4 = yb at *
  subst hcq hyq
  interval_cases cb <;> interval_cases yb <;> refine ⟨by omega, by omega, by omega, by omega⟩

set_option maxRecDepth 100000 in
theorem month_spec_all : ∀ ayday, ayday < 366 →
    3 ≤ (2141 * ayday + 197913) / 65536 ∧ (2141 * ayday + 197913) / 65536 ≤ 14 ∧
    (306 ≤ ayday ↔ 13 ≤ (2141 * ayday + 197913) / 65536) ∧
    (979 * ((2141 * ayday + 197913) / 65536) - 2919) / 32 +
      (1 + (2141 * ayday + 197913) % 65536 / 2141) - 1 = ayday ∧
    (1 + (2141 * ayday + 197913) % 65536 / 2141 ≤
        time.daysBefore ((2141 * ayday + 197913) / 65536 -
            (if 13 ≤ (2141 * ayday + 197913) / 65536 then 12 else 0)) -
          time.daysBefore ((2141 * ayday + 197913) / 65536 -
            (if 13 ≤ (2141 * ayday + 197913) / 65536 then 12 else 0) - 1) ∨
      ((2141 * ayday + 197913) / 65536 = 14 ∧
        1 + (2141 * ayday + 197913) % 65536 / 2141 = 29 ∧ ayday = 365)) := by
  decide

theorem isLeap_last_day (century cyear : Nat) (c99 : cyear ≤ 99) (h1 : cyear % 4 = 3)
    (h2 : cyear = 99 → century % 4 = 3) :
    time.isLeap ((century : Int) * 100 - time.absoluteYears + (cyear : Int) + ((1 : Nat) : Int)) =
      true := by
  rw [isLeap_iff]
  have hA : time.absoluteYears = 292277022400 := rfl
  rw [hA]
  by_cases h99 : cyear = 99
  · have := h2 h99
    subst h99
    omega
  · omega

theorem absDate_eq (abs century cd cyear ayday amonth mday janFeb : Nat)
    (hc : century = (4 * (abs / 86400) + 3) / 146097)
    (hcd : cd = 4 * ((4 * (abs / 86400) + 3) % 146097 / 4) + 3)
    (hcy : cyear = 2939745 * cd / 2 ^ 32)
    (hay : ayday = 2939745 * cd % 2 ^ 32 / 2939745 / 4)
    (ham : amonth = (2141 * ayday + 197913) / 2 ^ 16)
    (hmd : mday = 1 + (2141 * ayday + 197913) % 2 ^ 16 / 2141)
    (hjf : janFeb = if ayday ≥ time.marchThruDecember then 1 else 0) :
    time.absDate abs =
      ⟨(century : Int) * 100 - time.absoluteYears + (cyear : Int) + (janFeb : Int),
        amonth - janFeb * 12, mday⟩ := by
  subst hjf hmd ham hay hcy hcd hc
  rfl

theorem absDate_spec (abs : Nat) :
    ∃ century cyear ayday amonth janFeb : Nat,
      cyear ≤ 99 ∧ 3 ≤ amonth ∧ amonth ≤ 14 ∧ janFeb = (if 13 ≤ amonth then 1 else 0) ∧
      abs / 86400 = 146097 * century / 4 + 1461 * cyear / 4 + ayday ∧
      (time.absDate abs).year =
        (century : Int) * 100 - time.absoluteYears + (cyear : Int) + (janFeb : Int) ∧
      (time.absDate abs).month = amonth - janFeb * 12 ∧
      1 ≤ (time.absDate abs).month ∧ (time.absDate abs).month ≤ 12 ∧
      1 ≤ (time.absDate abs).day ∧
      (time.absDate abs).day ≤ time.daysIn (time.absDate abs).month (time.absDate abs).year ∧
      (979 * amonth - 2919) / 32 + (time.absDate abs).day - 1 = ayday := by
  obtain ⟨century, hc⟩ : ∃ n, n = (4 * (abs / 86400) + 3) / 146097 := ⟨_, rfl⟩
  obtain ⟨r, hr⟩ : ∃ n, n = (4 * (abs / 86400) + 3) % 146097 := ⟨_, rfl⟩
  obtain ⟨cd, hcd⟩ : ∃ n, n = 4 * (r / 4) + 3 := ⟨_, rfl⟩
  obtain ⟨cyear, hcy⟩ : ∃ n, n = 2939745 * cd / 2 ^ 32 := ⟨_, rfl⟩
  obtain ⟨lo, hlo⟩ : ∃ n, n = 2939745 * cd % 2 ^ 32 := ⟨_, rfl⟩
  obtain ⟨ayday, hay⟩ : ∃ n, n = lo / 2939745 / 4 := ⟨_, rfl⟩
  obtain ⟨amonth, ham⟩ : ∃ n, n = (2141 * ayday + 197913) / 2 ^ 16 := ⟨_, rfl⟩
  obtain ⟨mday, hmd⟩ : ∃ n, n = 1 + (2141 * ayday + 197913) % 2 ^ 16 / 2141 := ⟨_, rfl⟩
  obtain ⟨janFeb, hjf⟩ : ∃ n : Nat, n = if ayday ≥ time.marchThruDecember then 1 else 0 :=
    ⟨_, rfl⟩
  have heq := absDate_eq abs century cd cyear ayday amonth mday janFeb hc (by rw [hcd, hr])
    hcy (by rw [hay, hlo]) ham hmd hjf
  obtain ⟨c99, c365, hdays, hleap⟩ := split_spec (abs / 86400) century r cd cyear lo ayday hc hr
    hcd hcy hlo hay
  have h16 : (2 : Nat) ^ 16 = 65536 := by norm_num
  rw [h16] at ham hmd
  obtain ⟨m3, m14, hjan, hsum, hlen⟩ := month_spec_all ayday (by omega)
  rw [← ham] at m3 m14 hjan hsum hlen
  rw [← hmd] at hsum hlen
  have hjf2 : janFeb = if 13 ≤ amonth then 1 else 0 := by
    rw [hjf]
    simp only [time.marchThruDecember, ge_iff_le]
    by_cases h : 306 ≤ ayday
    · rw [if_pos h, if_pos (hjan.1 h)]
    · rw [if_neg h, if_neg (fun h2 => h (hjan.2 h2))]
  have hmonth : amonth - janFeb * 12 = amonth - (if 13 ≤ amonth then 12 else 0) := by
    rw [hjf2]
    split_ifs <;> omega
  refine ⟨century, cyear, ayday, amonth, janFeb, c99, m3, m14, hjf2, hdays, ?_⟩
  rw [heq]
  simp only
  refine ⟨trivial, trivial, ?_, ?_, by omega, ?_, hsum⟩
  · rw [hjf2]; split_ifs <;> omega
  · rw [hjf2]; split_ifs <;> omega
  · rw [hmonth]
    obtain ⟨m, hm⟩ : ∃ m, m = amonth - (if 13 ≤ amonth then 12 else 0) := ⟨_, rfl⟩
    rw [← hm] at hlen ⊢
    rcases hlen with hlen | ⟨h14, h29, h365⟩
    · unfold time.daysIn
      by_cases hfeb : m = 2 ∧ time.isLeap ((century : Int) * 100 - time.absoluteYears +
          (cyear : Int) + (janFeb : Int)) = true
      · rw [if_pos hfeb]
        rw [hfeb.1] at hlen
        simp only [time.daysBefore] at hlen
        omega
      · rw [if_neg hfeb]
        exact hlen
    · have hl := hleap h365
      have hm2 : m = 2 := by
        rw [hm, h14]; rfl
      have hj1 : janFeb = 1 := by rw [hjf2, h14]; rfl
      have hlp : time.isLeap ((century : Int) * 100 - time.absoluteYears + (cyear : Int) +
          (janFeb : Int)) = true := by
        rw [hj1]
        exact isLeap_last_day century cyear c99 hl.1 hl.2
      unfold time.daysIn
      rw [hm2, if_pos ⟨rfl, hlp⟩, h29]

theorem toUint64_ofNat (n : Nat) (h : n < 2 ^ 64) : toUint64 (n : Int) = n := by
  unfold toUint64
  have h2 : (2 : Int) ^ 64 = 18446744073709551616 := by norm_num
  have h3 : (2 : Nat) ^ 64 = 18446744073709551616 := by norm_num
  rw [h2]
  rw [h3] at h
  omega

theorem dateToAbsDays_eq (year : Int) (month : Nat) (day : Int)
    (janFeb amonth y ayday : Nat)
    (hjf : janFeb = if month < 3 then 1 else 0) (ham : amonth = month + 12 * janFeb)
    (hy : y = toUint64 (year - (janFeb : Int) + time.absoluteYears))
    (hay : ayday = (979 * amonth - 2919) / 2 ^ 5) :
    time.dateToAbsDays year month day =
      toUint64 (((146097 * (y / 100) % 2 ^ 64 / 4 : Nat) : Int) +
        (((1461 * (y % 100) / 4 + ayday : Nat) : Int) + day - 1)) := by
  subst hay hy ham hjf
  rfl

theorem dateToAbsDays_absDate (abs : Nat) (habs : abs < 2 ^ 64) :
    time.dateToAbsDays (time.absDate abs).year (time.absDate abs).month (time.absDate abs).day =
      abs / 86400 := by
  obtain ⟨century, cyear, ayday, amonth, janFeb, c99, m3, m14, hjf, hdays, hyr, hmo, hm1, hm12,
    hd1, _, hsum⟩ := absDate_spec abs
  have h2 : (2 : Nat) ^ 64 = 18446744073709551616 := by norm_num
  rw [h2] at habs
  have hcent : century ≤ 6000000000 := by
    have e1 : 146097 * century / 4 = 36524 * century + century / 4 := by omega
    rw [e1] at hdays
    omega
  have hjf1 : janFeb = (if (time.absDate abs).month < 3 then 1 else 0) := by
    rw [hjf, hmo, hjf]
    split_ifs <;> omega
  have ham : amonth = (time.absDate abs).month + 12 * janFeb := by
    rw [hmo, hjf]
    split_ifs <;> omega
  have hy : 100 * century + cyear =
      toUint64 ((time.absDate abs).year - (janFeb : Int) + time.absoluteYears) := by
    rw [hyr]
    have e : (century : Int) * 100 - time.absoluteYears + (cyear : Int) + (janFeb : Int) -
        (janFeb : Int) + time.absoluteYears = ((100 * century + cyear : Nat) : Int) := by
      push_cast
      ring
    rw [e, toUint64_ofNat _ (by rw [h2]; omega)]
  rw [dateToAbsDays_eq _ _ _ janFeb amonth (100 * century + cyear) ((979 * amonth - 2919) / 32)
    hjf1 ham hy (by norm_num)]
  have e1 : (100 * century + cyear) / 100 = century := by omega
  have e2 : (100 * century + cyear) % 100 = cyear := by omega
  have e3 : 146097 * century % 2 ^ 64 = 146097 * century := by
    rw [h2]
    omega
  rw [e1, e2, e3]
  have e4 : ((146097 * century / 4 : Nat) : Int) +
      (((1461 * cyear / 4 + (979 * amonth - 2919) / 32 : Nat) : Int) +
        ((time.absDate abs).day : Int) - 1) = ((abs / 86400 : Nat) : Int) := by
    rw [hdays]
    push_cast
    omega
  rw [e4, toUint64_ofNat _ (by rw [h2]; omega)]

theorem absClock_bounds (abs : Nat) :
    (time.absClock abs).1 < 24 ∧ (time.absClock abs).2.1 < 60 ∧ (time.absClock abs).2.2 < 60 ∧
      (time.absClock abs).1 * 3600 + (time.absClock abs).2.1 * 60 + (time.absClock abs).2.2 =
        abs % 86400 := by
  unfold time.absClock
  simp only
  omega

theorem Date_of_civil (year : Int) (m dd h mi se : Nat)
    (hm1 : 1 ≤ m) (hm12 : m ≤ 12)
    (hh : h < 24) (hmi : mi < 60) (hse : se < 60) :
    time.Date year m dd h mi se 0 none =
      ⟨toInt64 (toInt64 (toInt64 (toInt64 (time.dateToAbsDays year m dd) * 86400 +
        (h * 3600 + mi * 60 + se)) - time.internalToAbsolute) - 0), 0, none⟩ := by
  have hn1 := norm_of_inRange year ((m : Int) - 1) 12 (by omega) (by omega)
  have hn2 := norm_of_inRange se 0 1000000000 (by omega) (by omega)
  unfold time.Date
  rw [hn1, hn2]
  simp only
  rw [norm_of_inRange mi se 60 (by omega) (by omega)]
  simp only
  rw [norm_of_inRange h mi 60 (by omega) (by omega)]
  simp only
  rw [norm_of_inRange dd h 24 (by omega) (by omega)]
  simp only
  have e1 : ((m : Int) - 1 + 1).toNat = m := by omega
  rw [e1]
  rfl

theorem toInt64_abs (s : Int) (abs : Nat) (hs : IsGoInt s)
    (habs : abs = toUint64 (s + time.internalToAbsolute)) :
    toInt64 (toInt64 (toInt64 (abs : Int) - time.internalToAbsolute) - 0) = s ∧
      abs < 18446744073709551616 := by
  have h2 : (2 : Int) ^ 64 = 18446744073709551616 := by norm_num
  have h3 : (2 : Int) ^ 63 = 9223372036854775808 := by norm_num
  have hC : time.internalToAbsolute = 9223371966606163200 := rfl
  have hmin : minInt = -9223372036854775808 := by decide
  have hmax : maxInt = 9223372036854775807 := by decide
  unfold IsGoInt at hs
  rw [hmin, hmax] at hs
  unfold toUint64 at habs
  rw [h2, hC] at habs
  unfold toInt64
  rw [h2, h3, hC]
  omega

theorem toInt64_days (abs : Nat) (h : abs < 18446744073709551616) :
    toInt64 ((abs / 86400 : Nat) : Int) = ((abs / 86400 : Nat) : Int) := by
  have h2 : (2 : Int) ^ 64 = 18446744073709551616 := by norm_num
  have h3 : (2 : Int) ^ 63 = 9223372036854775808 := by norm_num
  unfold toInt64
  rw [h2, h3]
  omega

theorem Date_absDate_absClock (s : Int) (hs : IsGoInt s) :
    time.Date (time.absDate (toUint64 (s + time.internalToAbsolute))).year
      (time.absDate (toUint64 (s + time.internalToAbsolute))).month
      (time.absDate (toUint64 (s + time.internalToAbsolute))).day
      (time.absClock (toUint64 (s + time.internalToAbsolute))).1
      (time.absClock (toUint64 (s + time.internalToAbsolute))).2.1
      (time.absClock (toUint64 (s + time.internalToAbsolute))).2.2 0 none = ⟨s, 0, none⟩ := by
  obtain ⟨abs, habs⟩ : ∃ abs, abs = toUint64 (s + time.internalToAbsolute) := ⟨_, rfl⟩
  rw [← habs]
  obtain ⟨key, hlt⟩ := toInt64_abs s abs hs habs
  clear habs hs
  obtain ⟨_, _, _, _, _, _, _, _, _, _, _, _, hm1, hm12, _, _, _⟩ := absDate_spec abs
  obtain ⟨hh, hmi, hse, hclock⟩ := absClock_bounds abs
  rw [Date_of_civil _ _ _ _ _ _ hm1 hm12 hh hmi hse,
    dateToAbsDays_absDate abs (by norm_num; exact hlt), toInt64_days abs hlt]
  have e : ((abs / 86400 : Nat) : Int) * 86400 +
      (((time.absClock abs).1 : Int) * 3600 + ((time.absClock abs).2.1 : Int) * 60 +
        ((time.absClock abs).2.2 : Int)) = (abs : Int) := by
    clear key
    omega
  rw [e, key]

/-! ## The digits `time.appendInt` writes -/

theorem formatBits_small (fuel u : Nat) (acc : GoString) (h : u < 10) :
    strconv.formatBits fuel u acc = strconv.digitChar u :: acc := by
  cases fuel with
  | zero => rfl
  | succ fuel =>
    unfold strconv.formatBits
    rw [if_neg (by omega)]

theorem formatBits_step (fuel u : Nat) (acc : GoString) (h : 10 ≤ u) :
    strconv.formatBits (fuel + 1) u acc =
      strconv.formatBits fuel (u / 10) (strconv.digitChar (u % 10) :: acc) := by
  rw [strconv.formatBits, if_pos h]

theorem appendInt_two (n : Nat) (h : n < 100) :
    time.appendInt (n : Int) 2 = [strconv.digitChar (n / 10), strconv.digitChar (n % 10)] := by
  unfold time.appendInt
  have hneg : ¬ (n : Int) < 0 := by omega
  simp only [Int.natAbs_ofNat, hneg, if_false]
  by_cases h10 : n < 10
  · rw [formatBits_small _ _ _ h10]
    have e1 : n / 10 = 0 := by omega
    have e2 : n % 10 = n := by omega
    rw [e1, e2]
    rfl
  · obtain ⟨f, rfl⟩ : ∃ f, n = f + 1 := ⟨n - 1, by omega⟩
    rw [formatBits_step _ _ _ (by omega), formatBits_small _ _ _ (by omega)]
    rfl

theorem appendInt_four (y : Int) (h0 : 0 ≤ y) (h1 : y ≤ 9999) :
    time.appendInt y 4 =
      [strconv.digitChar (y.toNat / 1000), strconv.digitChar (y.toNat / 100 % 10),
       strconv.digitChar (y.toNat / 10 % 10), strconv.digitChar (y.toNat % 10)] := by
  obtain ⟨n, rfl⟩ : ∃ n : Nat, y = n := ⟨y.toNat, by omega⟩
  unfold time.appendInt
  have hneg : ¬ (n : Int) < 0 := by omega
  simp only [Int.natAbs_ofNat, hneg, if_false, Int.toNat_ofNat]
  have hn : n ≤ 9999 := by omega
  by_cases c1 : n < 10
  · rw [formatBits_small _ _ _ c1]
    have e1 : n / 1000 = 0 := by omega
    have e2 : n / 100 % 10 = 0 := by omega
    have e3 : n / 10 % 10 = 0 := by omega
    have e4 : n % 10 = n := by omega
    rw [e1, e2, e3, e4]
    rfl
  · by_cases c2 : n < 100
    · obtain ⟨f, rfl⟩ : ∃ f, n = f + 1 := ⟨n - 1, by omega⟩
      rw [formatBits_step _ _ _ (by omega), formatBits_small _ _ _ (by omega)]
      have e1 : (f + 1) / 1000 = 0 := by omega
      have e2 : (f + 1) / 100 % 10 = 0 := by omega
      have e3 : (f + 1) / 10 % 10 = (f + 1) / 10 := by omega
      rw [e1, e2, e3]
      rfl
    · by_cases c3 : n < 1000
      · obtain ⟨f, rfl⟩ : ∃ f, n = f + 2 := ⟨n - 2, by omega⟩
        rw [formatBits_step _ _ _ (by omega), formatBits_step _ _ _ (by omega),
          formatBits_small _ _ _ (by omega)]
        have e1 : (f + 2) / 1000 = 0 := by omega
        have e2 : (f + 2) / 100 % 10 = (f + 2) / 10 / 10 := by omega
        have e3 : (f + 2) / 10 % 10 = (f + 2) / 10 % 10 := rfl
        rw [e1, e2]
        rfl
      · obtain ⟨f, rfl⟩ : ∃ f, n = f + 3 := ⟨n - 3, by omega⟩
        rw [formatBits_step _ _ _ (by omega), formatBits_step _ _ _ (by omega),
          formatBits_step _ _ _ (by omega), formatBits_small _ _ _ (by omega)]
        have e1 : (f + 3) / 1000 = (f + 3) / 10 / 10 / 10 := by omega
        have e2 : (f + 3) / 100 % 10 = (f + 3) / 10 / 10 % 10 := by omega
        rw [e1, e2]
        rfl

/-! ## The elements of the layouts -/

theorem chunk_RFC1123_1 : time.nextStdChunk time.RFC1123 =
    ([], some .stdWeekDay, ", 02 Jan 2006 15:04:05 MST".toList) := by decide

theorem chunk_RFC1123_2 : time.nextStdChunk ", 02 Jan 2006 15:04:05 MST".toList =
    (", ".toList, some .stdZeroDay, " Jan 2006 15:04:05 MST".toList) := by decide

theorem chunk_RFC1123_3 : time.nextStdChunk " Jan 2006 15:04:05 MST".toList =
    (" ".toList, some .stdMonth, " 2006 15:04:05 MST".toList) := by decide

theorem chunk_RFC1123_4 : time.nextStdChunk " 2006 15:04:05 MST".toList =
    (" ".toList, some .stdLongYear, " 15:04:05 MST".toList) := by decide

theorem chunk_RFC1123_5 : time.nextStdChunk " 15:04:05 MST".toList =
    (" ".toList, some .stdHour, ":04:05 MST".toList) := by decide

theorem chunk_RFC1123_6 : time.nextStdChunk ":04:05 MST".toList =
    (":".toList, some .stdZeroMinute, ":05 MST".toList) := by decide

theorem chunk_RFC1123_7 : time.nextStdChunk ":05 MST".toList =
    (":".toList, some .stdZeroSecond, " MST".toList) := by decide

theorem chunk_RFC1123_8 : time.nextStdChunk " MST".toList =
    (" ".toList, some .stdTZ, []) := by decide

theorem chunk_nil : time.nextStdChunk [] = ([], none, []) := rfl

theorem formatLoop_std (t : Time) (fuel : Nat) (layout lit suffix : GoString) (std : time.Std)
    (hf : 0 < fuel) (hc : time.nextStdChunk layout = (lit, some std, suffix)) :
    time.formatLoop t fuel layout =
      lit ++ time.formatStd t std ++ time.formatLoop t (fuel - 1) suffix := by
  obtain ⟨f, rfl⟩ : ∃ f, fuel = f + 1 := ⟨fuel - 1, by omega⟩
  simp only [time.formatLoop, hc, Nat.add_sub_cancel]

theorem formatLoop_end (t : Time) (fuel : Nat) (layout lit suffix : GoString)
    (hf : 0 < fuel) (hc : time.nextStdChunk layout = (lit, none, suffix)) :
    time.formatLoop t fuel layout = lit := by
  obtain ⟨f, rfl⟩ : ∃ f, fuel = f + 1 := ⟨fuel - 1, by omega⟩
  simp only [time.formatLoop, hc]

theorem rfc1123_append (f1 f2 f3 f4 f5 f6 f7 f8 : GoString) :
    [] ++ f1 ++ (", ".toList ++ f2 ++ (" ".toList ++ f3 ++ (" ".toList ++ f4 ++
      (" ".toList ++ f5 ++ (":".toList ++ f6 ++ (":".toList ++ f7 ++ (" ".toList ++ f8 ++ []))))))) =
    f1 ++ (',' :: ' ' :: (f2 ++ (' ' :: (f3 ++ (' ' :: (f4 ++ (' ' :: (f5 ++ (':' :: (f6 ++
      (':' :: (f7 ++ (' ' :: f8))))))))))))) := by
  simp only [String.toList, List.append_assoc, List.nil_append, List.cons_append, List.append_nil]

theorem Format_RFC1123_chunks (t : Time) :
    t.Format time.RFC1123 =
      [] ++ time.formatStd t .stdWeekDay ++ (", ".toList ++ time.formatStd t .stdZeroDay ++
      (" ".toList ++ time.formatStd t .stdMonth ++ (" ".toList ++ time.formatStd t .stdLongYear ++
      (" ".toList ++ time.formatStd t .stdHour ++ (":".toList ++ time.formatStd t .stdZeroMinute ++
      (":".toList ++ time.formatStd t .stdZeroSecond ++ (" ".toList ++
      time.formatStd t .stdTZ ++ []))))))) := by
  have hlen : List.length time.RFC1123 + 1 = 30 := by decide
  unfold Time.Format
  rw [hlen,
    formatLoop_std t _ _ _ _ _ (by decide) chunk_RFC1123_1,
    formatLoop_std t _ _ _ _ _ (by decide) chunk_RFC1123_2,
    formatLoop_std t _ _ _ _ _ (by decide) chunk_RFC1123_3,
    formatLoop_std t _ _ _ _ _ (by decide) chunk_RFC1123_4,
    formatLoop_std t _ _ _ _ _ (by decide) chunk_RFC1123_5,
    formatLoop_std t _ _ _ _ _ (by decide) chunk_RFC1123_6,
    formatLoop_std t _ _ _ _ _ (by decide) chunk_RFC1123_7,
    formatLoop_std t _ _ _ _ _ (by decide) chunk_RFC1123_8,
    formatLoop_end t _ _ _ _ (by decide) chunk_nil]

theorem Format_RFC1123 (t : Time) :
    t.Format time.RFC1123 =
      time.formatStd t .stdWeekDay ++ (',' :: ' ' :: (time.formatStd t .stdZeroDay ++
      (' ' :: (time.formatStd t .stdMonth ++ (' ' :: (time.formatStd t .stdLongYear ++
      (' ' :: (time.formatStd t .stdHour ++ (':' :: (time.formatStd t .stdZeroMinute ++
      (':' :: (time.formatStd t .stdZeroSecond ++ (' ' ::
      time.formatStd t .stdTZ))))))))))))) := by
  rw [Format_RFC1123_chunks]
  exact rfc1123_append _ _ _ _ _ _ _ _

theorem take3_longDayNames (wd : Nat) :
    (time.longDayNames.getD wd []).take 3 = time.shortDayNames.getD wd [] := by
  match wd with
  | 0 | 1 | 2 | 3 | 4 | 5 | 6 => rfl
  | n + 7 => rfl

theorem take3_longMonthNames (mo : Nat) :
    (time.longMonthNames.getD mo []).take 3 = time.shortMonthNames.getD mo [] := by
  match mo with
  | 0 | 1 | 2 | 3 | 4 | 5 | 6 | 7 | 8 | 9 | 10 | 11 => rfl
  | n + 12 => rfl

theorem daysIn_le (m : Nat) (y : Int) : time.daysIn m y ≤ 31 := by
  unfold time.daysIn
  split
  · omega
  · match m with
    | 0 | 1 | 2 | 3 | 4 | 5 | 6 | 7 | 8 | 9 | 10 | 11 | 12 => simp [time.daysBefore]
    | n + 13 => simp [time.daysBefore]

/-! ## Reading a text in the layout RFC1123 -/

theorem digitVal_digitChar (d : Nat) (h : d ≤ 9) :
    strconv.digitVal (strconv.digitChar d) = some d :=
  (digitVal_eq_some_iff _ _).2 ⟨digitChar_isDigit d, (digitChar_toNat d h).symm⟩

theorem digitChar_ne_space (d : Nat) : strconv.digitChar d ≠ ' ' := by
  intro h
  have := digitChar_isDigit d
  rw [h] at this
  revert this
  decide

theorem digitChar_ne_minus (d : Nat) : strconv.digitChar d ≠ '-' := by
  intro h
  have := digitChar_isDigit d
  rw [h] at this
  revert this
  decide

theorem digitChar_ne_plus (d : Nat) : strconv.digitChar d ≠ '+' := by
  intro h
  have := digitChar_isDigit d
  rw [h] at this
  revert this
  decide

theorem parseLoop_std (fuel : Nat) (layout lit suffix value value1 value2 : GoString)
    (std : time.Std) (f f2 : time.Fields) (hf : 0 < fuel)
    (hc : time.nextStdChunk layout = (lit, some std, suffix))
    (hs : time.skip lit.length value lit = some value1)
    (hp : time.parseStd std suffix value1 f = some (value2, f2)) :
    time.parseLoop fuel layout value f = time.parseLoop (fuel - 1) suffix value2 f2 := by
  obtain ⟨n, rfl⟩ : ∃ n, fuel = n + 1 := ⟨fuel - 1, by omega⟩
  simp only [time.parseLoop, hc, hs, hp, Nat.add_sub_cancel]

theorem parseLoop_skip_fails (fuel : Nat) (layout lit suffix value : GoString)
    (std : Option time.Std) (f : time.Fields) (hf : 0 < fuel)
    (hc : time.nextStdChunk layout = (lit, std, suffix))
    (hs : time.skip lit.length value lit = none) :
    time.parseLoop fuel layout value f = none := by
  obtain ⟨n, rfl⟩ : ∃ n, fuel = n + 1 := ⟨fuel - 1, by omega⟩
  simp only [time.parseLoop, hc, hs]

theorem parseLoop_std_fails (fuel : Nat) (layout lit suffix value value1 : GoString)
    (std : time.Std) (f : time.Fields) (hf : 0 < fuel)
    (hc : time.nextStdChunk layout = (lit, some std, suffix))
    (hs : time.skip lit.length value lit = some value1)
    (hp : time.parseStd std suffix value1 f = none) :
    time.parseLoop fuel layout value f = none := by
  obtain ⟨n, rfl⟩ : ∃ n, fuel = n + 1 := ⟨fuel - 1, by omega⟩
  simp only [time.parseLoop, hc, hs, hp]

theorem parseLoop_end (fuel : Nat) (layout lit suffix value : GoString) (f : time.Fields)
    (hf : 0 < fuel) (hc : time.nextStdChunk layout = (lit, none, suffix))
    (hs : time.skip lit.length value lit = some []) :
    time.parseLoop fuel layout value f = some f := by
  obtain ⟨n, rfl⟩ : ∃ n, fuel = n + 1 := ⟨fuel - 1, by omega⟩
  simp [time.parseLoop, hc, hs]

theorem parseStd_weekday (wd : Nat) (hwd : wd < 7) (layout rest : GoString) (f : time.Fields) :
    time.parseStd .stdWeekDay layout (time.shortDayNames.getD wd [] ++ rest) f =
      some (rest, f) := by
  interval_cases wd <;> rfl

theorem parseStd_month (mo : Nat) (hmo : mo < 12) (layout rest : GoString) (f : time.Fields) :
    time.parseStd .stdMonth layout (time.shortMonthNames.getD mo [] ++ rest) f =
      some (rest, { f with month := (mo : Int) + 1 }) := by
  interval_cases mo <;> rfl

theorem skip_comma_space (d : Nat) (rest : GoString) :
    time.skip 2 (',' :: ' ' :: strconv.digitChar d :: rest) [',', ' '] =
      some (strconv.digitChar d :: rest) := by
  simp [time.skip, time.cutspace, List.dropWhile, digitChar_ne_space]

theorem skip_space_digit (d : Nat) (rest : GoString) :
    time.skip 1 (' ' :: strconv.digitChar d :: rest) [' '] =
      some (strconv.digitChar d :: rest) := by
  simp [time.skip, time.cutspace, List.dropWhile, digitChar_ne_space]

theorem skip_space_month (mo : Nat) (hmo : mo < 12) (rest : GoString) :
    time.skip 1 (' ' :: (time.shortMonthNames.getD mo [] ++ rest)) [' '] =
      some (time.shortMonthNames.getD mo [] ++ rest) := by
  interval_cases mo <;> rfl

theorem skip_colon (rest : GoString) : time.skip 1 (':' :: rest) [':'] = some rest := by
  simp [time.skip]

theorem getnum_two (a b : Nat) (ha : a ≤ 9) (hb : b ≤ 9) (rest : GoString) (fixed : Bool) :
    time.getnum (strconv.digitChar a :: strconv.digitChar b :: rest) fixed =
      some ((a : Int) * 10 + b, rest) := by
  simp [time.getnum, digitVal_digitChar, ha, hb]

theorem parseStd_zeroDay (a b : Nat) (ha : a ≤ 9) (hb : b ≤ 9) (layout rest : GoString)
    (f : time.Fields) :
    time.parseStd .stdZeroDay layout (strconv.digitChar a :: strconv.digitChar b :: rest) f =
      some (rest, { f with day := (a : Int) * 10 + b }) := by
  simp [time.parseStd, getnum_two a b ha hb]

theorem parseStd_hour (a b : Nat) (ha : a ≤ 9) (hb : b ≤ 9) (h : a * 10 + b < 24)
    (layout rest : GoString) (f : time.Fields) :
    time.parseStd .stdHour layout (strconv.digitChar a :: strconv.digitChar b :: rest) f =
      some (rest, { f with hour := (a : Int) * 10 + b }) := by
  have h1 : ¬ ((a : Int) * 10 + b < 0 ∨ 24 ≤ (a : Int) * 10 + b) := by omega
  simp [time.parseStd, getnum_two a b ha hb, h1]

theorem parseStd_zeroMinute (a b : Nat) (ha : a ≤ 9) (hb : b ≤ 9) (h : a * 10 + b < 60)
    (layout rest : GoString) (f : time.Fields) :
    time.parseStd .stdZeroMinute layout (strconv.digitChar a :: strconv.digitChar b :: rest) f =
      some (rest, { f with min := (a : Int) * 10 + b }) := by
  have h1 : ¬ ((a : Int) * 10 + b < 0 ∨ 60 ≤ (a : Int) * 10 + b) := by omega
  simp [time.parseStd, getnum_two a b ha hb, h1]

theorem parseStd_zeroSecond (a b : Nat) (ha : a ≤ 9) (hb : b ≤ 9) (h : a * 10 + b < 60)
    (layout rest : GoString) (f : time.Fields) :
    time.parseStd .stdZeroSecond layout
        (strconv.digitChar a :: strconv.digitChar b :: ' ' :: rest) f =
      some (' ' :: rest, { f with sec := (a : Int) * 10 + b }) := by
  have h1 : ¬ ((a : Int) * 10 + b < 0 ∨ 60 ≤ (a : Int) * 10 + b) := by omega
  cases rest with
  | nil => simp [time.parseStd, getnum_two a b ha hb, h1]
  | cons c cs => simp [time.parseStd, getnum_two a b ha hb, h1]

theorem parseStd_longYear (a b c d : Nat) (ha : a ≤ 9) (hb : b ≤ 9) (hc : c ≤ 9) (hd : d ≤ 9)
    (layout rest : GoString) (f : time.Fields) :
    time.parseStd .stdLongYear layout
        (strconv.digitChar a :: strconv.digitChar b :: strconv.digitChar c ::
          strconv.digitChar d :: rest) f =
      some (rest, { f with year := (((a * 10 + b) * 10 + c) * 10 + d : Nat) }) := by
  have hd0 : time.isDigit0 (strconv.digitChar a :: strconv.digitChar b ::
      strconv.digitChar c :: strconv.digitChar d :: rest) = true := by
    have := (isDigit_iff _).1 (digitChar_isDigit a)
    simp only [time.isDigit0, Bool.and_eq_true, decide_eq_true_eq]
    exact this
  have hatoi : time.atoi [strconv.digitChar a, strconv.digitChar b, strconv.digitChar c,
      strconv.digitChar d] = some (((((a * 10 + b) * 10 + c) * 10 + d : Nat) : Int)) := by
    have h1 : ¬ (0 * 10 + a > 2 ^ 63) := by omega
    have h2 : ¬ ((0 * 10 + a) * 10 + b > 2 ^ 63) := by omega
    have h3 : ¬ (((0 * 10 + a) * 10 + b) * 10 + c > 2 ^ 63) := by omega
    have h4 : ¬ ((((0 * 10 + a) * 10 + b) * 10 + c) * 10 + d > 2 ^ 63) := by omega
    have g1 : ¬ (0 > 2 ^ 63 / 10) := by norm_num
    have g2 : ¬ (0 * 10 + a > 2 ^ 63 / 10) := by omega
    have g3 : ¬ ((0 * 10 + a) * 10 + b > 2 ^ 63 / 10) := by omega
    have g4 : ¬ (((0 * 10 + a) * 10 + b) * 10 + c > 2 ^ 63 / 10) := by omega
    simp only [time.atoi, digitChar_ne_minus, digitChar_ne_plus, or_self, if_false,
      time.leadingInt, digitVal_digitChar, ha, hb, hc, hd, h1, h2, h3, h4, g1, g2, g3, g4,
      beq_iff_eq, Bool.false_eq_true]
    simp
  simp [time.parseStd, hd0, hatoi]

theorem skip_space_UTC : time.skip 1 (' ' :: "UTC".toList) [' '] = some "UTC".toList := by
  rfl

theorem parseStd_UTC (layout : GoString) (f : time.Fields) :
    time.parseStd .stdTZ layout "UTC".toList f = some ([], { f with zUTC := true }) := by
  rfl

theorem skip_nil : time.skip 0 [] [] = some [] := rfl

theorem skip_empty_lit (value : GoString) : time.skip ([] : GoString).length value [] = some value := by
  cases value <;> rfl

/-! ## The layouts before RFC1123 reject a text in the layout RFC1123 -/

theorem chunk_ANSIC_1 : time.nextStdChunk time.ANSIC =
    ([], some .stdWeekDay, " Jan _2 15:04:05 2006".toList) := by decide

theorem chunk_ANSIC_2 : time.nextStdChunk " Jan _2 15:04:05 2006".toList =
    (" ".toList, some .stdMonth, " _2 15:04:05 2006".toList) := by decide

theorem chunk_UnixDate_1 : time.nextStdChunk time.UnixDate =
    ([], some .stdWeekDay, " Jan _2 15:04:05 MST 2006".toList) := by decide

theorem chunk_UnixDate_2 : time.nextStdChunk " Jan _2 15:04:05 MST 2006".toList =
    (" ".toList, some .stdMonth, " _2 15:04:05 MST 2006".toList) := by decide

theorem chunk_RubyDate_1 : time.nextStdChunk time.RubyDate =
    ([], some .stdWeekDay, " Jan 02 15:04:05 -0700 2006".toList) := by decide

theorem chunk_RubyDate_2 : time.nextStdChunk " Jan 02 15:04:05 -0700 2006".toList =
    (" ".toList, some .stdMonth, " 02 15:04:05 -0700 2006".toList) := by decide

theorem chunk_RFC822_1 : time.nextStdChunk time.RFC822 =
    ([], some .stdZeroDay, " Jan 06 15:04 MST".toList) := by decide

theorem chunk_RFC822Z_1 : time.nextStdChunk time.RFC822Z =
    ([], some .stdZeroDay, " Jan 06 15:04 -0700".toList) := by decide

theorem chunk_RFC850_1 : time.nextStdChunk time.RFC850 =
    ([], some .stdLongWeekDay, ", 02-Jan-06 15:04:05 MST".toList) := by decide

theorem skip_space_comma (rest : GoString) : time.skip 1 (',' :: rest) [' '] = none := by
  simp [time.skip]

theorem parseStd_zeroDay_dayName (wd : Nat) (hwd : wd < 7) (layout rest : GoString)
    (f : time.Fields) :
    time.parseStd .stdZeroDay layout (time.shortDayNames.getD wd [] ++ rest) f = none := by
  interval_cases wd <;> rfl

theorem parseStd_longWeekDay_short (wd : Nat) (hwd : wd < 7) (layout rest : GoString)
    (f : time.Fields) :
    time.parseStd .stdLongWeekDay layout (time.shortDayNames.getD wd [] ++ ',' :: rest) f =
      none := by
  interval_cases wd <;> rfl

theorem parseLoop_weekday_then_space (layout suffix1 suffix2 : GoString) (std : time.Std)
    (wd : Nat) (hwd : wd < 7) (rest : GoString) (f : time.Fields)
    (h1 : time.nextStdChunk layout = ([], some .stdWeekDay, suffix1))
    (h2 : time.nextStdChunk suffix1 = ([' '], some std, suffix2)) :
    time.parseLoop (layout.length + 1) layout
      (time.shortDayNames.getD wd [] ++ ',' :: rest) f = none := by
  cases hl : layout.length with
  | zero =>
    have : layout = [] := List.length_eq_zero.1 hl
    subst this
    rw [chunk_nil] at h1
    simp at h1
  | succ n =>
    refine (parseLoop_std _ _ _ _ _ _ _ _ _ _ (by omega) h1 (skip_empty_lit _)
      (parseStd_weekday wd hwd _ _ _)).trans ?_
    exact parseLoop_skip_fails _ _ _ _ _ _ _ (by omega) h2 (skip_space_comma _)

theorem Parse_before_RFC1123 (loc : Option Location)
    (wd mo d1 d0 y3 y2 y1 y0 h1 h0 m1 m0 s1 s0 : Nat) (zone : GoString) (hwd : wd < 7) :
    ∀ l ∈ [time.ANSIC, time.UnixDate, time.RubyDate, time.RFC822, time.RFC822Z, time.RFC850],
      (time.Parse loc l (rfc1123Text wd mo d1 d0 y3 y2 y1 y0 h1 h0 m1 m0 s1 s0 zone)).toOption =
        none := by
  have key : ∀ l, time.parseLoop (l.length + 1) l
      (rfc1123Text wd mo d1 d0 y3 y2 y1 y0 h1 h0 m1 m0 s1 s0 zone) time.Fields.init = none →
      (time.Parse loc l (rfc1123Text wd mo d1 d0 y3 y2 y1 y0 h1 h0 m1 m0 s1 s0 zone)).toOption =
        none := by
    intro l hl
    simp [time.Parse, hl, Except.toOption]
  intro l hl
  apply key
  simp only [List.mem_cons, List.mem_singleton, List.not_mem_nil, or_false] at hl
  unfold rfc1123Text
  rcases hl with rfl | rfl | rfl | rfl | rfl | rfl
  · exact parseLoop_weekday_then_space _ _ _ _ wd hwd _ _ chunk_ANSIC_1 chunk_ANSIC_2
  · exact parseLoop_weekday_then_space _ _ _ _ wd hwd _ _ chunk_UnixDate_1 chunk_UnixDate_2
  · exact parseLoop_weekday_then_space _ _ _ _ wd hwd _ _ chunk_RubyDate_1 chunk_RubyDate_2
  · exact parseLoop_std_fails _ _ _ _ _ _ _ _ (by decide) chunk_RFC822_1 (skip_empty_lit _)
      (parseStd_zeroDay_dayName wd hwd _ _ _)
  · exact parseLoop_std_fails _ _ _ _ _ _ _ _ (by decide) chunk_RFC822Z_1 (skip_empty_lit _)
      (parseStd_zeroDay_dayName wd hwd _ _ _)
  · exact parseLoop_std_fails _ _ _ _ _ _ _ _ (by decide) chunk_RFC850_1 (skip_empty_lit _)
      (parseStd_longWeekDay_short wd hwd _ _ _)

theorem absWeekday_lt (abs : Nat) : time.absWeekday abs < 7 := by
  unfold time.absWeekday
  omega

/-! ## The date and the clock of a text in the layouts RFC1123 and RFC1123Z -/

theorem chunk_RFC1123Z_1 : time.nextStdChunk time.RFC1123Z =
    ([], some .stdWeekDay, ", 02 Jan 2006 15:04:05 -0700".toList) := by decide

theorem chunk_RFC1123Z_2 : time.nextStdChunk ", 02 Jan 2006 15:04:05 -0700".toList =
    (", ".toList, some .stdZeroDay, " Jan 2006 15:04:05 -0700".toList) := by decide

theorem chunk_RFC1123Z_3 : time.nextStdChunk " Jan 2006 15:04:05 -0700".toList =
    (" ".toList, some .stdMonth, " 2006 15:04:05 -0700".toList) := by decide

theorem chunk_RFC1123Z_4 : time.nextStdChunk " 2006 15:04:05 -0700".toList =
    (" ".toList, some .stdLongYear, " 15:04:05 -0700".toList) := by decide

theorem chunk_RFC1123Z_5 : time.nextStdChunk " 15:04:05 -0700".toList =
    (" ".toList, some .stdHour, ":04:05 -0700".toList) := by decide

theorem chunk_RFC1123Z_6 : time.nextStdChunk ":04:05 -0700".toList =
    (":".toList, some .stdZeroMinute, ":05 -0700".toList) := by decide

theorem chunk_RFC1123Z_7 : time.nextStdChunk ":05 -0700".toList =
    (":".toList, some .stdZeroSecond, " -0700".toList) := by decide

theorem chunk_RFC1123Z_8 : time.nextStdChunk " -0700".toList =
    (" ".toList, some .stdNumTZ, []) := by decide

theorem parseLoop_clock (fuel : Nat) (layout l2 l3 l4 l5 l6 l7 l8 : GoString)
    (hfuel : 8 ≤ fuel)
    (c1 : time.nextStdChunk layout = ([], some .stdWeekDay, l2))
    (c2 : time.nextStdChunk l2 = (", ".toList, some .stdZeroDay, l3))
    (c3 : time.nextStdChunk l3 = (" ".toList, some .stdMonth, l4))
    (c4 : time.nextStdChunk l4 = (" ".toList, some .stdLongYear, l5))
    (c5 : time.nextStdChunk l5 = (" ".toList, some .stdHour, l6))
    (c6 : time.nextStdChunk l6 = (":".toList, some .stdZeroMinute, l7))
    (c7 : time.nextStdChunk l7 = (":".toList, some .stdZeroSecond, l8))
    (wd mo d1 d0 y3 y2 y1 y0 h1 h0 m1 m0 s1 s0 : Nat)
    (hwd : wd < 7) (hmo : mo < 12) (hd1 : d1 ≤ 9) (hd0 : d0 ≤ 9) (hy3 : y3 ≤ 9) (hy2 : y2 ≤ 9)
    (hy1 : y1 ≤ 9) (hy0 : y0 ≤ 9) (hh1 : h1 ≤ 9) (hh0 : h0 ≤ 9) (hm1 : m1 ≤ 9) (hm0 : m0 ≤ 9)
    (hs1 : s1 ≤ 9) (hs0 : s0 ≤ 9) (hh : h1 * 10 + h0 < 24) (hm : m1 * 10 + m0 < 60)
    (hs : s1 * 10 + s0 < 60) (zone : GoString) :
    time.parseLoop fuel layout
        (rfc1123Text wd mo d1 d0 y3 y2 y1 y0 h1 h0 m1 m0 s1 s0 zone) time.Fields.init =
      time.parseLoop (fuel - 7) l8 (' ' :: zone)
           { year := (((y3 * 10 + y2) * 10 + y1) * 10 + y0 : Nat)
             month := (mo : Int) + 1
             day := (d1 : Int) * 10 + d0
             hour := (h1 : Int) * 10 + h0
             min := (m1 : Int) * 10 + m0
             sec := (s1 : Int) * 10 + s0
             nsec := 0
             zUTC := false
             zoneOffset := -1
             zoneName := []
             amSet := false
             pmSet := false } := by
  unfold rfc1123Text
  refine (parseLoop_std _ _ _ _ _ _ _ _ _ _ (by omega) c1 (skip_empty_lit _)
    (parseStd_weekday wd hwd _ _ _)).trans ?_
  refine (parseLoop_std _ _ _ _ _ _ _ _ _ _ (by omega) c2 (skip_comma_space _ _)
    (parseStd_zeroDay d1 d0 hd1 hd0 _ _ _)).trans ?_
  refine (parseLoop_std _ _ _ _ _ _ _ _ _ _ (by omega) c3
    (skip_space_month mo hmo _) (parseStd_month mo hmo _ _ _)).trans ?_
  refine (parseLoop_std _ _ _ _ _ _ _ _ _ _ (by omega) c4 (skip_space_digit _ _)
    (parseStd_longYear y3 y2 y1 y0 hy3 hy2 hy1 hy0 _ _ _)).trans ?_
  refine (parseLoop_std _ _ _ _ _ _ _ _ _ _ (by omega) c5 (skip_space_digit _ _)
    (parseStd_hour h1 h0 hh1 hh0 hh _ _ _)).trans ?_
  refine (parseLoop_std _ _ _ _ _ _ _ _ _ _ (by omega) c6 (skip_colon _)
    (parseStd_zeroMinute m1 m0 hm1 hm0 hm _ _ _)).trans ?_
  refine (parseLoop_std _ _ _ _ _ _ _ _ _ _ (by omega) c7 (skip_colon _)
    (parseStd_zeroSecond s1 s0 hs1 hs0 hs _ _ _)).trans ?_
  have e : fuel - 1 - 1 - 1 - 1 - 1 - 1 - 1 = fuel - 7 := by omega
  rw [e]
  rfl

theorem parseLoop_clock_at (fuel : Nat) (layout l2 l3 l4 l5 l6 l7 l8 : GoString)
    (hfuel : 8 ≤ fuel)
    (c1 : time.nextStdChunk layout = ([], some .stdWeekDay, l2))
    (c2 : time.nextStdChunk l2 = (", ".toList, some .stdZeroDay, l3))
    (c3 : time.nextStdChunk l3 = (" ".toList, some .stdMonth, l4))
    (c4 : time.nextStdChunk l4 = (" ".toList, some .stdLongYear, l5))
    (c5 : time.nextStdChunk l5 = (" ".toList, some .stdHour, l6))
    (c6 : time.nextStdChunk l6 = (":".toList, some .stdZeroMinute, l7))
    (c7 : time.nextStdChunk l7 = (":".toList, some .stdZeroSecond, l8))
    (abs : Nat) (zone : GoString)
    (hy0 : 0 ≤ (time.absDate abs).year) (hy1 : (time.absDate abs).year ≤ 9999) :
    time.parseLoop fuel layout (rfc1123TextAt abs zone) time.Fields.init =
      time.parseLoop (fuel - 7) l8 (' ' :: zone) (time.Fields.ofAbs abs) := by
  obtain ⟨_, _, _, _, _, _, _, _, _, _, _, _, hm1, hm12, hd1, hdin, _⟩ := absDate_spec abs
  obtain ⟨hh, hmi, hse, _⟩ := absClock_bounds abs
  have hday := le_trans hdin (daysIn_le _ _)
  unfold rfc1123TextAt time.Fields.ofAbs
  generalize time.absDate abs = cd at *
  generalize time.absClock abs = cl at *
  obtain ⟨year, m, dd⟩ := cd
  obtain ⟨h, mi, se⟩ := cl
  simp only at hy0 hy1 hm1 hm12 hd1 hdin hh hmi hse hday ⊢
  obtain ⟨Y, rfl⟩ : ∃ Y : Nat, year = Y := ⟨year.toNat, by omega⟩
  simp only [Int.toNat_ofNat]
  have hY : Y ≤ 9999 := by omega
  rw [parseLoop_clock fuel layout l2 l3 l4 l5 l6 l7 l8 hfuel c1 c2 c3 c4 c5 c6 c7
    _ _ _ _ _ _ _ _ _ _ _ _ _ _ (absWeekday_lt abs) (by omega) (by omega)
    (by omega) (by omega) (by omega) (by omega) (by omega) (by omega) (by omega) (by omega)
    (by omega) (by omega) (by omega) (by omega) (by omega) (by omega) zone]
  have e1 : (((Y / 1000 * 10 + Y / 100 % 10) * 10 + Y / 10 % 10) * 10 + Y % 10 : Nat) = Y := by
    omega
  have e2 : ((m - 1 : Nat) : Int) + 1 = (m : Int) := by omega
  have e3 : ((dd / 10 : Nat) : Int) * 10 + ((dd % 10 : Nat) : Int) = (dd : Int) := by omega
  have e4 : ((h / 10 : Nat) : Int) * 10 + ((h % 10 : Nat) : Int) = (h : Int) := by omega
  have e5 : ((mi / 10 : Nat) : Int) * 10 + ((mi % 10 : Nat) : Int) = (mi : Int) := by omega
  have e6 : ((se / 10 : Nat) : Int) * 10 + ((se % 10 : Nat) : Int) = (se : Int) := by omega
  rw [e1, e2, e3, e4, e5, e6]

theorem parseLoop_zone_ok (fuel : Nat) (l8 zone : GoString) (stdz : time.Std)
    (f f2 : time.Fields) (hfuel : 2 ≤ fuel)
    (c8 : time.nextStdChunk l8 = (" ".toList, some stdz, []))
    (hskip : time.skip 1 (' ' :: zone) [' '] = some zone)
    (htz : time.parseStd stdz [] zone f = some ([], f2)) :
    time.parseLoop fuel l8 (' ' :: zone) f = some f2 := by
  refine (parseLoop_std _ _ _ _ _ _ _ _ _ _ (by omega) c8 hskip htz).trans ?_
  exact parseLoop_end _ _ _ _ _ _ (by omega) chunk_nil skip_nil

theorem parseLoop_zone_fails (fuel : Nat) (l8 zone : GoString) (stdz : time.Std)
    (f : time.Fields) (hfuel : 1 ≤ fuel)
    (c8 : time.nextStdChunk l8 = (" ".toList, some stdz, []))
    (hskip : time.skip 1 (' ' :: zone) [' '] = some zone)
    (htz : time.parseStd stdz [] zone f = none) :
    time.parseLoop fuel l8 (' ' :: zone) f = none :=
  parseLoop_std_fails _ _ _ _ _ _ _ _ (by omega) c8 hskip htz

/-! ## The round trip of a timestamp through the layout RFC1123 -/

theorem locabs_zoneText (t : Time) :
    (if t.locabs.1 ≠ [] then t.locabs.1 else time.appendZone t.locabs.2.1 false true false) =
      Location.zoneText t.loc := by
  obtain ⟨sec, nsec, loc⟩ := t
  cases loc with
  | none => rfl
  | some z => rfl

theorem Format_RFC1123_at (t : Time) (hy0 : 0 ≤ t.Year) (hy1 : t.Year ≤ 9999) :
    t.Format time.RFC1123 = rfc1123TextAt t.locabs.2.2 (Location.zoneText t.loc) := by
  unfold Time.Year at hy0 hy1
  obtain ⟨_, _, _, _, _, _, _, _, _, _, _, _, _, _, _, hdin, _⟩ := absDate_spec t.locabs.2.2
  have hday := le_trans hdin (daysIn_le _ _)
  obtain ⟨hh, hmi, hse, _⟩ := absClock_bounds t.locabs.2.2
  rw [Format_RFC1123, ← locabs_zoneText]
  simp only [time.formatStd, take3_longDayNames, take3_longMonthNames,
    appendInt_two _ (show (time.absDate t.locabs.2.2).day < 100 by omega),
    appendInt_two _ (lt_trans hh (by decide)), appendInt_two _ (lt_trans hmi (by decide)),
    appendInt_two _ (lt_trans hse (by decide)), appendInt_four _ hy0 hy1]
  unfold rfc1123TextAt rfc1123Text
  generalize time.absDate t.locabs.2.2 = cd
  generalize time.absClock t.locabs.2.2 = cl
  generalize time.absWeekday t.locabs.2.2 = wd
  generalize (if t.locabs.1 ≠ [] then t.locabs.1
    else time.appendZone t.locabs.2.1 false true false) = z
  simp

theorem toInt64_of_isGoInt (x : Int) (h : IsGoInt x) : toInt64 x = x := by
  have hmin : minInt = -9223372036854775808 := by decide
  have hmax : maxInt = 9223372036854775807 := by decide
  have h2 : (2 : Int) ^ 64 = 18446744073709551616 := by norm_num
  have h3 : (2 : Int) ^ 63 = 9223372036854775808 := by norm_num
  unfold IsGoInt at h
  rw [hmin, hmax] at h
  unfold toInt64
  rw [h2, h3]
  omega

theorem addSec_eq (t : Time) (d : Int) (h : IsGoInt (t.sec + d)) :
    t.addSec d = { t with sec := t.sec + d } := by
  unfold Time.addSec
  simp only [toInt64_of_isGoInt _ h]
  have e : decide (t.sec + d > t.sec) = decide (d > 0) := by
    by_cases hd : d > 0
    · simp [hd]
    · simp [hd]
  rw [if_pos e]

theorem addSec_neg_offset (s off : Int) (hoff : IsGoInt off) (hs : IsGoInt (s - off))
    (hne : off ≠ minInt) :
    (⟨s, 0, none⟩ : Time).addSec (toInt64 (-off)) = ⟨s - off, 0, none⟩ := by
  have hmin : minInt = -9223372036854775808 := by decide
  have hmax : maxInt = 9223372036854775807 := by decide
  have h1 : IsGoInt (-off) := by
    unfold IsGoInt at hoff ⊢
    rw [hmin] at hne
    rw [hmin, hmax] at hoff ⊢
    omega
  rw [toInt64_of_isGoInt _ h1, addSec_eq _ _ (by simpa [sub_eq_add_neg] using hs)]
  simp [sub_eq_add_neg]

theorem skip_space_of_ne (z : GoString) (h : z.head? ≠ some ' ') :
    time.skip 1 (' ' :: z) [' '] = some z := by
  cases z with
  | nil => rfl
  | cons c cs =>
    have hc : c ≠ ' ' := by
      intro hc
      apply h
      rw [hc]
      rfl
    simp [time.skip, time.cutspace, List.dropWhile, hc]

theorem parseTimeZone_space (rest : GoString) : time.parseTimeZone (' ' :: rest) = none := by
  unfold time.parseTimeZone
  by_cases hl : (' ' :: rest).length < 3
  · rw [if_pos hl]
  · rw [if_neg hl]
    have h4 : ∀ w : GoString, w.head? ≠ some ' ' → w ≠ [] → List.take w.length (' ' :: rest) ≠ w := by
      intro w hw hne he
      cases w with
      | nil => exact hne rfl
      | cons c cs =>
        simp only [List.length_cons, List.take_succ_cons, List.cons.injEq] at he
        apply hw
        rw [← he.1]
        rfl
    have e1 : ¬ (List.take 4 (' ' :: rest) = "ChST".toList ∨
        List.take 4 (' ' :: rest) = "MeST".toList) := by
      rintro (h | h)
      · exact h4 "ChST".toList (by decide) (by decide) h
      · exact h4 "MeST".toList (by decide) (by decide) h
    have e2 : ¬ (List.take 3 (' ' :: rest) = "GMT".toList) :=
      h4 "GMT".toList (by decide) (by decide)
    have e3 : ¬ ((' ' :: rest).head? = some '+' ∨ (' ' :: rest).head? = some '-') := by
      simp
    rw [if_neg e1, if_neg e2, if_neg e3]
    simp [List.takeWhile]

theorem head_ne_space_of_parseTimeZone (z : GoString) (n : Nat)
    (h : time.parseTimeZone z = some n) : z.head? ≠ some ' ' := by
  cases z with
  | nil => simp
  | cons c cs =>
    intro hc
    simp only [List.head?_cons, Option.some.injEq] at hc
    rw [hc, parseTimeZone_space] at h
    cases h

theorem parseStd_TZ_name (z : GoString) (hutc : time.cutPrefix "UTC".toList z = none)
    (hz : time.parseTimeZone z = some z.length) (f : time.Fields) :
    time.parseStd .stdTZ [] z f = some ([], { f with zoneName := z }) := by
  have hutc2 : time.cutPrefix ['U', 'T', 'C'] z = none := hutc
  simp [time.parseStd, hutc2, hz]

theorem parseFinish_ofAbs (loc : Option Location) (s : Int) (hs : IsGoInt s) (zUTC : Bool)
    (zoneOffset : Int) (zoneName : GoString) :
    time.parseFinish loc
        { time.Fields.ofAbs (toUint64 (s + time.internalToAbsolute)) with
          zUTC := zUTC, zoneOffset := zoneOffset, zoneName := zoneName } =
      if zUTC then some ⟨s, 0, none⟩
      else if zoneOffset ≠ -1 then
        if Location.offsetOf loc = zoneOffset ∧
            (zoneName = [] ∨ (match loc with
              | none => "UTC".toList
              | some l => l.name) = zoneName) then
          some { (⟨s, 0, none⟩ : Time).addSec (toInt64 (-zoneOffset)) with loc := loc }
        else
          some { (⟨s, 0, none⟩ : Time).addSec (toInt64 (-zoneOffset)) with
            loc := some ⟨zoneName, zoneOffset⟩ }
      else if zoneName ≠ [] then
        match loc with
        | some l =>
          if l.name = zoneName then
            some { (⟨s, 0, none⟩ : Time).addSec (toInt64 (-l.offset)) with loc := loc }
          else
            some ⟨s, 0, some ⟨zoneName,
              if zoneName.length > 3 ∧ zoneName.take 3 = "GMT".toList then
                (time.atoi (zoneName.drop 3)).getD 0 * 3600
              else 0⟩⟩
        | none =>
          some ⟨s, 0, some ⟨zoneName,
            if zoneName.length > 3 ∧ zoneName.take 3 = "GMT".toList then
              (time.atoi (zoneName.drop 3)).getD 0 * 3600
            else 0⟩⟩
      else some ⟨s, 0, none⟩ := by
  have hdate := Date_absDate_absClock s hs
  obtain ⟨_, _, _, _, _, _, _, _, _, _, _, _, hm1, _, hd1, hdin, _⟩ :=
    absDate_spec (toUint64 (s + time.internalToAbsolute))
  unfold time.Fields.ofAbs
  generalize time.absDate (toUint64 (s + time.internalToAbsolute)) = cd at *
  generalize time.absClock (toUint64 (s + time.internalToAbsolute)) = cl at *
  obtain ⟨year, m, dd⟩ := cd
  obtain ⟨h, mi, se⟩ := cl
  simp only at hm1 hd1 hdin hdate
  have h1 : ¬ ((m : Int) < 0) := by omega
  have h2 : ¬ ((dd : Int) < 0) := by omega
  have h3 : ¬ ((dd : Int) < 1 ∨ (dd : Int) > (time.daysIn m year : Nat)) := by omega
  simp only [time.parseFinish, Bool.false_eq_true, false_and, if_false, h1,
    h2, Int.toNat_ofNat, h3, hdate]

theorem Parse_of_parseLoop (loc : Option Location) (layout value : GoString) (f : time.Fields)
    (t : Time) (h1 : time.parseLoop (layout.length + 1) layout value time.Fields.init = some f)
    (h2 : time.parseFinish loc f = some t) : time.Parse loc layout value = .ok t := by
  simp only [time.Parse, h1, h2]

theorem Parse_of_parseLoop_none (loc : Option Location) (layout value : GoString)
    (h1 : time.parseLoop (layout.length + 1) layout value time.Fields.init = none) :
    (time.Parse loc layout value).toOption = none := by
  simp only [time.Parse, h1, Except.toOption]

theorem Parse_RFC1123_at (loc : Option Location) (abs : Nat) (zone : GoString)
    (f2 : time.Fields) (t : Time)
    (hy0 : 0 ≤ (time.absDate abs).year) (hy1 : (time.absDate abs).year ≤ 9999)
    (hskip : time.skip 1 (' ' :: zone) [' '] = some zone)
    (htz : time.parseStd .stdTZ [] zone (time.Fields.ofAbs abs) = some ([], f2))
    (hfin : time.parseFinish loc f2 = some t) :
    time.Parse loc time.RFC1123 (rfc1123TextAt abs zone) = .ok t := by
  refine Parse_of_parseLoop loc _ _ f2 t ?_ hfin
  have hlen : List.length time.RFC1123 + 1 = 30 := by decide
  rw [hlen, parseLoop_clock_at 30 _ _ _ _ _ _ _ _ (by decide) chunk_RFC1123_1 chunk_RFC1123_2
    chunk_RFC1123_3 chunk_RFC1123_4 chunk_RFC1123_5 chunk_RFC1123_6 chunk_RFC1123_7 abs zone
    hy0 hy1]
  exact parseLoop_zone_ok _ _ _ _ _ _ (by decide) chunk_RFC1123_8 hskip htz

theorem Parse_RFC1123_at_fails (loc : Option Location) (abs : Nat) (zone : GoString)
    (hy0 : 0 ≤ (time.absDate abs).year) (hy1 : (time.absDate abs).year ≤ 9999)
    (hskip : time.skip 1 (' ' :: zone) [' '] = some zone)
    (htz : time.parseStd .stdTZ [] zone (time.Fields.ofAbs abs) = none) :
    (time.Parse loc time.RFC1123 (rfc1123TextAt abs zone)).toOption = none := by
  refine Parse_of_parseLoop_none loc _ _ ?_
  have hlen : List.length time.RFC1123 + 1 = 30 := by decide
  rw [hlen, parseLoop_clock_at 30 _ _ _ _ _ _ _ _ (by decide) chunk_RFC1123_1 chunk_RFC1123_2
    chunk_RFC1123_3 chunk_RFC1123_4 chunk_RFC1123_5 chunk_RFC1123_6 chunk_RFC1123_7 abs zone
    hy0 hy1]
  exact parseLoop_zone_fails _ _ _ _ _ (by decide) chunk_RFC1123_8 hskip htz

theorem Parse_RFC1123Z_at (loc : Option Location) (abs : Nat) (zone : GoString)
    (f2 : time.Fields) (t : Time)
    (hy0 : 0 ≤ (time.absDate abs).year) (hy1 : (time.absDate abs).year ≤ 9999)
    (hskip : time.skip 1 (' ' :: zone) [' '] = some zone)
    (htz : time.parseStd .stdNumTZ [] zone (time.Fields.ofAbs abs) = some ([], f2))
    (hfin : time.parseFinish loc f2 = some t) :
    time.Parse loc time.RFC1123Z (rfc1123TextAt abs zone) = .ok t := by
  refine Parse_of_parseLoop loc _ _ f2 t ?_ hfin
  have hlen : List.length time.RFC1123Z + 1 = 32 := by decide
  rw [hlen, parseLoop_clock_at 32 _ _ _ _ _ _ _ _ (by decide) chunk_RFC1123Z_1 chunk_RFC1123Z_2
    chunk_RFC1123Z_3 chunk_RFC1123Z_4 chunk_RFC1123Z_5 chunk_RFC1123Z_6 chunk_RFC1123Z_7 abs zone
    hy0 hy1]
  exact parseLoop_zone_ok _ _ _ _ _ _ (by decide) chunk_RFC1123Z_8 hskip htz

theorem Parse_before_RFC1123_at (loc : Option Location) (abs : Nat) (zone : GoString) :
    ∀ l ∈ [time.ANSIC, time.UnixDate, time.RubyDate, time.RFC822, time.RFC822Z, time.RFC850],
      (time.Parse loc l (rfc1123TextAt abs zone)).toOption = none :=
  Parse_before_RFC1123 loc _ _ _ _ _ _ _ _ _ _ _ _ _ _ zone (absWeekday_lt abs)

theorem tryParseTime_RFC1123 (loc : Option Location) (abs : Nat) (zone : GoString) (t : Time)
    (h : time.Parse loc time.RFC1123 (rfc1123TextAt abs zone) = .ok t) :
    tryParseTime (time.Parse loc) (rfc1123TextAt abs zone) = (t, none) :=
  tryParseTime_loop_first (time.Parse loc) _ none
    [time.ANSIC, time.UnixDate, time.RubyDate, time.RFC822, time.RFC822Z, time.RFC850]
    [time.RFC1123Z, time.RFC3339, time.RFC3339Nano, time.Kitchen, time.Stamp,
     time.StampMilli, time.StampMicro, time.StampNano]
    time.RFC1123 t (Parse_before_RFC1123_at loc abs zone) h

theorem tryParseTime_RFC1123Z (loc : Option Location) (abs : Nat) (zone : GoString) (t : Time)
    (h1 : (time.Parse loc time.RFC1123 (rfc1123TextAt abs zone)).toOption = none)
    (h : time.Parse loc time.RFC1123Z (rfc1123TextAt abs zone) = .ok t) :
    tryParseTime (time.Parse loc) (rfc1123TextAt abs zone) = (t, none) := by
  refine tryParseTime_loop_first (time.Parse loc) _ none
    [time.ANSIC, time.UnixDate, time.RubyDate, time.RFC822, time.RFC822Z, time.RFC850,
      time.RFC1123]
    [time.RFC3339, time.RFC3339Nano, time.Kitchen, time.Stamp,
     time.StampMilli, time.StampMicro, time.StampNano]
    time.RFC1123Z t ?_ h
  intro l hl
  simp only [List.mem_cons, List.mem_singleton, List.not_mem_nil, or_false] at hl
  rcases hl with hl | hl | hl | hl | hl | hl | hl
  · exact hl ▸ Parse_before_RFC1123_at loc abs zone _ (by simp)
  · exact hl ▸ Parse_before_RFC1123_at loc abs zone _ (by simp)
  · exact hl ▸ Parse_before_RFC1123_at loc abs zone _ (by simp)
  · exact hl ▸ Parse_before_RFC1123_at loc abs zone _ (by simp)
  · exact hl ▸ Parse_before_RFC1123_at loc abs zone _ (by simp)
  · exact hl ▸ Parse_before_RFC1123_at loc abs zone _ (by simp)
  · exact hl ▸ h1

/-! ## A zone written as an offset -/

/-- The sign, the two digits of the hours and the two digits of the minutes. -/
theorem appendZone_eq (k : Int) (hk : k.natAbs < 6000) :
    time.appendZone (k * 60) false true false =
      [if k < 0 then '-' else '+', strconv.digitChar (k.natAbs / 60 / 10),
        strconv.digitChar (k.natAbs / 60 % 10), strconv.digitChar (k.natAbs % 60 / 10),
        strconv.digitChar (k.natAbs % 60 % 10)] := by
  have e0 : Int.tdiv (k * 60) 60 = k := Int.mul_tdiv_cancel k (by norm_num)
  have e1 : (if k < 0 then -k else k) = (k.natAbs : Int) := by
    split_ifs <;> omega
  have e2 : Int.tdiv (k.natAbs : Int) 60 = ((k.natAbs / 60 : Nat) : Int) := rfl
  have e3 : Int.tmod (k.natAbs : Int) 60 = ((k.natAbs % 60 : Nat) : Int) := rfl
  unfold time.appendZone
  simp only [e0, e1, e2, e3, appendInt_two _ (show k.natAbs / 60 < 100 by omega),
    appendInt_two _ (show k.natAbs % 60 < 100 by omega), Bool.false_eq_true, if_false, if_true,
    List.append_nil]
  split_ifs <;> rfl

theorem digitChar_ne_of_not_digit (d : Nat) (c : Char) (hc : c.isDigit = false) :
    strconv.digitChar d ≠ c := by
  intro h
  have := digitChar_isDigit d
  rw [h, hc] at this
  cases this

theorem leadingInt_four (a b c d : Nat) (ha : a ≤ 9) (hb : b ≤ 9) (hc : c ≤ 9) (hd : d ≤ 9) :
    time.leadingInt 0 [strconv.digitChar a, strconv.digitChar b, strconv.digitChar c,
      strconv.digitChar d] = some (((a * 10 + b) * 10 + c) * 10 + d, []) := by
  have h1 : ¬ (0 * 10 + a > 2 ^ 63) := by omega
  have h2 : ¬ ((0 * 10 + a) * 10 + b > 2 ^ 63) := by omega
  have h3 : ¬ (((0 * 10 + a) * 10 + b) * 10 + c > 2 ^ 63) := by omega
  have h4 : ¬ ((((0 * 10 + a) * 10 + b) * 10 + c) * 10 + d > 2 ^ 63) := by omega
  have g1 : ¬ (0 > 2 ^ 63 / 10) := by norm_num
  have g2 : ¬ (0 * 10 + a > 2 ^ 63 / 10) := by omega
  have g3 : ¬ ((0 * 10 + a) * 10 + b > 2 ^ 63 / 10) := by omega
  have g4 : ¬ (((0 * 10 + a) * 10 + b) * 10 + c > 2 ^ 63 / 10) := by omega
  simp only [time.leadingInt, digitVal_digitChar, ha, hb, hc, hd, h1, h2, h3, h4, g1, g2, g3,
    g4, if_false]
  simp

/-- The layout element `MST` does not read an offset `+hhmm` above `+0023`. -/
theorem parseStd_TZ_offset_fails (neg : Bool) (a b c d : Nat) (ha : a ≤ 9) (hb : b ≤ 9)
    (hc : c ≤ 9) (hd : d ≤ 9) (h23 : 23 < ((a * 10 + b) * 10 + c) * 10 + d)
    (f : time.Fields) :
    time.parseStd .stdTZ []
        [if neg then '-' else '+', strconv.digitChar a, strconv.digitChar b,
          strconv.digitChar c, strconv.digitChar d] f = none := by
  have hso : ∀ sign : Char, (sign = '-' ∨ sign = '+') →
      time.parseSignedOffset [sign, strconv.digitChar a, strconv.digitChar b,
        strconv.digitChar c, strconv.digitChar d] = 0 := by
    intro sign hsign
    have hs : ¬ (sign ≠ '-' ∧ sign ≠ '+') := by
      rcases hsign with h | h <;> simp [h]
    simp only [time.parseSignedOffset, hs, if_false, leadingInt_four a b c d ha hb hc hd,
      List.length_cons, List.length_nil]
    simp [h23]
  cases neg with
  | false =>
    have := hso '+' (Or.inr rfl)
    simp [time.parseStd, time.cutPrefix, time.parseTimeZone, this]
  | true =>
    have := hso '-' (Or.inl rfl)
    simp [time.parseStd, time.cutPrefix, time.parseTimeZone, this]

/-- The layout element `-0700` reads an offset of at most 24 hours and 60
minutes. -/
theorem parseStd_NumTZ (neg : Bool) (a b c d : Nat) (ha : a ≤ 9) (hb : b ≤ 9)
    (hc : c ≤ 9) (hd : d ≤ 9) (h24 : a * 10 + b ≤ 24) (h60 : c * 10 + d ≤ 60)
    (f : time.Fields) :
    time.parseStd .stdNumTZ []
        [if neg then '-' else '+', strconv.digitChar a, strconv.digitChar b,
          strconv.digitChar c, strconv.digitChar d] f =
      some ([], { f with zoneOffset :=
        if neg then -((((a * 10 + b : Nat) : Int) * 60 + ((c * 10 + d : Nat) : Int)) * 60)
        else (((a * 10 + b : Nat) : Int) * 60 + ((c * 10 + d : Nat) : Int)) * 60 }) := by
  have hsplit : ∀ sign : Char, time.splitZone .stdNumTZ [sign, strconv.digitChar a,
      strconv.digitChar b, strconv.digitChar c, strconv.digitChar d] =
      some ([sign], [strconv.digitChar a, strconv.digitChar b],
        [strconv.digitChar c, strconv.digitChar d], "00".toList, []) := by
    intro sign
    simp [time.splitZone]
  have h00 : time.getnum "00".toList true = some (0, []) := by decide
  have hr : ¬ ((a : Int) * 10 + b > 24 ∨ (c : Int) * 10 + d > 60 ∨ (0 : Int) > 60) := by
    omega
  cases neg with
  | false =>
    simp only [time.parseStd, time.parseNumZone, hsplit, getnum_two a b ha hb,
      getnum_two c d hc hd, h00, hr, if_false, Bool.false_eq_true]
    simp
  | true =>
    simp only [time.parseStd, time.parseNumZone, hsplit, getnum_two a b ha hb,
      getnum_two c d hc hd, h00, hr, if_false, if_true]
    simp

/-- The absolute seconds of the years from 0 to 9999 lie in this range. -/
theorem abs_range_of_year (abs : Nat) (hy0 : 0 ≤ (time.absDate abs).year)
    (hy1 : (time.absDate abs).year ≤ 9999) :
    9223371966537043200 ≤ abs ∧ abs < 9223372282213180800 := by
  obtain ⟨century, cyear, ayday, amonth, janFeb, c99, m3, m14, hjf, hdays, hyr, _, _, _, _,
    hdin, hsum⟩ := absDate_spec abs
  have hday := le_trans hdin (daysIn_le _ _)
  rw [hyr] at hy0 hy1
  have hA : time.absoluteYears = 292277022400 := rfl
  rw [hA] at hy0 hy1
  have hj : janFeb ≤ 1 := by
    rw [hjf]
    split_ifs <;> omega
  have e1 : 146097 * century / 4 = 36524 * century + century / 4 := by omega
  have e2 : 1461 * cyear / 4 = 365 * cyear + cyear / 4 := by omega
  rw [e1, e2] at hdays
  have hay : ayday ≤ 367 := by omega
  clear hsum hdin hyr hjf e1 e2
  omega

theorem wall_isGoInt (s off : Int) (hs : IsGoInt s) (hoff : off.natAbs < 90000)
    (hy0 : 0 ≤ (time.absDate (toUint64 (s + off + time.internalToAbsolute))).year)
    (hy1 : (time.absDate (toUint64 (s + off + time.internalToAbsolute))).year ≤ 9999) :
    IsGoInt (s + off) := by
  obtain ⟨h0, h1⟩ := abs_range_of_year _ hy0 hy1
  have hmin : minInt = -9223372036854775808 := by decide
  have hmax : maxInt = 9223372036854775807 := by decide
  have h2 : (2 : Int) ^ 64 = 18446744073709551616 := by norm_num
  have hC : time.internalToAbsolute = 9223371966606163200 := rfl
  unfold IsGoInt at hs ⊢
  rw [hmin, hmax] at hs ⊢
  unfold toUint64 at h0 h1
  rw [h2, hC] at h0 h1
  omega

theorem locabs_abs (t : Time) :
    t.locabs.2.2 = toUint64 (t.sec + Location.offsetOf t.loc + time.internalToAbsolute) := by
  obtain ⟨sec, nsec, loc⟩ := t
  cases loc with
  | none => simp [Time.locabs, Location.offsetOf]
  | some z => rfl

theorem tryParseTime_text_UTC (loc : Option Location) (s : Int) (hs : IsGoInt s)
    (hy0 : 0 ≤ (time.absDate (toUint64 (s + time.internalToAbsolute))).year)
    (hy1 : (time.absDate (toUint64 (s + time.internalToAbsolute))).year ≤ 9999) :
    tryParseTime (time.Parse loc)
        (rfc1123TextAt (toUint64 (s + time.internalToAbsolute)) "UTC".toList) =
      (⟨s, 0, none⟩, none) := by
  apply tryParseTime_RFC1123
  refine Parse_RFC1123_at loc _ _ _ _ hy0 hy1 skip_space_UTC (parseStd_UTC [] _) ?_
  exact parseFinish_ofAbs loc s hs true (-1) []

theorem parseTimeZone_ne_nil (z : GoString) (n : Nat) (h : time.parseTimeZone z = some n) :
    z ≠ [] := by
  intro hz
  rw [hz] at h
  have h0 : time.parseTimeZone [] = none := by decide
  rw [h0] at h
  cases h

theorem tryParseTime_text_name (loc : Option Location) (s : Int) (hs : IsGoInt s)
    (z : GoString)
    (hy0 : 0 ≤ (time.absDate (toUint64 (s + time.internalToAbsolute))).year)
    (hy1 : (time.absDate (toUint64 (s + time.internalToAbsolute))).year ≤ 9999)
    (hutc : time.cutPrefix "UTC".toList z = none)
    (hz : time.parseTimeZone z = some z.length) :
    tryParseTime (time.Parse loc) (rfc1123TextAt (toUint64 (s + time.internalToAbsolute)) z) =
      ((match loc with
        | some l =>
          if l.name = z then
            { (⟨s, 0, none⟩ : Time).addSec (toInt64 (-l.offset)) with loc := loc }
          else
            ⟨s, 0, some ⟨z,
              if z.length > 3 ∧ z.take 3 = "GMT".toList then
                (time.atoi (z.drop 3)).getD 0 * 3600
              else 0⟩⟩
        | none =>
          ⟨s, 0, some ⟨z,
            if z.length > 3 ∧ z.take 3 = "GMT".toList then
              (time.atoi (z.drop 3)).getD 0 * 3600
            else 0⟩⟩), none) := by
  apply tryParseTime_RFC1123
  refine Parse_RFC1123_at loc _ _ _ _ hy0 hy1
    (skip_space_of_ne z (head_ne_space_of_parseTimeZone z _ hz))
    (parseStd_TZ_name z hutc hz _) ?_
  refine (parseFinish_ofAbs loc s hs false (-1) z).trans ?_
  have hne := parseTimeZone_ne_nil z _ hz
  simp only [Bool.false_eq_true, if_false, ne_eq, not_true_eq_false, hne, not_false_eq_true,
    if_true]
  cases loc with
  | none => rfl
  | some l =>
    simp only
    split_ifs <;> rfl

theorem tryParseTime_text_offset (loc : Option Location) (s : Int) (hs : IsGoInt s) (k : Int)
    (hy0 : 0 ≤ (time.absDate (toUint64 (s + time.internalToAbsolute))).year)
    (hy1 : (time.absDate (toUint64 (s + time.internalToAbsolute))).year ≤ 9999)
    (hk0 : 24 ≤ k.natAbs) (hk1 : k.natAbs < 1500) :
    tryParseTime (time.Parse loc)
        (rfc1123TextAt (toUint64 (s + time.internalToAbsolute))
          (time.appendZone (k * 60) false true false)) =
      (if Location.offsetOf loc = k * 60 then
          { (⟨s, 0, none⟩ : Time).addSec (toInt64 (-(k * 60))) with loc := loc }
        else
          { (⟨s, 0, none⟩ : Time).addSec (toInt64 (-(k * 60))) with loc := some ⟨[], k * 60⟩ },
        none) := by
  rw [appendZone_eq k (by omega)]
  have hsk : time.skip 1 (' ' :: [if k < 0 then '-' else '+',
      strconv.digitChar (k.natAbs / 60 / 10), strconv.digitChar (k.natAbs / 60 % 10),
      strconv.digitChar (k.natAbs % 60 / 10), strconv.digitChar (k.natAbs % 60 % 10)]) [' '] =
      some _ := skip_space_of_ne _ (by split_ifs <;> simp)
  have hneg : (if k < 0 then '-' else '+') = (if decide (k < 0) = true then '-' else '+') := by
    simp
  rw [hneg] at hsk ⊢
  have hfail := parseStd_TZ_offset_fails (decide (k < 0)) (k.natAbs / 60 / 10)
    (k.natAbs / 60 % 10) (k.natAbs % 60 / 10) (k.natAbs % 60 % 10) (by omega) (by omega)
    (by omega) (by omega) (by omega)
    (time.Fields.ofAbs (toUint64 (s + time.internalToAbsolute)))
  have hnum := parseStd_NumTZ (decide (k < 0)) (k.natAbs / 60 / 10)
    (k.natAbs / 60 % 10) (k.natAbs % 60 / 10) (k.natAbs % 60 % 10) (by omega) (by omega)
    (by omega) (by omega) (by omega) (by omega)
    (time.Fields.ofAbs (toUint64 (s + time.internalToAbsolute)))
  have hoff : (if decide (k < 0) = true then
      -((((k.natAbs / 60 / 10 * 10 + k.natAbs / 60 % 10 : Nat) : Int) * 60 +
        ((k.natAbs % 60 / 10 * 10 + k.natAbs % 60 % 10 : Nat) : Int)) * 60)
      else (((k.natAbs / 60 / 10 * 10 + k.natAbs / 60 % 10 : Nat) : Int) * 60 +
        ((k.natAbs % 60 / 10 * 10 + k.natAbs % 60 % 10 : Nat) : Int)) * 60) = k * 60 := by
    by_cases hk : k < 0
    · simp only [hk, decide_True, if_true]
      omega
    · simp only [hk, decide_False, Bool.false_eq_true, if_false]
      omega
  rw [hoff] at hnum
  refine tryParseTime_RFC1123Z loc _ _ _ (Parse_RFC1123_at_fails loc _ _ hy0 hy1 hsk hfail)
    (Parse_RFC1123Z_at loc _ _ _ _ hy0 hy1 hsk hnum ?_)
  refine (parseFinish_ofAbs loc s hs false (k * 60) []).trans ?_
  have hne : k * 60 ≠ -1 := by omega
  simp only [Bool.false_eq_true, if_false, ne_eq, hne, not_false_eq_true, if_true, true_or,
    and_true]
  split_ifs <;> rfl

theorem zoneText_name (z : Location) (h : z.name ≠ []) : Location.zoneText (some z) = z.name := by
  simp [Location.zoneText, h]

theorem zoneText_offset (z : Location)
    (h : z.name = [] ∨ z.name = time.appendZone z.offset false true false) :
    Location.zoneText (some z) = time.appendZone z.offset false true false := by
  unfold Location.zoneText
  rcases h with h | h
  · simp [h]
  · by_cases hn : z.name = []
    · simp [hn]
    · simp only [ne_eq, hn, not_false_eq_true, if_true]
      exact h

theorem addSec_back (s off : Int) (hs : IsGoInt s) (hoff : IsGoInt off) (hne : off ≠ minInt) :
    (⟨s + off, 0, none⟩ : Time).addSec (toInt64 (-off)) = ⟨s, 0, none⟩ := by
  rw [addSec_neg_offset (s + off) off hoff (by simpa using hs) hne]
  simp

theorem isGoInt_small (x : Int) (h : x.natAbs < 90000) : IsGoInt x ∧ x ≠ minInt := by
  have hmin : minInt = -9223372036854775808 := by decide
  have hmax : maxInt = 9223372036854775807 := by decide
  unfold IsGoInt
  rw [hmin, hmax]
  omega

theorem roundtrip_core (loc tloc : Option Location) (sec : Int) (hsec : IsGoInt sec)
    (hy0 : 0 ≤ (time.absDate
      (toUint64 (sec + Location.offsetOf tloc + time.internalToAbsolute))).year)
    (hy1 : (time.absDate
      (toUint64 (sec + Location.offsetOf tloc + time.internalToAbsolute))).year ≤ 9999)
    (hzone : tloc = none ∨ ∃ z, tloc = some z ∧
      ((z.name = "UTC".toList ∧ z.offset = 0) ∨
       (time.cutPrefix "UTC".toList z.name = none ∧
          time.parseTimeZone z.name = some z.name.length ∧
          ((loc = some z ∧ IsGoInt z.offset ∧ z.offset ≠ minInt ∧ IsGoInt (sec + z.offset)) ∨
           (z.offset = 0 ∧ ∀ l, loc = some l → l.name = z.name → l.offset = 0))) ∨
       ((z.name = [] ∨ z.name = time.appendZone z.offset false true false) ∧
          z.offset % 60 = 0 ∧
          ((z.offset = 0 ∧ ∀ l, loc = some l → l.name = "+0000".toList → l.offset = 0) ∨
           (1440 ≤ z.offset.natAbs ∧ z.offset.natAbs < 90000))))) :
    ∃ l, tryParseTime (time.Parse loc)
        (rfc1123TextAt (toUint64 (sec + Location.offsetOf tloc + time.internalToAbsolute))
          (Location.zoneText tloc)) = (⟨sec, 0, l⟩, none) ∧
      ((tloc = none ∨ tloc = some ⟨"GMT".toList, 0⟩ ∨
          (loc = tloc ∧ ∃ z, tloc = some z ∧ time.cutPrefix "UTC".toList z.name = none ∧
            time.parseTimeZone z.name = some z.name.length)) → l = tloc) := by
  have h00 : IsGoInt 0 ∧ (0 : Int) ≠ minInt := isGoInt_small 0 (by decide)
  rcases hzone with hloc | ⟨z, hloc, hcase⟩
  · -- UTC
    subst hloc
    simp only [Location.offsetOf, add_zero] at hy0 hy1 ⊢
    exact ⟨none, tryParseTime_text_UTC loc sec hsec hy0 hy1, fun _ => rfl⟩
  · subst hloc
    simp only [Location.offsetOf] at hy0 hy1 ⊢
    rcases hcase with ⟨hn, ho⟩ | ⟨hutc, hz, hres⟩ | ⟨hname, hmod, hres⟩
    · -- a zone named UTC at offset 0
      have hzt : Location.zoneText (some z) = "UTC".toList := by
        rw [zoneText_name z (by rw [hn]; decide), hn]
      rw [hzt]
      rw [ho, add_zero] at hy0 hy1 ⊢
      refine ⟨none, tryParseTime_text_UTC loc sec hsec hy0 hy1, ?_⟩
      rintro (h | h | ⟨_, z2, h2, hc, _⟩)
      · cases h
      · simp only [Option.some.injEq] at h
        rw [h] at hn
        exact absurd hn (by decide)
      · simp only [Option.some.injEq] at h2
        rw [← h2, hn] at hc
        exact absurd hc (by decide)
    · -- a zone with an abbreviation
      have hne := parseTimeZone_ne_nil z.name _ hz
      rw [zoneText_name z hne]
      rcases hres with ⟨hlocal, hoff, hmin, hwall⟩ | ⟨ho, hlocal⟩
      · rw [tryParseTime_text_name loc (sec + z.offset) hwall z.name hy0 hy1 hutc hz, hlocal]
        simp only [if_true, addSec_back sec z.offset hsec hoff hmin]
        exact ⟨some z, rfl, fun _ => rfl⟩
      · rw [ho, add_zero] at hy0 hy1 ⊢
        rw [tryParseTime_text_name loc sec hsec z.name hy0 hy1 hutc hz]
        cases hl : loc with
        | none =>
          refine ⟨_, rfl, ?_⟩
          rintro (h | h | ⟨h1, _⟩)
          · cases h
          · simp only [Option.some.injEq] at h
            rw [h]
            rfl
          · cases h1
        | some l =>
          simp only
          by_cases hnm : l.name = z.name
          · have hl0 := hlocal l hl hnm
            have hb := addSec_back sec 0 hsec h00.1 h00.2
            simp only [add_zero] at hb
            rw [if_pos hnm, hl0, hb]
            refine ⟨some l, rfl, fun _ => ?_⟩
            obtain ⟨ln, lo⟩ := l
            obtain ⟨zn, zo⟩ := z
            simp only at hnm hl0 ho
            rw [hnm, hl0, ho]
          · rw [if_neg hnm]
            refine ⟨_, rfl, ?_⟩
            rintro (h | h | ⟨h1, _⟩)
            · cases h
            · simp only [Option.some.injEq] at h
              rw [h]
              rfl
            · simp only [Option.some.injEq] at h1
              exact absurd (by rw [h1]) hnm
    · -- a zone written as an offset
      rw [zoneText_offset z hname]
      rcases hres with ⟨ho, hlocal⟩ | ⟨hk0, hk1⟩
      · rw [ho, add_zero] at hy0 hy1 ⊢
        have htext : time.appendZone 0 false true false = "+0000".toList := by decide
        rw [htext, tryParseTime_text_name loc sec hsec "+0000".toList hy0 hy1 (by decide)
          (by decide)]
        have hzn : z.name ≠ [] → z.name = "+0000".toList := by
          intro hne
          rcases hname with h | h
          · exact absurd h hne
          · rw [h, ho, htext]
        cases hl : loc with
        | none =>
          refine ⟨_, rfl, ?_⟩
          rintro (h | h | ⟨h1, _⟩)
          · cases h
          · simp only [Option.some.injEq] at h
            have := hzn (by rw [h]; decide)
            rw [h] at this
            exact absurd this (by decide)
          · cases h1
        | some l =>
          simp only
          by_cases hnm : l.name = "+0000".toList
          · have hl0 := hlocal l hl hnm
            have hb := addSec_back sec 0 hsec h00.1 h00.2
            simp only [add_zero] at hb
            rw [if_pos hnm, hl0, hb]
            refine ⟨some l, rfl, ?_⟩
            rintro (h | h | ⟨h1, _⟩)
            · cases h
            · simp only [Option.some.injEq] at h
              have := hzn (by rw [h]; decide)
              rw [h] at this
              exact absurd this (by decide)
            · exact h1
          · rw [if_neg hnm]
            refine ⟨_, rfl, ?_⟩
            rintro (h | h | ⟨h1, z2, h2, _, hp⟩)
            · cases h
            · simp only [Option.some.injEq] at h
              have := hzn (by rw [h]; decide)
              rw [h] at this
              exact absurd this (by decide)
            · simp only [Option.some.injEq] at h1 h2
              have hne := parseTimeZone_ne_nil z2.name _ hp
              rw [← h2] at hne
              exact absurd (by rw [h1]; exact hzn hne) hnm
      · obtain ⟨k, hk⟩ : ∃ k : Int, z.offset = k * 60 := ⟨z.offset / 60, by omega⟩
        have hsmall := isGoInt_small z.offset hk1
        have hwall := wall_isGoInt sec z.offset hsec hk1 hy0 hy1
        have hb := addSec_back sec z.offset hsec hsmall.1 hsmall.2
        rw [hk] at hy0 hy1 hwall hb hk0 hk1 ⊢
        rw [tryParseTime_text_offset loc (sec + k * 60) hwall k hy0 hy1 (by omega) (by omega),
          hb]
        by_cases hoff : Location.offsetOf loc = k * 60
        · rw [if_pos hoff]
          refine ⟨loc, rfl, ?_⟩
          rintro (h | h | ⟨h1, _⟩)
          · cases h
          · simp only [Option.some.injEq] at h
            rw [h] at hk
            simp only at hk
            omega
          · exact h1
        · rw [if_neg hoff]
          refine ⟨_, rfl, ?_⟩
          rintro (h | h | ⟨h1, _⟩)
          · cases h
          · simp only [Option.some.injEq] at h
            rw [h] at hk
            simp only at hk
            omega
          · rw [h1] at hoff
            exact absurd hk hoff

set_option maxRecDepth 100000 in
/-- Counterexample to C10 as stated, for each of twelve non-zero timestamps;
the local zone is UTC where none is named.
One nanosecond after 2005-10-31 19:23:00 UTC is written as
`Mon, 31 Oct 2005 19:23:00 UTC` and read back without the nanosecond.
The first second of the year 10000 is written as
`Sat, 01 Jan 10000 00:00:00 UTC` and the last second of the year -1 as
`Fri, 31 Dec -0001 23:59:59 UTC`; no layout parses either, and the zero time
comes back.
In a zone `PST` eight hours west of UTC that is not the local zone the text
`Mon, 31 Oct 2005 11:23:00 PST` is read back as 11:23:00 at offset 0, eight
hours earlier; in a zone named `UTC` one hour east the text is read back as
UTC, one hour later; in the zone `GMT` at offset 0, where the local zone is
named `GMT` and lies one hour east, it is read back one hour earlier; in a
zone `Local` the text is parsed by no layout.
In a zone without abbreviation the offset is written: `+0015` is read back
as an abbreviation at offset 0, a quarter of an hour later; 5 hours 30 minutes
and 30 seconds east is written `+0530` and read back 30 seconds later; `+2500`
is parsed by no layout.
In the local zone, an offset that carries the seconds of the wall clock around
the 64-bit range, or whose negation does not fit 64 bits, is subtracted with
saturation, and another instant comes back. -/
theorem xmlTime_roundtrip_changes_instant :
    (Time.IsZero ⟨63266383380, 1, none⟩ = false ∧
      xmlTime.MarshalXML ⟨63266383380, 1, none⟩ = "Mon, 31 Oct 2005 19:23:00 UTC".toList ∧
      tryParseTime (time.Parse none) (xmlTime.MarshalXML ⟨63266383380, 1, none⟩) =
        (⟨63266383380, 0, none⟩, none)) ∧
    (Time.IsZero ⟨315537897600, 0, none⟩ = false ∧
      xmlTime.MarshalXML ⟨315537897600, 0, none⟩ = "Sat, 01 Jan 10000 00:00:00 UTC".toList ∧
      tryParseTime (time.Parse none) (xmlTime.MarshalXML ⟨315537897600, 0, none⟩) =
        (Time.zero, none)) ∧
    (Time.IsZero ⟨-31622401, 0, none⟩ = false ∧
      xmlTime.MarshalXML ⟨-31622401, 0, none⟩ = "Fri, 31 Dec -0001 23:59:59 UTC".toList ∧
      tryParseTime (time.Parse none) (xmlTime.MarshalXML ⟨-31622401, 0, none⟩) =
        (Time.zero, none)) ∧
    (Time.IsZero ⟨63266383380, 0, some ⟨"PST".toList, -28800⟩⟩ = false ∧
      xmlTime.MarshalXML ⟨63266383380, 0, some ⟨"PST".toList, -28800⟩⟩ =
        "Mon, 31 Oct 2005 11:23:00 PST".toList ∧
      tryParseTime (time.Parse none)
          (xmlTime.MarshalXML ⟨63266383380, 0, some ⟨"PST".toList, -28800⟩⟩) =
        (⟨63266354580, 0, some ⟨"PST".toList, 0⟩⟩, none)) ∧
    (xmlTime.MarshalXML ⟨63266383380, 0, some ⟨"UTC".toList, 3600⟩⟩ =
        "Mon, 31 Oct 2005 20:23:00 UTC".toList ∧
      tryParseTime (time.Parse none)
          (xmlTime.MarshalXML ⟨63266383380, 0, some ⟨"UTC".toList, 3600⟩⟩) =
        (⟨63266386980, 0, none⟩, none)) ∧
    (xmlTime.MarshalXML ⟨63266383380, 0, some ⟨"GMT".toList, 0⟩⟩ =
        "Mon, 31 Oct 2005 19:23:00 GMT".toList ∧
      tryParseTime (time.Parse (some ⟨"GMT".toList, 3600⟩))
          (xmlTime.MarshalXML ⟨63266383380, 0, some ⟨"GMT".toList, 0⟩⟩) =
        (⟨63266379780, 0, some ⟨"GMT".toList, 3600⟩⟩, none)) ∧
    (xmlTime.MarshalXML ⟨63266383380, 0, some ⟨"Local".toList, 0⟩⟩ =
        "Mon, 31 Oct 2005 19:23:00 Local".toList ∧
      tryParseTime (time.Parse none)
          (xmlTime.MarshalXML ⟨63266383380, 0, some ⟨"Local".toList, 0⟩⟩) =
        (Time.zero, none)) ∧
    (xmlTime.MarshalXML ⟨63266383380, 0, some ⟨[], 900⟩⟩ =
        "Mon, 31 Oct 2005 19:38:00 +0015".toList ∧
      tryParseTime (time.Parse none) (xmlTime.MarshalXML ⟨63266383380, 0, some ⟨[], 900⟩⟩) =
        (⟨63266384280, 0, some ⟨"+0015".toList, 0⟩⟩, none)) ∧
    (xmlTime.MarshalXML ⟨63266383380, 0, some ⟨[], 19830⟩⟩ =
        "Tue, 01 Nov 2005 00:53:30 +0530".toList ∧
      tryParseTime (time.Parse none) (xmlTime.MarshalXML ⟨63266383380, 0, some ⟨[], 19830⟩⟩) =
        (⟨63266383410, 0, some ⟨[], 19800⟩⟩, none)) ∧
    (xmlTime.MarshalXML ⟨63266383380, 0, some ⟨[], 90000⟩⟩ =
        "Tue, 01 Nov 2005 20:23:00 +2500".toList ∧
      tryParseTime (time.Parse none) (xmlTime.MarshalXML ⟨63266383380, 0, some ⟨[], 90000⟩⟩) =
        (Time.zero, none)) ∧
    ((⟨9223372036854775807, 0, some ⟨"PST".toList, 9223372036854775799⟩⟩ : Time).Year = 0 ∧
      tryParseTime (time.Parse (some ⟨"PST".toList, 9223372036854775799⟩))
          (xmlTime.MarshalXML
            ⟨9223372036854775807, 0, some ⟨"PST".toList, 9223372036854775799⟩⟩) =
        (⟨-9223372036854775807, 0, some ⟨"PST".toList, 9223372036854775799⟩⟩, none)) ∧
    ((⟨9223372036854775798, 0, some ⟨"PST".toList, -9223372036854775808⟩⟩ : Time).Year = 0 ∧
      tryParseTime (time.Parse (some ⟨"PST".toList, -9223372036854775808⟩))
          (xmlTime.MarshalXML
            ⟨9223372036854775798, 0, some ⟨"PST".toList, -9223372036854775808⟩⟩) =
        (⟨-9223372036854775807, 0, some ⟨"PST".toList, -9223372036854775808⟩⟩, none)) := by
  refine ⟨?_, ?_, ?_, ?_, ?_, ?_, ?_, ?_, ?_, ?_, ?_, ?_⟩ <;> decide

/-- C10, amended: for every timestamp `t` without a fraction of a second whose
year, in its zone, is between 0 and 9999, and whose zone `time.Parse` reads
back at its own offset, the encoder writes the same RFC1123 text as an element
and as an attribute, without error, and `tryParseTime` on that text returns,
with a nil error, a timestamp of the same second and nanosecond, hence of the
same instant.  The zones read back at their own offset are: UTC, also as a
zone named `UTC` at offset 0; a zone whose abbreviation the element `MST`
accepts and which is the local zone (offset and wall clock within 64 bits) or
lies at offset 0 (the local zone not bearing the abbreviation at another
offset); a zone written as its offset `+hhmm`, having no abbreviation or that
text as abbreviation, when the offset is a whole number of minutes and is 0 or
at least 24 minutes and less than 25 hours.  The timestamp returned is `t`
itself when the zone of `t` is UTC, or `GMT` at offset 0, or the local zone with
an abbreviation that is accepted. -/
theorem xmlTime_roundtrip (loc : Option Location) (t : Time) (name : xml.Name)
    (hnsec : t.nsec = 0) (hsec : IsGoInt t.sec) (hy0 : 0 ≤ t.Year) (hy1 : t.Year ≤ 9999)
    (hzone : t.loc = none ∨ ∃ z, t.loc = some z ∧
      ((z.name = "UTC".toList ∧ z.offset = 0) ∨
       (time.cutPrefix "UTC".toList z.name = none ∧
          time.parseTimeZone z.name = some z.name.length ∧
          ((loc = some z ∧ IsGoInt z.offset ∧ z.offset ≠ minInt ∧ IsGoInt (t.sec + z.offset)) ∨
           (z.offset = 0 ∧ ∀ l, loc = some l → l.name = z.name → l.offset = 0))) ∨
       ((z.name = [] ∨ z.name = time.appendZone z.offset false true false) ∧
          z.offset % 60 = 0 ∧
          ((z.offset = 0 ∧ ∀ l, loc = some l → l.name = "+0000".toList → l.offset = 0) ∨
           (1440 ≤ z.offset.natAbs ∧ z.offset.natAbs < 90000))))) :
    xmlTime.MarshalXML t = t.Format time.RFC1123 ∧
      xmlTime.MarshalXMLAttr t name = (⟨name, t.Format time.RFC1123⟩, none) ∧
      ∃ l, tryParseTime (time.Parse loc) (t.Format time.RFC1123) =
          (⟨t.sec, t.nsec, l⟩, none) ∧
        ((t.loc = none ∨ t.loc = some ⟨"GMT".toList, 0⟩ ∨
            (loc = t.loc ∧ ∃ z, t.loc = some z ∧ time.cutPrefix "UTC".toList z.name = none ∧
              time.parseTimeZone z.name = some z.name.length)) → l = t.loc) := by
  refine ⟨rfl, rfl, ?_⟩
  rw [Format_RFC1123_at t hy0 hy1, locabs_abs, hnsec]
  unfold Time.Year at hy0 hy1
  rw [locabs_abs] at hy0 hy1
  exact roundtrip_core loc t.loc t.sec hsec hy0 hy1 hzone

set_option maxRecDepth 100000 in
/-- Witness of C10, amended.  The creation date of `category.opml` of the
tests, `Mon, 31 Oct 2005 19:23:00 GMT`, read with a local zone eight hours west
of UTC, comes back as it is; the same instant in that local zone,
`Mon, 31 Oct 2005 11:23:00 PST`, comes back as it is; in a zone without
abbreviation five and a half hours east, `Tue, 01 Nov 2005 00:53:00 +0530`, and
in the zone `WET` at offset 0 it comes back as the same instant. -/
theorem xmlTime_roundtrip_witness :
    ((⟨63266383380, 0, some sampleGMT⟩ : Time).Year = 2005 ∧
      xmlTime.MarshalXML ⟨63266383380, 0, some sampleGMT⟩ =
        "Mon, 31 Oct 2005 19:23:00 GMT".toList ∧
      tryParseTime (time.Parse (some ⟨"PST".toList, -28800⟩))
        ((⟨63266383380, 0, some sampleGMT⟩ : Time).Format time.RFC1123) =
        (⟨63266383380, 0, some sampleGMT⟩, none)) ∧
    (xmlTime.MarshalXML ⟨63266383380, 0, some ⟨"PST".toList, -28800⟩⟩ =
        "Mon, 31 Oct 2005 11:23:00 PST".toList ∧
      tryParseTime (time.Parse (some ⟨"PST".toList, -28800⟩))
        ((⟨63266383380, 0, some ⟨"PST".toList, -28800⟩⟩ : Time).Format time.RFC1123) =
        (⟨63266383380, 0, some ⟨"PST".toList, -28800⟩⟩, none)) ∧
    (xmlTime.MarshalXML ⟨63266383380, 0, some ⟨[], 19800⟩⟩ =
        "Tue, 01 Nov 2005 00:53:00 +0530".toList ∧
      (tryParseTime (time.Parse none)
        ((⟨63266383380, 0, some ⟨[], 19800⟩⟩ : Time).Format time.RFC1123)).1.sec =
        63266383380) ∧
    (xmlTime.MarshalXML ⟨63266383380, 0, some ⟨"WET".toList, 0⟩⟩ =
        "Mon, 31 Oct 2005 19:23:00 WET".toList ∧
      (tryParseTime (time.Parse none)
        ((⟨63266383380, 0, some ⟨"WET".toList, 0⟩⟩ : Time).Format time.RFC1123)).1.sec =
        63266383380) := by
  refine ⟨⟨by decide, by decide, ?_⟩, ⟨by decide, ?_⟩, ⟨by decide, ?_⟩, ⟨by decide, ?_⟩⟩
  · obtain ⟨_, _, l, h, hl⟩ := xmlTime_roundtrip (some ⟨"PST".toList, -28800⟩)
      ⟨63266383380, 0, some sampleGMT⟩ ⟨[], []⟩ rfl (by decide) (by decide) (by decide)
      (Or.inr ⟨sampleGMT, rfl, Or.inr (Or.inl ⟨by decide, by decide,
        Or.inr ⟨rfl, by intro l hl hn; cases hl; exact absurd hn (by decide)⟩⟩)⟩)
    rw [hl (Or.inr (Or.inl rfl))] at h
    exact h
  · obtain ⟨_, _, l, h, hl⟩ := xmlTime_roundtrip (some ⟨"PST".toList, -28800⟩)
      ⟨63266383380, 0, some ⟨"PST".toList, -28800⟩⟩ ⟨[], []⟩ rfl (by decide) (by decide)
      (by decide)
      (Or.inr ⟨⟨"PST".toList, -28800⟩, rfl, Or.inr (Or.inl ⟨by decide, by decide,
        Or.inl ⟨rfl, by decide, by decide, by decide⟩⟩)⟩)
    rw [hl (Or.inr (Or.inr ⟨rfl, _, rfl, by decide, by decide⟩))] at h
    exact h
  · obtain ⟨_, _, l, h, _⟩ := xmlTime_roundtrip none
      ⟨63266383380, 0, some ⟨[], 19800⟩⟩ ⟨[], []⟩ rfl (by decide) (by decide) (by decide)
      (Or.inr ⟨⟨[], 19800⟩, rfl, Or.inr (Or.inr ⟨Or.inl rfl, by decide,
        Or.inr ⟨by decide, by decide⟩⟩)⟩)
    rw [h]
  · obtain ⟨_, _, l, h, _⟩ := xmlTime_roundtrip none
      ⟨63266383380, 0, some ⟨"WET".toList, 0⟩⟩ ⟨[], []⟩ rfl (by decide) (by decide) (by decide)
      (Or.inr ⟨⟨"WET".toList, 0⟩, rfl, Or.inr (Or.inl ⟨by decide, by decide,
        Or.inr ⟨rfl, by intro l hl; cases hl⟩⟩)⟩)
    rw [h]

/-! ## Categories: splitting, joining and trimming -/

theorem Join_cons_cons (sep c : Char) (e : GoString) (es : List GoString) :
    strings.Join ((c :: e) :: es) sep = c :: strings.Join (e :: es) sep := by
  cases es with
  | nil => simp [strings.Join]
  | cons e2 es => simp [strings.Join]

theorem Join_splitScan (sep : Char) (v : GoString) :
    strings.Join ((strings.splitScan sep v).1 :: (strings.splitScan sep v).2) sep = v := by
  induction v with
  | nil => simp [strings.splitScan, strings.Join]
  | cons c cs ih =>
    by_cases hc : c = sep
    · simp only [strings.splitScan, hc, if_true]
      simp only [strings.Join, List.nil_append, ih]
    · simp only [strings.splitScan, hc, if_false]
      rw [Join_cons_cons, ih]

theorem Join_Split (sep : Char) (v : GoString) :
    strings.Join (strings.Split v sep) sep = v :=
  Join_splitScan sep v

theorem splitScan_not_mem (sep : Char) (v : GoString) :
    sep ∉ (strings.splitScan sep v).1 ∧ ∀ p ∈ (strings.splitScan sep v).2, sep ∉ p := by
  induction v with
  | nil => simp [strings.splitScan]
  | cons c cs ih =>
    by_cases hc : c = sep
    · simp only [strings.splitScan, hc, if_true]
      refine ⟨List.not_mem_nil _, ?_⟩
      intro p hp
      rcases List.mem_cons.1 hp with h | h
      · exact h ▸ ih.1
      · exact ih.2 p h
    · simp only [strings.splitScan, hc, if_false]
      refine ⟨?_, ih.2⟩
      intro hm
      rcases List.mem_cons.1 hm with h | h
      · exact hc h.symm
      · exact ih.1 h

theorem Split_not_mem (sep : Char) (v : GoString) : ∀ p ∈ strings.Split v sep, sep ∉ p := by
  intro p hp
  rcases List.mem_cons.1 hp with h | h
  · exact h ▸ (splitScan_not_mem sep v).1
  · exact (splitScan_not_mem sep v).2 p h

theorem Split_ne_nil (sep : Char) (v : GoString) : strings.Split v sep ≠ [] := by
  simp [strings.Split]

theorem mem_of_mem_TrimSpace (s : GoString) (c : Char) (h : c ∈ strings.TrimSpace s) : c ∈ s := by
  unfold strings.TrimSpace at h
  have h1 := List.mem_reverse.1 h
  have h2 := (List.dropWhile_sublist _).subset h1
  have h3 := List.mem_reverse.1 h2
  exact (List.dropWhile_sublist _).subset h3

theorem dropWhile_eq_self_of_head (p : Char → Bool) (s : GoString)
    (h : s.head?.any p = false) : s.dropWhile p = s := by
  cases s with
  | nil => rfl
  | cons c cs =>
    simp only [List.head?_cons, Option.any_some] at h
    simp [List.dropWhile, h]

theorem TrimSpace_eq_self_of_Trimmed (e : GoString) (h : Trimmed e = true) :
    strings.TrimSpace e = e := by
  unfold Trimmed at h
  simp only [Bool.and_eq_true, Bool.not_eq_true'] at h
  unfold strings.TrimSpace
  rw [dropWhile_eq_self_of_head _ e h.1,
    dropWhile_eq_self_of_head _ e.reverse (by rw [List.head?_reverse]; exact h.2),
    List.reverse_reverse]

theorem head?_dropWhile_any (p : Char → Bool) (s : GoString) :
    (s.dropWhile p).head?.any p = false := by
  induction s with
  | nil => rfl
  | cons c cs ih =>
    by_cases hc : p c = true
    · simp [List.dropWhile, hc, ih]
    · simp only [Bool.not_eq_true] at hc
      simp [List.dropWhile, hc]

theorem getLast?_dropWhile_any (p : Char → Bool) (s : GoString)
    (h : s.getLast?.any p = false) : (s.dropWhile p).getLast?.any p = false := by
  induction s with
  | nil => exact h
  | cons c cs ih =>
    by_cases hc : p c = true
    · simp only [List.dropWhile, hc]
      cases cs with
      | nil => rfl
      | cons d ds =>
        apply ih
        simpa [List.getLast?_cons_cons] using h
    · simp only [Bool.not_eq_true] at hc
      simpa [List.dropWhile, hc] using h

theorem Trimmed_TrimSpace (s : GoString) : Trimmed (strings.TrimSpace s) = true := by
  unfold Trimmed strings.TrimSpace
  simp only [List.head?_reverse, List.getLast?_reverse, Bool.and_eq_true, Bool.not_eq_true']
  refine ⟨?_, head?_dropWhile_any _ _⟩
  apply getLast?_dropWhile_any
  rw [List.getLast?_reverse]
  exact head?_dropWhile_any _ _

theorem TrimSpace_eq_self_iff (e : GoString) : strings.TrimSpace e = e ↔ Trimmed e = true :=
  ⟨fun h => h ▸ Trimmed_TrimSpace e, TrimSpace_eq_self_of_Trimmed e⟩

theorem categories_unmarshalLoop_eq (acc : Option (List GoString)) (pieces : List GoString) :
    xmlCategories.unmarshalLoop acc pieces =
      if (pieces.map strings.TrimSpace).filter (fun t => t ≠ []) = [] then acc
      else some (acc.getD [] ++ (pieces.map strings.TrimSpace).filter (fun t => t ≠ [])) := by
  induction pieces generalizing acc with
  | nil => simp [xmlCategories.unmarshalLoop]
  | cons p ps ih =>
    unfold xmlCategories.unmarshalLoop
    by_cases hp : strings.TrimSpace p = []
    · simp [hp, ih]
    · have hl : (strings.TrimSpace p).length ≠ 0 := fun h => hp (List.length_eq_zero.1 h)
      simp only [hl, if_false, ih, goAppend, Option.getD_some, List.map_cons]
      rw [List.filter_cons_of_pos (by simpa using hp)]
      by_cases ht : List.filter (fun t => decide (t ≠ [])) (List.map strings.TrimSpace ps) = []
      · simp [ht]
      · simp [ht]

theorem categories_decode_eq (c : xmlCategories) (attr : xml.Attr) :
    xmlCategories.UnmarshalXMLAttr c attr =
      (if commaTokens attr.Value = [] then none else some (commaTokens attr.Value), none) := by
  unfold xmlCategories.UnmarshalXMLAttr commaTokens
  rw [categories_unmarshalLoop_eq]
  simp

theorem filter_map_eq_self {α : Type} (q : α → Bool) (f : α → α) (l : List α)
    (h : (l.map f).filter q = l) : ∀ a ∈ l, q (f a) = true ∧ f a = a := by
  have hlen : ((l.map f).filter q).length = (l.map f).length := by
    rw [h, List.length_map]
  have hfil : (l.map f).filter q = l.map f :=
    (List.filter_sublist _).eq_of_length hlen
  have hq := List.filter_eq_self.1 hfil
  have hmap : l.map f = l := hfil.symm.trans h
  have hid : ∀ a ∈ l, f a = a := by
    clear h hlen hfil hq
    induction l with
    | nil => simp
    | cons a as ih =>
      simp only [List.map_cons, List.cons.injEq] at hmap
      intro b hb
      rcases List.mem_cons.1 hb with hb | hb
      · exact hb ▸ hmap.1
      · exact ih hmap.2 b hb
  intro a ha
  exact ⟨hq (f a) (List.mem_map_of_mem f ha), hid a ha⟩

theorem commaTokens_eq_pieces (v : GoString)
    (h : ∀ p ∈ strings.Split v ',', p ≠ [] ∧ Trimmed p = true) :
    commaTokens v = strings.Split v ',' := by
  unfold commaTokens
  have hmap : (strings.Split v ',').map strings.TrimSpace = strings.Split v ',' := by
    conv_rhs => rw [← List.map_id (strings.Split v ',')]
    exact List.map_congr_left (fun p hp => TrimSpace_eq_self_of_Trimmed p (h p hp).2)
  rw [hmap, List.filter_eq_self]
  intro p hp
  simpa using (h p hp).1

theorem commaTokens_not_mem (v : GoString) : ∀ t ∈ commaTokens v, ',' ∉ t := by
  intro t ht
  unfold commaTokens at ht
  obtain ⟨p, hp, rfl⟩ := List.mem_map.1 (List.mem_filter.1 ht).1
  exact fun hm => Split_not_mem ',' v p hp (mem_of_mem_TrimSpace p ',' hm)

theorem PlainCategory_iff (e : GoString) :
    PlainCategory e = true ↔ e ≠ [] ∧ ',' ∉ e ∧ Trimmed e = true := by
  unfold PlainCategory
  cases e <;> simp [List.contains, and_assoc]

theorem commaTokens_Join_plain (cs : List GoString) (hne : cs ≠ [])
    (h : ∀ e ∈ cs, PlainCategory e = true) : commaTokens (strings.Join cs ',') = cs := by
  have hsplit : strings.Split (strings.Join cs ',') ',' = cs :=
    Split_Join ',' cs hne (fun e he => ((PlainCategory_iff e).1 (h e he)).2.1)
  rw [commaTokens_eq_pieces, hsplit]
  rw [hsplit]
  intro p hp
  exact ⟨((PlainCategory_iff p).1 (h p hp)).1, ((PlainCategory_iff p).1 (h p hp)).2.2⟩

theorem Join_commaTokens_iff (v : GoString) :
    strings.Join (commaTokens v) ',' = v ↔
      (v = [] ∨ ∀ p ∈ strings.Split v ',', p ≠ [] ∧ Trimmed p = true) := by
  constructor
  · intro h
    by_cases ht : commaTokens v = []
    · left
      rw [ht] at h
      exact h.symm
    · right
      have hsplit : strings.Split v ',' = commaTokens v := by
        conv_lhs => rw [← h]
        exact Split_Join ',' (commaTokens v) ht (commaTokens_not_mem v)
      have hfix : ((strings.Split v ',').map strings.TrimSpace).filter (fun t => t ≠ []) =
          strings.Split v ',' := hsplit.symm
      intro p hp
      obtain ⟨hq, hid⟩ := filter_map_eq_self _ _ _ hfix p hp
      refine ⟨?_, (TrimSpace_eq_self_iff p).1 hid⟩
      rw [hid] at hq
      simpa using hq
  · rintro (h | h)
    · subst h
      rfl
    · rw [commaTokens_eq_pieces v h, Join_Split]

theorem categories_reencode_value (c cs : xmlCategories) (name : xml.Name) :
    (xmlCategories.MarshalXMLAttr (xmlCategories.UnmarshalXMLAttr c
      (xmlCategories.MarshalXMLAttr cs name).1).1 name).1.Value =
      strings.Join (commaTokens (strings.Join (cs.getD []) ',')) ',' := by
  rw [categories_decode_eq]
  simp only [xmlCategories.MarshalXMLAttr]
  split_ifs with h
  · simp [h]
  · simp

/-- C11: for every attribute value, `xmlCategories.UnmarshalXMLAttr` returns no
error and stores the tokens of the value (split on commas, white space
trimmed around each piece, pieces empty after trimming skipped) in their order
from left to right, the nil slice when there is no token; duplicates are kept
and nothing is parsed as a number, as on `b, 7 ,,b ,x y`. -/
theorem categories_decode_tokens (c : xmlCategories) (attr : xml.Attr) :
    (xmlCategories.UnmarshalXMLAttr c attr).2 = none ∧
    ((xmlCategories.UnmarshalXMLAttr c attr).1).getD [] = commaTokens attr.Value ∧
    ((xmlCategories.UnmarshalXMLAttr c attr).1 = none ↔ commaTokens attr.Value = []) ∧
    (xmlCategories.UnmarshalXMLAttr c ⟨attr.Name, "b, 7 ,,b ,x y".toList⟩).1 =
      some ["b".toList, "7".toList, "b".toList, "x y".toList] := by
  refine ⟨rfl, ?_, ?_, ?_⟩
  · rw [categories_decode_eq]
    split_ifs with h
    · simp [h]
    · simp
  · rw [categories_decode_eq]
    split_ifs with h
    · simp [h]
    · simp [h]
  · simp only [xmlCategories.UnmarshalXMLAttr]
    decide

/-- C12: for every sequence of category strings, `xmlCategories.MarshalXMLAttr`
returns no error and the attribute with the given name whose value is the
strings in order with one comma between neighbours and nothing else added; for
`/Philosophy/Baseball/Mets` and `/Tourism/New York` the value is
`/Philosophy/Baseball/Mets,/Tourism/New York`. -/
theorem categories_encode_join (cs : xmlCategories) (name : xml.Name) :
    xmlCategories.MarshalXMLAttr cs name =
      (⟨name, List.intercalate [','] (cs.getD [])⟩, none) ∧
    (xmlCategories.MarshalXMLAttr
      (some ["/Philosophy/Baseball/Mets".toList, "/Tourism/New York".toList]) name).1.Value =
      "/Philosophy/Baseball/Mets,/Tourism/New York".toList := by
  refine ⟨?_, ?_⟩
  · simp [xmlCategories.MarshalXMLAttr, Join_eq_intercalate]
  · simp only [xmlCategories.MarshalXMLAttr]
    decide

/-- C13: for every non-empty sequence of category strings each of which is
non-empty, has no comma and has no leading or trailing white space, decoding
the attribute that `xmlCategories.MarshalXMLAttr` gives for the sequence stores
the same sequence, in the same order, with no error. -/
theorem categories_roundtrip (c : xmlCategories) (cs : List GoString) (name : xml.Name)
    (hne : cs ≠ []) (h : ∀ e ∈ cs, PlainCategory e = true) :
    xmlCategories.UnmarshalXMLAttr c (xmlCategories.MarshalXMLAttr (some cs) name).1 =
      (some cs, none) := by
  rw [categories_decode_eq]
  simp only [xmlCategories.MarshalXMLAttr, Option.getD_some]
  rw [commaTokens_Join_plain cs hne h]
  simp [hne]

/-- C13 at the categories of the test document `category`. -/
theorem categories_roundtrip_witness :
    xmlCategories.UnmarshalXMLAttr none (xmlCategories.MarshalXMLAttr
      (some ["/Philosophy/Baseball/Mets".toList, "/Tourism/New York".toList])
      ⟨[], "category".toList⟩).1 =
      (some ["/Philosophy/Baseball/Mets".toList, "/Tourism/New York".toList], none) :=
  categories_roundtrip none ["/Philosophy/Baseball/Mets".toList, "/Tourism/New York".toList]
    ⟨[], "category".toList⟩ (by decide) (by decide)

/-- C14, as stated, fails: the encoding of the one category ` Mets` (with a
leading space) is ` Mets`, decoding it gives `Mets`, whose encoding is `Mets`;
and the encoding of `Mets` followed by the empty category is `Mets,`, which
comes back as `Mets`. -/
theorem categories_reencode_changes_value :
    (xmlCategories.MarshalXMLAttr (xmlCategories.UnmarshalXMLAttr none
      (xmlCategories.MarshalXMLAttr (some [" Mets".toList]) ⟨[], "category".toList⟩).1).1
      ⟨[], "category".toList⟩).1.Value ≠
      (xmlCategories.MarshalXMLAttr (some [" Mets".toList]) ⟨[], "category".toList⟩).1.Value ∧
    (xmlCategories.MarshalXMLAttr (xmlCategories.UnmarshalXMLAttr none
      (xmlCategories.MarshalXMLAttr (some ["Mets".toList, []]) ⟨[], "category".toList⟩).1).1
      ⟨[], "category".toList⟩).1.Value ≠
      (xmlCategories.MarshalXMLAttr (some ["Mets".toList, []])
        ⟨[], "category".toList⟩).1.Value := by
  decide

/-- C14, amended: encoding the result of decoding the encoding of a sequence of
category strings gives the encoding of the sequence exactly when that encoding
is empty or each of its comma-separated pieces is non-empty and has no leading
or trailing white space; so it does for every sequence of strings that are
non-empty, have no comma and have no leading or trailing white space, the nil
and the empty sequence included. -/
theorem categories_reencode_iff (c cs : xmlCategories) (name : xml.Name) :
    ((xmlCategories.MarshalXMLAttr (xmlCategories.UnmarshalXMLAttr c
        (xmlCategories.MarshalXMLAttr cs name).1).1 name).1.Value =
        (xmlCategories.MarshalXMLAttr cs name).1.Value ↔
      ((xmlCategories.MarshalXMLAttr cs name).1.Value = [] ∨
        ∀ p ∈ strings.Split (xmlCategories.MarshalXMLAttr cs name).1.Value ',',
          p ≠ [] ∧ Trimmed p = true)) ∧
    ((∀ e ∈ cs.getD [], PlainCategory e = true) →
      (xmlCategories.MarshalXMLAttr (xmlCategories.UnmarshalXMLAttr c
        (xmlCategories.MarshalXMLAttr cs name).1).1 name).1.Value =
        (xmlCategories.MarshalXMLAttr cs name).1.Value) := by
  rw [categories_reencode_value]
  have hv : (xmlCategories.MarshalXMLAttr cs name).1.Value = strings.Join (cs.getD []) ',' := rfl
  rw [hv]
  refine ⟨Join_commaTokens_iff _, ?_⟩
  intro h
  by_cases hne : cs.getD [] = []
  · rw [hne]
    rfl
  · rw [commaTokens_Join_plain _ hne h]

/-- C15: when every comma-separated piece of a category attribute value is
empty after trimming (the empty value included), `UnmarshalXMLAttr` stores the
nil slice with no error, and a wire outline decoded with that attribute
converts to the same outline as one decoded without a category attribute,
whose categories are nil. -/
theorem categories_all_empty_nil (c : xmlCategories) (attr : xml.Attr) (xo : xmlOutline)
    (h : ∀ p ∈ strings.Split attr.Value ',', strings.TrimSpace p = [])
    (hxo : xo.Categories = none) :
    xmlCategories.UnmarshalXMLAttr c attr = (none, none) ∧
    (xo.decodeCategory (some attr)).1.ToOutline = (xo.decodeCategory none).1.ToOutline ∧
    (xo.decodeCategory (some attr)).1.ToOutline.Categories = none ∧
    (xo.decodeCategory (some attr)).2 = none := by
  have ht : commaTokens attr.Value = [] := by
    unfold commaTokens
    rw [List.filter_eq_nil_iff]
    intro t ht
    obtain ⟨p, hp, rfl⟩ := List.mem_map.1 ht
    simp [h p hp]
  have hdec : ∀ c0, xmlCategories.UnmarshalXMLAttr c0 attr = (none, none) := by
    intro c0
    rw [categories_decode_eq, ht]
    rfl
  have hsame : ({ xo with Categories := none } : xmlOutline) = xo := by
    cases xo
    simp only at hxo
    subst hxo
    rfl
  refine ⟨hdec c, ?_, ?_, ?_⟩
  · simp only [xmlOutline.decodeCategory, hdec, hsame]
  · simp only [xmlOutline.decodeCategory, hdec, hsame]
    cases xo
    simp only at hxo
    subst hxo
    simp [xmlOutline.ToOutline]
  · simp only [xmlOutline.decodeCategory, hdec]

/-- C15 at a fresh wire outline and the value ` , ,`. -/
theorem categories_all_empty_nil_witness :
    xmlCategories.UnmarshalXMLAttr none ⟨⟨[], "category".toList⟩, " , ,".toList⟩ =
      (none, none) ∧
    (xmlOutline.zero.decodeCategory
      (some ⟨⟨[], "category".toList⟩, " , ,".toList⟩)).1.ToOutline =
      (xmlOutline.zero.decodeCategory none).1.ToOutline ∧
    (xmlOutline.zero.decodeCategory
      (some ⟨⟨[], "category".toList⟩, " , ,".toList⟩)).1.ToOutline.Categories = none ∧
    (xmlOutline.zero.decodeCategory (some ⟨⟨[], "category".toList⟩, " , ,".toList⟩)).2 = none :=
  categories_all_empty_nil none ⟨⟨[], "category".toList⟩, " , ,".toList⟩ xmlOutline.zero
    (by decide) rfl

/-! ## Children, timestamps and attributes of outlines -/

theorem FromOutlines_empty_target (os : Option (List Outline)) :
    (xmlOutlines.FromOutlines none os).getD [] =
        (os.getD []).map (xmlOutline.FromOutline xmlOutline.zero) ∧
      (xmlOutlines.FromOutlines (some []) os).getD [] =
        (os.getD []).map (xmlOutline.FromOutline xmlOutline.zero) := by
  cases os with
  | none => simp [xmlOutlines.FromOutlines]
  | some l =>
    cases l with
    | nil => simp [xmlOutlines.FromOutlines, xmlOutlines.FromOutlines_loop]
    | cons o rest => simp [xmlOutlines.FromOutlines, FromOutlines_loop_eq]

theorem ToOutline_Outlines (xo : xmlOutline) :
    xo.ToOutline.Outlines = xmlOutlines.ToOutlines xo.Outlines := by
  cases xo
  simp [xmlOutline.ToOutline]

theorem FromOutline_Outlines (xo : xmlOutline) (o : Outline) :
    (xo.FromOutline o).Outlines = xmlOutlines.FromOutlines xo.Outlines o.Outlines := by
  cases o
  simp [xmlOutline.FromOutline]

/-- C16: `ToOutlines` maps nil to nil and a sequence of wire outlines to a
sequence of the same length whose element at each index is `ToOutline` of the
element of the argument at that index, and `ToOutline` converts the children of
a wire outline by `ToOutlines`, so this holds at every depth; `FromOutlines` on
a nil or empty target gives, for every sequence of outlines, a sequence of the
same length whose element at each index is `FromOutline`, on a fresh wire
outline, of the element of the argument at that index. -/
theorem outlines_order_preserved (xs : List xmlOutline) (xo : xmlOutline)
    (os : Option (List Outline)) :
    xmlOutlines.ToOutlines none = none ∧
    (∃ res, xmlOutlines.ToOutlines (some xs) = some res ∧ res.length = xs.length ∧
      ∀ i : Nat, res[i]? = (xs[i]?).map xmlOutline.ToOutline) ∧
    xo.ToOutline.Outlines = xmlOutlines.ToOutlines xo.Outlines ∧
    ((xmlOutlines.FromOutlines none os).getD []).length = (os.getD []).length ∧
    (∀ i : Nat, ((xmlOutlines.FromOutlines none os).getD [])[i]? =
      ((os.getD [])[i]?).map (xmlOutline.FromOutline xmlOutline.zero)) ∧
    ((xmlOutlines.FromOutlines (some []) os).getD []).length = (os.getD []).length ∧
    (∀ i : Nat, ((xmlOutlines.FromOutlines (some []) os).getD [])[i]? =
      ((os.getD [])[i]?).map (xmlOutline.FromOutline xmlOutline.zero)) := by
  refine ⟨by simp [xmlOutlines.ToOutlines], ⟨xs.map xmlOutline.ToOutline, ?_, ?_, ?_⟩,
    ToOutline_Outlines xo, ?_, ?_, ?_, ?_⟩
  · simp [xmlOutlines.ToOutlines, ToOutlines_fill_eq_map]
  · simp
  · intro i
    simp
  · rw [(FromOutlines_empty_target os).1]
    simp
  · intro i
    rw [(FromOutlines_empty_target os).1]
    simp
  · rw [(FromOutlines_empty_target os).2]
    simp
  · intro i
    rw [(FromOutlines_empty_target os).2]
    simp

theorem FromOutlines_childless (os : Option (List Outline)) (h : os = none ∨ os = some []) :
    xmlOutlines.FromOutlines none os = none := by
  rcases h with h | h <;> subst h <;> simp [xmlOutlines.FromOutlines, xmlOutlines.FromOutlines_loop]

/-- C17: for an outline whose children are nil or empty, `FromOutline` on a
fresh wire outline leaves the wire children nil, so the encoder writes no
nested `outline` element, and the wire record is the same for nil and for empty
children; likewise `FromOPML` on a fresh wire document for a document whose
top-level outlines are nil or empty. -/
theorem childless_no_child_markup (o : Outline) (d : OPML)
    (ho : o.Outlines = none ∨ o.Outlines = some [])
    (hd : d.Outlines = none ∨ d.Outlines = some []) :
    (xmlOutline.zero.FromOutline o).Outlines = none ∧
    (xmlOutline.zero.FromOutline o).encodeChildren = [] ∧
    xmlOutline.zero.FromOutline { o with Outlines := none } =
      xmlOutline.zero.FromOutline { o with Outlines := some [] } ∧
    (xmlOPML.zero.FromOPML d).Body.Outlines = none ∧
    (xmlOPML.zero.FromOPML d).Body.encodeChildren = [] ∧
    xmlOPML.zero.FromOPML { d with Outlines := none } =
      xmlOPML.zero.FromOPML { d with Outlines := some [] } := by
  have h1 : (xmlOutline.zero.FromOutline o).Outlines = none := by
    rw [FromOutline_Outlines]
    exact FromOutlines_childless _ ho
  have h2 : (xmlOPML.zero.FromOPML d).Body.Outlines = none := by
    simp only [xmlOPML.FromOPML]
    exact FromOutlines_childless _ hd
  refine ⟨h1, ?_, ?_, h2, ?_, ?_⟩
  · simp [xmlOutline.encodeChildren, h1]
  · simp [xmlOutline.FromOutline, xmlOutlines.FromOutlines, xmlOutlines.FromOutlines_loop]
  · simp [xmlBody.encodeChildren, h2]
  · simp [xmlOPML.FromOPML, xmlOutlines.FromOutlines, xmlOutlines.FromOutlines_loop]

/-- C17 at an outline with nil children and a document with empty top-level
outlines. -/
theorem childless_no_child_markup_witness :
    (xmlOutline.zero.FromOutline (Outline.ofText "Far West".toList)).Outlines = none ∧
    (xmlOutline.zero.FromOutline (Outline.ofText "Far West".toList)).encodeChildren = [] ∧
    xmlOutline.zero.FromOutline { Outline.ofText "Far West".toList with Outlines := none } =
      xmlOutline.zero.FromOutline
        { Outline.ofText "Far West".toList with Outlines := some [] } ∧
    (xmlOPML.zero.FromOPML { sampleOPML with Outlines := some [] }).Body.Outlines = none ∧
    (xmlOPML.zero.FromOPML { sampleOPML with Outlines := some [] }).Body.encodeChildren = [] ∧
    xmlOPML.zero.FromOPML { { sampleOPML with Outlines := some [] } with Outlines := none } =
      xmlOPML.zero.FromOPML
        { { sampleOPML with Outlines := some [] } with Outlines := some [] } :=
  childless_no_child_markup (Outline.ofText "Far West".toList)
    { sampleOPML with Outlines := some [] } (Or.inl rfl) (Or.inr rfl)

/-- C18: `FromOPML` sets the wire `DateCreated` and `DateModified`, and
`FromOutline` the wire `Created`, to nil exactly when the timestamp of the model
is the zero time, and to the timestamp otherwise; a nil wire date of the head
gives no element; `ToOPML` and `ToOutline` give the zero time for a nil wire
field and the value pointed to for any other. -/
theorem zero_time_sentinel (x : xmlOPML) (d : OPML) (xo : xmlOutline) (o : Outline)
    (t : Time) :
    (((x.FromOPML d).Head.DateCreated = none ↔ d.DateCreated.IsZero = true) ∧
      (d.DateCreated.IsZero = false → (x.FromOPML d).Head.DateCreated = some d.DateCreated) ∧
      ((x.FromOPML d).Head.encodeDateCreated = none ↔ d.DateCreated.IsZero = true)) ∧
    (((x.FromOPML d).Head.DateModified = none ↔ d.DateModified.IsZero = true) ∧
      (d.DateModified.IsZero = false →
        (x.FromOPML d).Head.DateModified = some d.DateModified) ∧
      ((x.FromOPML d).Head.encodeDateModified = none ↔ d.DateModified.IsZero = true)) ∧
    (((xo.FromOutline o).Created = none ↔ o.Created.IsZero = true) ∧
      (o.Created.IsZero = false → (xo.FromOutline o).Created = some o.Created)) ∧
    ((x.Head.DateCreated = none → x.ToOPML.DateCreated = Time.zero) ∧
      (x.Head.DateCreated = some t → x.ToOPML.DateCreated = t)) ∧
    ((x.Head.DateModified = none → x.ToOPML.DateModified = Time.zero) ∧
      (x.Head.DateModified = some t → x.ToOPML.DateModified = t)) ∧
    ((xo.Created = none → xo.ToOutline.Created = Time.zero) ∧
      (xo.Created = some t → xo.ToOutline.Created = t)) ∧
    Time.zero.IsZero = true := by
  refine ⟨⟨?_, ?_, ?_⟩, ⟨?_, ?_, ?_⟩, ⟨?_, ?_⟩, ⟨?_, ?_⟩, ⟨?_, ?_⟩, ⟨?_, ?_⟩, rfl⟩
  · by_cases hz : d.DateCreated.IsZero = true <;> simp [xmlOPML.FromOPML, hz]
  · intro hz
    simp [xmlOPML.FromOPML, hz]
  · by_cases hz : d.DateCreated.IsZero = true <;>
      simp [xmlOPML.FromOPML, xmlHead.encodeDateCreated, hz]
  · by_cases hz : d.DateModified.IsZero = true <;> simp [xmlOPML.FromOPML, hz]
  · intro hz
    simp [xmlOPML.FromOPML, hz]
  · by_cases hz : d.DateModified.IsZero = true <;>
      simp [xmlOPML.FromOPML, xmlHead.encodeDateModified, hz]
  · cases o
    rename_i created _ _ _ _ _ _ _ _ _
    by_cases hz : created.IsZero = true <;> simp [xmlOutline.FromOutline, hz]
  · cases o
    intro hz
    simp only at hz
    simp [xmlOutline.FromOutline, hz]
  · intro h
    simp [xmlOPML.ToOPML, h]
  · intro h
    simp [xmlOPML.ToOPML, h]
  · intro h
    simp [xmlOPML.ToOPML, h]
  · intro h
    simp [xmlOPML.ToOPML, h]
  · intro h
    cases xo
    simp only at h
    simp [xmlOutline.ToOutline, h]
  · intro h
    cases xo
    simp only at h
    simp [xmlOutline.ToOutline, h]

/-- C20: `Parse`, and `Parser.Parse` on every parser, returns either a non-nil
document and a nil error (when the decoder returned no error; the document is
then `ToOPML` of what the decoder stored) or a nil document and a non-nil error
(the decoder's), never both and never neither. -/
theorem Parse_all_or_nothing {Reader : Type} (newDecoder : Reader → xml.Decoder) (r : Reader)
    (p : Parser) :
    (((Parse newDecoder r).1.isSome = true ∧ (Parse newDecoder r).2 = none) ∨
      ((Parse newDecoder r).1 = none ∧ (Parse newDecoder r).2.isSome = true)) ∧
    ((p.Parse.1.isSome = true ∧ p.Parse.2 = none) ∨
      (p.Parse.1 = none ∧ p.Parse.2.isSome = true)) ∧
    ¬ (p.Parse.1.isSome = true ∧ p.Parse.2.isSome = true) ∧
    ¬ (p.Parse.1 = none ∧ p.Parse.2 = none) ∧
    ((p.XMLDecoder.Decode xmlOPML.zero).2 = none →
      p.Parse = (some (p.XMLDecoder.Decode xmlOPML.zero).1.ToOPML, none)) ∧
    (∀ err, (p.XMLDecoder.Decode xmlOPML.zero).2 = some err → p.Parse = (none, some err)) := by
  have key : ∀ q : Parser, (q.Parse.1.isSome = true ∧ q.Parse.2 = none) ∨
      (q.Parse.1 = none ∧ q.Parse.2.isSome = true) := by
    intro q
    unfold Parser.Parse
    rcases hdec : q.XMLDecoder.Decode xmlOPML.zero with ⟨v, _ | err⟩
    · left
      simp
    · right
      simp
  refine ⟨key _, key p, ?_, ?_, ?_, ?_⟩
  · rcases key p with h | h
    · simp [h.2]
    · simp [h.1]
  · rcases key p with h | h
    · intro h2
      rw [h2.1] at h
      simp at h
    · intro h2
      rw [h2.2] at h
      simp at h
  · intro h
    unfold Parser.Parse
    rcases hdec : p.XMLDecoder.Decode xmlOPML.zero with ⟨v, _ | err⟩
    · rfl
    · rw [hdec] at h
      simp at h
  · intro err h
    unfold Parser.Parse
    rcases hdec : p.XMLDecoder.Decode xmlOPML.zero with ⟨v, _ | err2⟩
    · rw [hdec] at h
      simp at h
    · rw [hdec] at h
      simp only [Option.some.injEq] at h
      subst h
      rfl

/-! ## The attributes of an outline element -/

theorem hasAttr_append (l1 l2 : List xml.Attr) (n : GoString) :
    xml.hasAttr (l1 ++ l2) n = (xml.hasAttr l1 n || xml.hasAttr l2 n) := by
  simp [xml.hasAttr, List.any_append]

theorem hasAttr_ite (c : Prop) [Decidable c] (a : xml.Attr) (n : GoString) :
    xml.hasAttr (if c then [] else [a]) n = (!decide c && decide (a.Name.Local = n)) := by
  by_cases h : c <;> simp [xml.hasAttr, h]

theorem hasAttr_singleton (a : xml.Attr) (n : GoString) :
    xml.hasAttr [a] n = decide (a.Name.Local = n) := by
  simp [xml.hasAttr]

theorem hasAttr_option {α : Type} (p : Option α) (name : GoString) (f : α → GoString)
    (n : GoString) :
    xml.hasAttr (p.toList.map (fun v => ⟨⟨[], name⟩, f v⟩)) n =
      (p.isSome && decide (name = n)) := by
  cases p <;> simp [xml.hasAttr]

theorem stringAttr_eq (name v : GoString) :
    xml.stringAttr true name v = .ok (if v = [] then [] else [⟨⟨[], name⟩, v⟩]) := by
  unfold xml.stringAttr
  by_cases h : v = []
  · simp [h]
  · have hl : v.length ≠ 0 := fun hl => h (List.length_eq_zero.1 hl)
    simp [h, hl]

theorem boolAttr_eq (name : GoString) (v : Bool) :
    xml.boolAttr true name v =
      .ok (if v = false then [] else [⟨⟨[], name⟩, "true".toList⟩]) := by
  cases v <;> simp [xml.boolAttr, strconv.FormatBool]

theorem pointerAttr_eq {α : Type} (marshal : α → GoString) (name : GoString) (p : Option α)
    (hn : name ≠ []) :
    xml.pointerAttr (fun v n => ((⟨n, marshal v⟩ : xml.Attr), (none : Option Error))) name p =
      .ok (p.toList.map (fun v => ⟨⟨[], name⟩, marshal v⟩)) := by
  cases p <;> simp [xml.pointerAttr, xml.marshalerAttr, hn]

theorem categoriesAttr_eq (name : GoString) (c : xmlCategories) (hn : name ≠ []) :
    xml.categoriesAttr name c =
      .ok (if c.getD [] = [] then [] else [⟨⟨[], name⟩, strings.Join (c.getD []) ','⟩]) := by
  unfold xml.categoriesAttr
  by_cases h : c.getD [] = []
  · simp [h]
  · have hl : (c.getD []).length ≠ 0 := fun hl => h (List.length_eq_zero.1 hl)
    simp [h, hl, xml.marshalerAttr, xmlCategories.MarshalXMLAttr, hn]

theorem encodeAttrs_eq (urlString : URL → GoString) (xo : xmlOutline) :
    xo.encodeAttrs urlString = .ok (
      [⟨⟨[], "text".toList⟩, xo.Text⟩] ++
      (if xo.Type' = [] then [] else [⟨⟨[], "type".toList⟩, xo.Type'⟩]) ++
      (if xo.IsComment = false then [] else [⟨⟨[], "isComment".toList⟩, "true".toList⟩]) ++
      (if xo.IsBreakpoint = false then []
        else [⟨⟨[], "isBreakpoint".toList⟩, "true".toList⟩]) ++
      xo.Created.toList.map (fun t => ⟨⟨[], "created".toList⟩, t.Format time.RFC1123⟩) ++
      (if xo.Categories.getD [] = [] then []
        else [⟨⟨[], "category".toList⟩, strings.Join (xo.Categories.getD []) ','⟩]) ++
      xo.XMLURL.toList.map (fun u => ⟨⟨[], "xmlUrl".toList⟩, urlString u⟩) ++
      (if xo.Description = [] then [] else [⟨⟨[], "description".toList⟩, xo.Description⟩]) ++
      xo.HTMLURL.toList.map (fun u => ⟨⟨[], "htmlUrl".toList⟩, urlString u⟩) ++
      (if xo.Language = [] then [] else [⟨⟨[], "language".toList⟩, xo.Language⟩]) ++
      (if xo.Title = [] then [] else [⟨⟨[], "title".toList⟩, xo.Title⟩]) ++
      (if xo.Version = [] then [] else [⟨⟨[], "version".toList⟩, xo.Version⟩]) ++
      xo.URL.toList.map (fun u => ⟨⟨[], "url".toList⟩, urlString u⟩)) := by
  have htime : xmlTime.MarshalXMLAttr =
      fun v n => ((⟨n, Time.Format v time.RFC1123⟩ : xml.Attr), (none : Option Error)) := rfl
  have hurl : xmlURL.MarshalXMLAttr urlString =
      fun v n => ((⟨n, urlString v⟩ : xml.Attr), (none : Option Error)) := rfl
  unfold xmlOutline.encodeAttrs
  rw [htime, hurl]
  rw [stringAttr_eq, stringAttr_eq, stringAttr_eq, stringAttr_eq, stringAttr_eq,
    boolAttr_eq, boolAttr_eq,
    pointerAttr_eq _ _ _ (by decide), pointerAttr_eq _ _ _ (by decide),
    pointerAttr_eq _ _ _ (by decide), pointerAttr_eq _ _ _ (by decide),
    categoriesAttr_eq _ _ (by decide)]
  rfl

theorem FromOutline_fields (xo : xmlOutline) (o : Outline) :
    (xo.FromOutline o).Text = o.Text ∧ (xo.FromOutline o).Type' = o.Type' ∧
    (xo.FromOutline o).IsComment = o.IsComment ∧
    (xo.FromOutline o).IsBreakpoint = o.IsBreakpoint ∧
    (xo.FromOutline o).Created = (if o.Created.IsZero then none else some o.Created) ∧
    (xo.FromOutline o).Categories = o.Categories ∧ (xo.FromOutline o).XMLURL = o.XMLURL ∧
    (xo.FromOutline o).Description = o.Description ∧ (xo.FromOutline o).HTMLURL = o.HTMLURL ∧
    (xo.FromOutline o).Language = o.Language ∧ (xo.FromOutline o).Title = o.Title ∧
    (xo.FromOutline o).Version = o.Version ∧ (xo.FromOutline o).URL = o.URL := by
  cases o
  simp [xmlOutline.FromOutline]

/-- C19: the start tag the encoder writes for the wire record `FromOutline`
gives on a fresh wire outline always begins with the attribute `text` holding
the text of the outline, empty or not, and carries `type`, `description`,
`language`, `title`, `version` exactly when the field is not the empty string,
`isComment` and `isBreakpoint` exactly when the field is true, `created`
exactly when the timestamp is not the zero time, `category` exactly when the
list has an element, and `xmlUrl`, `htmlUrl`, `url` exactly when the pointer is
not nil: an attribute other than `text` appears only when its field is not at
its zero or absent value. -/
theorem outline_attrs_omission (urlString : URL → GoString) (o : Outline) :
    ∃ attrs, (xmlOutline.zero.FromOutline o).encodeAttrs urlString = .ok attrs ∧
      attrs.head? = some ⟨⟨[], "text".toList⟩, o.Text⟩ ∧
      (xml.hasAttr attrs "type".toList = true ↔ o.Type' ≠ []) ∧
      (xml.hasAttr attrs "isComment".toList = true ↔ o.IsComment = true) ∧
      (xml.hasAttr attrs "isBreakpoint".toList = true ↔ o.IsBreakpoint = true) ∧
      (xml.hasAttr attrs "created".toList = true ↔ o.Created.IsZero = false) ∧
      (xml.hasAttr attrs "category".toList = true ↔ o.Categories.getD [] ≠ []) ∧
      (xml.hasAttr attrs "xmlUrl".toList = true ↔ o.XMLURL ≠ none) ∧
      (xml.hasAttr attrs "description".toList = true ↔ o.Description ≠ []) ∧
      (xml.hasAttr attrs "htmlUrl".toList = true ↔ o.HTMLURL ≠ none) ∧
      (xml.hasAttr attrs "language".toList = true ↔ o.Language ≠ []) ∧
      (xml.hasAttr attrs "title".toList = true ↔ o.Title ≠ []) ∧
      (xml.hasAttr attrs "version".toList = true ↔ o.Version ≠ []) ∧
      (xml.hasAttr attrs "url".toList = true ↔ o.URL ≠ none) := by
  obtain ⟨h1, h2, h3, h4, h5, h6, h7, h8, h9, h10, h11, h12, h13⟩ :=
    FromOutline_fields xmlOutline.zero o
  refine ⟨_, encodeAttrs_eq urlString _, ?_⟩
  rw [h1, h2, h3, h4, h5, h6, h7, h8, h9, h10, h11, h12, h13]
  refine ⟨rfl, ?_, ?_, ?_, ?_, ?_, ?_, ?_, ?_, ?_, ?_, ?_, ?_⟩ <;>
    simp only [hasAttr_append, hasAttr_ite, hasAttr_singleton, hasAttr_option] <;>
    simp [String.toList, Option.isSome_iff_ne_none]

/-! ## URLs, field names and decoded categories -/

/-- C23: for every text `v` of a URL element or attribute, `UnmarshalXML` and
`UnmarshalXMLAttr` of `xmlURL` return an error exactly when `url.Parse`
rejects `v`; when it accepts, the value stored is the URL it gave and the
error is nil, and when it rejects, the error is the parser's and the target
stays as it was. -/
theorem xmlURL_decode (parse : GoString → Except Error URL) (u : xmlURL) (v : GoString)
    (name : xml.Name) :
    (((xmlURL.UnmarshalXML parse u (.ok v)).2.isSome = true ↔ (parse v).toOption = none) ∧
      (∀ r, parse v = .ok r → xmlURL.UnmarshalXML parse u (.ok v) = (r, none)) ∧
      (∀ e, parse v = .error e → xmlURL.UnmarshalXML parse u (.ok v) = (u, some e))) ∧
    (((xmlURL.UnmarshalXMLAttr parse u ⟨name, v⟩).2.isSome = true ↔
        (parse v).toOption = none) ∧
      (∀ r, parse v = .ok r → xmlURL.UnmarshalXMLAttr parse u ⟨name, v⟩ = (r, none)) ∧
      (∀ e, parse v = .error e → xmlURL.UnmarshalXMLAttr parse u ⟨name, v⟩ = (u, some e))) := by
  unfold xmlURL.UnmarshalXML xmlURL.UnmarshalXMLAttr
  cases h : parse v with
  | error e => simp [Except.toOption, h]
  | ok r => simp [Except.toOption, h]

theorem ToOutline_fields (xo : xmlOutline) :
    xo.ToOutline.Text = xo.Text ∧ xo.ToOutline.Type' = xo.Type' ∧
    xo.ToOutline.IsComment = xo.IsComment ∧ xo.ToOutline.IsBreakpoint = xo.IsBreakpoint ∧
    xo.ToOutline.Categories = xo.Categories ∧ xo.ToOutline.XMLURL = xo.XMLURL ∧
    xo.ToOutline.Description = xo.Description ∧ xo.ToOutline.HTMLURL = xo.HTMLURL ∧
    xo.ToOutline.Language = xo.Language ∧ xo.ToOutline.Title = xo.Title ∧
    xo.ToOutline.Version = xo.Version ∧ xo.ToOutline.URL = xo.URL := by
  cases xo
  simp [xmlOutline.ToOutline]

/-- C25: `ToOPML` gives each of the document fields `Title`, `OwnerName`,
`OwnerEmail`, `OwnerID`, `Docs`, `VertScrollState`, `WindowTop`, `WindowLeft`,
`WindowBottom`, `WindowRight` the value of the field of the same name of the
wire head, and `FromOPML` gives each of these wire fields the value of the
document field of the same name; `ToOutline` and `FromOutline` do so for
`Type`, `Description`, `Language`, `Title`, `Version`, `XMLURL`, `HTMLURL` and
`URL`. -/
theorem fields_by_name (x : xmlOPML) (d : OPML) (xo : xmlOutline) (o : Outline) :
    (x.ToOPML.Title = x.Head.Title ∧ x.ToOPML.OwnerName = x.Head.OwnerName ∧
      x.ToOPML.OwnerEmail = x.Head.OwnerEmail ∧ x.ToOPML.OwnerID = x.Head.OwnerID ∧
      x.ToOPML.Docs = x.Head.Docs ∧ x.ToOPML.VertScrollState = x.Head.VertScrollState ∧
      x.ToOPML.WindowTop = x.Head.WindowTop ∧ x.ToOPML.WindowLeft = x.Head.WindowLeft ∧
      x.ToOPML.WindowBottom = x.Head.WindowBottom ∧
      x.ToOPML.WindowRight = x.Head.WindowRight) ∧
    ((x.FromOPML d).Head.Title = d.Title ∧ (x.FromOPML d).Head.OwnerName = d.OwnerName ∧
      (x.FromOPML d).Head.OwnerEmail = d.OwnerEmail ∧ (x.FromOPML d).Head.OwnerID = d.OwnerID ∧
      (x.FromOPML d).Head.Docs = d.Docs ∧
      (x.FromOPML d).Head.VertScrollState = d.VertScrollState ∧
      (x.FromOPML d).Head.WindowTop = d.WindowTop ∧
      (x.FromOPML d).Head.WindowLeft = d.WindowLeft ∧
      (x.FromOPML d).Head.WindowBottom = d.WindowBottom ∧
      (x.FromOPML d).Head.WindowRight = d.WindowRight) ∧
    (xo.ToOutline.Type' = xo.Type' ∧ xo.ToOutline.Description = xo.Description ∧
      xo.ToOutline.Language = xo.Language ∧ xo.ToOutline.Title = xo.Title ∧
      xo.ToOutline.Version = xo.Version ∧ xo.ToOutline.XMLURL = xo.XMLURL ∧
      xo.ToOutline.HTMLURL = xo.HTMLURL ∧ xo.ToOutline.URL = xo.URL) ∧
    ((xo.FromOutline o).Type' = o.Type' ∧ (xo.FromOutline o).Description = o.Description ∧
      (xo.FromOutline o).Language = o.Language ∧ (xo.FromOutline o).Title = o.Title ∧
      (xo.FromOutline o).Version = o.Version ∧ (xo.FromOutline o).XMLURL = o.XMLURL ∧
      (xo.FromOutline o).HTMLURL = o.HTMLURL ∧ (xo.FromOutline o).URL = o.URL) := by
  obtain ⟨_, t2, _, _, _, t7, t8, t9, t10, t11, t12, t13⟩ := ToOutline_fields xo
  obtain ⟨_, f2, _, _, _, _, f7, f8, f9, f10, f11, f12, f13⟩ := FromOutline_fields xo o
  exact ⟨by simp [xmlOPML.ToOPML], by simp [xmlOPML.FromOPML],
    ⟨t2, t8, t10, t11, t12, t7, t9, t13⟩, ⟨f2, f8, f10, f11, f12, f7, f9, f13⟩⟩

theorem commaTokens_plain (v : GoString) : ∀ e ∈ commaTokens v, PlainCategory e = true := by
  intro e he
  rw [PlainCategory_iff]
  refine ⟨?_, commaTokens_not_mem v e he, ?_⟩
  · unfold commaTokens at he
    simpa using (List.mem_filter.1 he).2
  · unfold commaTokens at he
    obtain ⟨p, _, rfl⟩ := List.mem_map.1 (List.mem_filter.1 he).1
    exact Trimmed_TrimSpace p

theorem categories_decode_getD (c : xmlCategories) (attr : xml.Attr) :
    (xmlCategories.UnmarshalXMLAttr c attr).1.getD [] = commaTokens attr.Value := by
  rw [categories_decode_eq]
  split_ifs with h
  · simp [h]
  · simp

/-- C26: every string in the list `xmlCategories.UnmarshalXMLAttr` stores, for
any attribute value, is non-empty, has no comma and has no leading or trailing
white space. -/
theorem categories_decoded_plain (c : xmlCategories) (attr : xml.Attr) (e : GoString)
    (he : e ∈ (xmlCategories.UnmarshalXMLAttr c attr).1.getD []) :
    e ≠ [] ∧ ',' ∉ e ∧ Trimmed e = true ∧ PlainCategory e = true := by
  rw [categories_decode_getD] at he
  have h := commaTokens_plain attr.Value e he
  have h2 := (PlainCategory_iff e).1 h
  exact ⟨h2.1, h2.2.1, h2.2.2, h⟩

/-- C26 at the value ` a b ,, c ` and its second stored string. -/
theorem categories_decoded_plain_witness :
    "c".toList ≠ [] ∧ ',' ∉ "c".toList ∧ Trimmed "c".toList = true ∧
      PlainCategory "c".toList = true :=
  categories_decoded_plain none ⟨⟨[], "category".toList⟩, " a b ,, c ".toList⟩ "c".toList
    (by decide)

/-- C27: when the list `c` that `xmlCategories.UnmarshalXMLAttr` stores for an
attribute value is not empty, decoding the attribute `MarshalXMLAttr` gives for
`c` stores `c` again, with no error. -/
theorem categories_decoded_fixed_point (c0 c1 : xmlCategories) (attr : xml.Attr)
    (name : xml.Name)
    (hne : (xmlCategories.UnmarshalXMLAttr c0 attr).1.getD [] ≠ []) :
    xmlCategories.UnmarshalXMLAttr c1
      (xmlCategories.MarshalXMLAttr (xmlCategories.UnmarshalXMLAttr c0 attr).1 name).1 =
      ((xmlCategories.UnmarshalXMLAttr c0 attr).1, none) := by
  have hget := categories_decode_getD c0 attr
  rw [hget] at hne
  have hdec : (xmlCategories.UnmarshalXMLAttr c0 attr).1 = some (commaTokens attr.Value) := by
    rw [categories_decode_eq]
    simp [hne]
  rw [hdec, categories_decode_eq]
  simp only [xmlCategories.MarshalXMLAttr, Option.getD_some]
  rw [commaTokens_Join_plain _ hne (commaTokens_plain attr.Value)]
  simp [hne]

/-- C27 at the value ` a b ,, c `. -/
theorem categories_decoded_fixed_point_witness :
    xmlCategories.UnmarshalXMLAttr none
      (xmlCategories.MarshalXMLAttr (xmlCategories.UnmarshalXMLAttr none
        ⟨⟨[], "category".toList⟩, " a b ,, c ".toList⟩).1 ⟨[], "category".toList⟩).1 =
      ((xmlCategories.UnmarshalXMLAttr none
        ⟨⟨[], "category".toList⟩, " a b ,, c ".toList⟩).1, none) :=
  categories_decoded_fixed_point none none ⟨⟨[], "category".toList⟩, " a b ,, c ".toList⟩
    ⟨[], "category".toList⟩ (by decide)

/-! ## The shape of outline trees through the mappings -/

mutual
theorem shape_ToOutline : (x : xmlOutline) → x.ToOutline.shape = x.shape
  | ⟨text, type, isComment, isBreakpoint, created, categories, xmlURL, description, htmlURL,
      language, title, version, url, outlines⟩ => by
    simp only [xmlOutline.ToOutline, Outline.shape, xmlOutline.shape,
      shapeSeq_ToOutlines outlines]
theorem shapeSeq_ToOutlines : (xs : Option (List xmlOutline)) →
    Outline.shapeSeq (xmlOutlines.ToOutlines xs) = xmlOutline.shapeSeq xs
  | none => by simp [xmlOutlines.ToOutlines, Outline.shapeSeq, xmlOutline.shapeSeq]
  | some l => by
    simp only [xmlOutlines.ToOutlines, Outline.shapeSeq, xmlOutline.shapeSeq,
      shapeAll_ToOutlines_fill l]
theorem shapeAll_ToOutlines_fill : (l : List xmlOutline) →
    Outline.shapeAll (xmlOutlines.ToOutlines_fill l) = xmlOutline.shapeAll l
  | [] => by simp [xmlOutlines.ToOutlines_fill, Outline.shapeAll, xmlOutline.shapeAll]
  | x :: rest => by
    simp only [xmlOutlines.ToOutlines_fill, Outline.shapeAll, xmlOutline.shapeAll,
      shape_ToOutline x, shapeAll_ToOutlines_fill rest]
end

theorem shapeSeq_getD (xs : Option (List xmlOutline)) :
    xmlOutline.shapeSeq xs = xmlOutline.shapeAll (xs.getD []) := by
  cases xs <;> simp [xmlOutline.shapeSeq, xmlOutline.shapeAll]

theorem Outline_shapeSeq_getD (os : Option (List Outline)) :
    Outline.shapeSeq os = Outline.shapeAll (os.getD []) := by
  cases os <;> simp [Outline.shapeSeq, Outline.shapeAll]

mutual
theorem shape_FromOutline : (o : Outline) → (xmlOutline.zero.FromOutline o).shape = o.shape
  | ⟨text, type, isComment, isBreakpoint, created, categories, xmlURL, description, htmlURL,
      language, title, version, url, outlines⟩ => by
    simp only [xmlOutline.FromOutline, Outline.shape, xmlOutline.shape, xmlOutline.zero,
      shapeSeq_FromOutlines outlines]
theorem shapeSeq_FromOutlines : (os : Option (List Outline)) →
    xmlOutline.shapeSeq (xmlOutlines.FromOutlines none os) = Outline.shapeSeq os
  | none => by simp [xmlOutlines.FromOutlines, Outline.shapeSeq, xmlOutline.shapeSeq]
  | some l => by
    rw [shapeSeq_getD, (FromOutlines_empty_target (some l)).1]
    simp only [Option.getD_some, Outline.shapeSeq, shapeAll_map_FromOutline l]
theorem shapeAll_map_FromOutline : (l : List Outline) →
    xmlOutline.shapeAll (l.map (xmlOutline.FromOutline xmlOutline.zero)) = Outline.shapeAll l
  | [] => by simp [Outline.shapeAll, xmlOutline.shapeAll]
  | o :: rest => by
    simp only [List.map_cons, Outline.shapeAll, xmlOutline.shapeAll, shape_FromOutline o,
      shapeAll_map_FromOutline rest]
end

theorem shapeSeq_FromOutlines_empty (xos : xmlOutlines) (os : Option (List Outline))
    (h : xos.getD [] = []) :
    xmlOutline.shapeSeq (xmlOutlines.FromOutlines xos os) = Outline.shapeSeq os := by
  have key : (xmlOutlines.FromOutlines xos os).getD [] =
      (xmlOutlines.FromOutlines none os).getD [] := by
    cases xos with
    | none => rfl
    | some l =>
      simp only [Option.getD_some] at h
      subst h
      rw [(FromOutlines_empty_target os).1, (FromOutlines_empty_target os).2]
  rw [shapeSeq_getD, key, ← shapeSeq_getD, shapeSeq_FromOutlines]

theorem shape_FromOutline_empty (xo : xmlOutline) (o : Outline) (h : xo.Outlines.getD [] = []) :
    (xo.FromOutline o).shape = o.shape := by
  cases o
  simp only [xmlOutline.FromOutline, Outline.shape, xmlOutline.shape,
    shapeSeq_FromOutlines_empty _ _ h]

/-- C28: `ToOutline`, `ToOutlines`, `FromOutline` and `FromOutlines` are total
functions defined by recursion on the structure of the finite tree, and on
every tree the result (of `FromOutline` on a wire outline without children, as
the fresh one of every call in the program, of `FromOutlines` on a nil or
empty target) has the same nesting of texts as the argument, hence the same
number of nodes and the same nesting depth. -/
theorem tree_mappings_preserve_shape (x : xmlOutline) (xs : Option (List xmlOutline))
    (o : Outline) (os : Option (List Outline)) :
    (x.ToOutline.shape = x.shape ∧ x.ToOutline.shape.size = x.shape.size ∧
      x.ToOutline.shape.depth = x.shape.depth) ∧
    (TextTree.sizeAll (Outline.shapeSeq (xmlOutlines.ToOutlines xs)) =
        TextTree.sizeAll (xmlOutline.shapeSeq xs) ∧
      TextTree.depthAll (Outline.shapeSeq (xmlOutlines.ToOutlines xs)) =
        TextTree.depthAll (xmlOutline.shapeSeq xs)) ∧
    (∀ xo : xmlOutline, xo.Outlines.getD [] = [] →
      (xo.FromOutline o).shape = o.shape ∧
      (xo.FromOutline o).shape.size = o.shape.size ∧
      (xo.FromOutline o).shape.depth = o.shape.depth) ∧
    (∀ xos : xmlOutlines, xos.getD [] = [] →
      TextTree.sizeAll (xmlOutline.shapeSeq (xmlOutlines.FromOutlines xos os)) =
        TextTree.sizeAll (Outline.shapeSeq os) ∧
      TextTree.depthAll (xmlOutline.shapeSeq (xmlOutlines.FromOutlines xos os)) =
        TextTree.depthAll (Outline.shapeSeq os)) ∧
    ((xmlOutline.zero.FromOutline o).shape.size = o.shape.size ∧
      (xmlOutline.zero.FromOutline o).shape.depth = o.shape.depth) ∧
    (xmlOutline.zero.FromOutline sampleTreeOutline).shape.size = 5 ∧
    (xmlOutline.zero.FromOutline sampleTreeOutline).shape.depth = 3 ∧
    sampleTreeOutline.shape.size = 5 ∧ sampleTreeOutline.shape.depth = 3 := by
  rw [shape_ToOutline, shapeSeq_ToOutlines, shape_FromOutline]
  refine ⟨⟨rfl, rfl, rfl⟩, ⟨rfl, rfl⟩, ?_, ?_, ⟨rfl, rfl⟩, ?_, ?_, ?_, ?_⟩
  · intro xo h
    rw [shape_FromOutline_empty xo o h]
    exact ⟨rfl, rfl, rfl⟩
  · intro xos h
    rw [shapeSeq_FromOutlines_empty xos os h]
    exact ⟨rfl, rfl⟩
  · decide
  · decide
  · decide
  · decide

theorem decodeStringAttr_eq (name field : GoString) (attrs : List xml.Attr) :
    xml.decodeStringAttr name field attrs =
      (((attrs.filter (fun a => a.Name.Local = name)).getLast?).map xml.Attr.Value).getD
        field := by
  unfold xml.decodeStringAttr
  induction attrs generalizing field with
  | nil => rfl
  | cons a rest ih =>
    rw [List.foldl_cons, ih]
    by_cases ha : a.Name.Local = name
    · simp only [ha, if_true, decide_True, List.filter_cons_of_pos]
      cases hf : List.filter (fun a => decide (a.Name.Local = name)) rest with
      | nil => simp
      | cons b l =>
        obtain ⟨c, hc⟩ : ∃ c, (b :: l).getLast? = some c :=
          ⟨_, List.getLast?_eq_getLast _ (List.cons_ne_nil _ _)⟩
        simp [List.getLast?_cons_cons, hc]
    · simp [ha]

theorem decodeStringAttr_absent (name field : GoString) (attrs : List xml.Attr)
    (h : xml.hasAttr attrs name = false) : xml.decodeStringAttr name field attrs = field := by
  rw [decodeStringAttr_eq]
  have : attrs.filter (fun a => a.Name.Local = name) = [] := by
    rw [List.filter_eq_nil_iff]
    intro a ha
    unfold xml.hasAttr at h
    rw [List.any_eq_false] at h
    exact h a ha
  rw [this]
  rfl

/-- C22, as stated, fails: for the element `<outline/>`, with no attribute, the
decoder leaves the `Text` of the fresh wire outline empty, and a decode that
stores this outline in the body succeeds and gives a document whose outline has
the empty text. -/
theorem outline_without_text_is_decoded :
    (xmlOutline.zero.decodeText []).Text = [] ∧
    (Parser.Parse ⟨sampleDecoder
      { xmlOPML.zero with Body := ⟨some [xmlOutline.zero.decodeText []]⟩ }⟩).2 = none ∧
    (Parser.Parse ⟨sampleDecoder
      { xmlOPML.zero with Body := ⟨some [xmlOutline.zero.decodeText []]⟩ }⟩).1.map
        (fun d => (d.Outlines.getD []).map Outline.Text) = some [[]] := by
  refine ⟨rfl, rfl, ?_⟩
  simp [Parser.Parse, sampleDecoder, xmlOPML.ToOPML, xmlOutlines.ToOutlines,
    xmlOutlines.ToOutlines_fill, (ToOutline_fields _).1, xmlOutline.decodeText,
    xml.decodeStringAttr, xmlOutline.zero]

/-- C22, amended: the text of an outline is carried over unchecked.  The
decoder gives the field `Text` of a wire outline the value of the last
attribute `text` of the start tag, and leaves the empty string of a fresh wire
outline when there is none; `ToOutline` copies `Text` and keeps the texts at
every depth; `Parse` on a decode without error returns the document whose
outlines have the texts of the wire outlines, empty ones included. -/
theorem outline_text_copied (xo x : xmlOutline) (attrs : List xml.Attr) (p : Parser) :
    (xo.decodeText attrs).Text =
      (((attrs.filter (fun a => a.Name.Local = "text".toList)).getLast?).map
        xml.Attr.Value).getD xo.Text ∧
    (xml.hasAttr attrs "text".toList = false →
      (xmlOutline.zero.decodeText attrs).ToOutline.Text = []) ∧
    (∀ sp, (xo.decodeText (attrs ++ [⟨⟨sp, "text".toList⟩, []⟩])).ToOutline.Text = []) ∧
    x.ToOutline.Text = x.Text ∧
    x.ToOutline.shape = x.shape ∧
    x.ToOutline.shape.texts = x.shape.texts ∧
    ((p.XMLDecoder.Decode xmlOPML.zero).2 = none →
      p.Parse.2 = none ∧
      p.Parse.1.map (fun d => Outline.shapeSeq d.Outlines) =
        some (xmlOutline.shapeSeq (p.XMLDecoder.Decode xmlOPML.zero).1.Body.Outlines)) := by
  have htext : ∀ (y : xmlOutline) (l : List xml.Attr),
      (y.decodeText l).Text = xml.decodeStringAttr "text".toList y.Text l := fun _ _ => rfl
  refine ⟨?_, ?_, ?_, (ToOutline_fields x).1, shape_ToOutline x, ?_, ?_⟩
  · rw [htext, decodeStringAttr_eq]
  · intro h
    rw [(ToOutline_fields _).1, htext, decodeStringAttr_absent _ _ _ h]
    rfl
  · intro sp
    rw [(ToOutline_fields _).1, htext, decodeStringAttr_eq]
    simp
  · rw [shape_ToOutline]
  · intro h
    unfold Parser.Parse
    rcases hdec : p.XMLDecoder.Decode xmlOPML.zero with ⟨v, _ | err⟩
    · simp [xmlOPML.ToOPML, shapeSeq_ToOutlines]
    · rw [hdec] at h
      simp at h

/-! ## Rendering -/

mutual
theorem xmlOutline_encode_ok (urlString : URL → GoString) :
    (xo : xmlOutline) → ∃ e, xmlOutline.encode urlString xo = .ok e
  | ⟨text, type, isComment, isBreakpoint, created, categories, xmlURL, description, htmlURL,
      language, title, version, url, outlines⟩ => by
    obtain ⟨cs, hcs⟩ := xmlOutlines_encode_ok urlString outlines
    simp only [xmlOutline.encode, encodeAttrs_eq, hcs]
    exact ⟨_, rfl⟩
theorem xmlOutlines_encode_ok (urlString : URL → GoString) :
    (xs : Option (List xmlOutline)) → ∃ es, xmlOutlines.encode urlString xs = .ok es
  | none => ⟨[], by simp [xmlOutlines.encode]⟩
  | some l => by
    obtain ⟨es, hes⟩ := xmlOutlines_encode_loop_ok urlString l
    exact ⟨es, by simp [xmlOutlines.encode, hes]⟩
theorem xmlOutlines_encode_loop_ok (urlString : URL → GoString) :
    (l : List xmlOutline) → ∃ es, xmlOutlines.encode_loop urlString l = .ok es
  | [] => ⟨[], by simp [xmlOutlines.encode_loop]⟩
  | xo :: rest => by
    obtain ⟨e, he⟩ := xmlOutline_encode_ok urlString xo
    obtain ⟨es, hes⟩ := xmlOutlines_encode_loop_ok urlString rest
    exact ⟨e :: es, by simp [xmlOutlines.encode_loop, he, hes]⟩
end

theorem xmlOPML_encode_ok (urlString : URL → GoString) (x : xmlOPML) :
    ∃ cs, x.encode urlString =
      .ok ⟨"opml".toList, [], [], [x.Head.encode urlString, ⟨"body".toList, [], [], cs⟩]⟩ := by
  obtain ⟨cs, hcs⟩ := xmlOutlines_encode_ok urlString x.Body.Outlines
  exact ⟨cs, by simp [xmlOPML.encode, xmlBody.encode, hcs, xmlOPML.encodeAttrs]⟩

/-- C21, what the code does: the field `Version` carries its tag
`version,attr` inside `xmlHead`.  On reading, the attributes of the root start
tag are ignored and `Version` is the value of the last attribute `version` of
the start tag of `head`: the start tag `<opml version="1.0">` of the example
file leaves the version of the document empty.  On writing, the root element
has no attribute and the `head` element has the attribute `version` with the
version of the document. -/
theorem version_on_head (urlString : URL → GoString) (x : xmlOPML)
    (rootAttrs headAttrs : List xml.Attr) (d : OPML) :
    (x.decodeStartTags rootAttrs headAttrs).ToOPML.Version =
      xml.decodeStringAttr "version".toList x.Head.Version headAttrs ∧
    (xmlOPML.zero.decodeStartTags sampleRootAttrs []).ToOPML.Version = [] ∧
    (xmlOPML.zero.decodeStartTags [] sampleRootAttrs).ToOPML.Version = "1.0".toList ∧
    (∃ e, (xmlOPML.zero.FromOPML d).encode urlString = .ok e ∧
      e.Name = "opml".toList ∧ e.Attr = [] ∧
      (e.Children.head?.map xml.Element.Name = some "head".toList) ∧
      (e.Children.head?.map xml.Element.Attr =
        some [⟨⟨[], "version".toList⟩, d.Version⟩])) := by
  refine ⟨rfl, rfl, rfl, ?_⟩
  obtain ⟨cs, hcs⟩ := xmlOPML_encode_ok urlString (xmlOPML.zero.FromOPML d)
  refine ⟨_, hcs, rfl, rfl, ?_, ?_⟩
  · simp [xmlHead.encode]
  · simp [xmlHead.encode, xmlHead.encodeAttrs, xmlOPML.FromOPML]

/-! ## Documents with nil pointers -/

mutual
theorem FromOutlinePtr_toPtr : (o : Outline) → (xo : xmlOutline) →
    xmlOutline.FromOutlinePtr xo (some o.toPtr) = .ok (xo.FromOutline o)
  | ⟨text, type, isComment, isBreakpoint, created, categories, xmlURL, description, htmlURL,
      language, title, version, url, outlines⟩, xo => by
    simp only [Outline.toPtr, xmlOutline.FromOutlinePtr, xmlOutline.FromOutline,
      FromOutlinesPtr_toPtrSeq outlines xo.Outlines]
theorem FromOutlinesPtr_toPtrSeq : (os : Option (List Outline)) → (xos : xmlOutlines) →
    xmlOutlines.FromOutlinesPtr xos (Outline.toPtrSeq os) =
      .ok (xmlOutlines.FromOutlines xos os)
  | none, xos => by
    simp [Outline.toPtrSeq, xmlOutlines.FromOutlinesPtr, xmlOutlines.FromOutlines]
  | some l, xos => by
    simp only [Outline.toPtrSeq, xmlOutlines.FromOutlinesPtr, xmlOutlines.FromOutlines,
      FromOutlinesPtr_loop_toPtrAll l xos]
theorem FromOutlinesPtr_loop_toPtrAll : (l : List Outline) → (xos : xmlOutlines) →
    xmlOutlines.FromOutlinesPtr_loop xos (Outline.toPtrAll l) =
      .ok (xmlOutlines.FromOutlines_loop xos l)
  | [], xos => by
    simp [Outline.toPtrAll, xmlOutlines.FromOutlinesPtr_loop, xmlOutlines.FromOutlines_loop]
  | o :: rest, xos => by
    simp only [Outline.toPtrAll, xmlOutlines.FromOutlinesPtr_loop,
      xmlOutlines.FromOutlines_loop, FromOutlinePtr_toPtr o xmlOutline.zero,
      FromOutlinesPtr_loop_toPtrAll rest]
end

mutual
theorem FromOutlinePtr_isOk : (o : PtrOutline) → (xo : xmlOutline) →
    (if o.NilFree = true then ∃ w, xmlOutline.FromOutlinePtr xo (some o) = .ok w
      else xmlOutline.FromOutlinePtr xo (some o) = .error .nilDereference)
  | ⟨text, type, isComment, isBreakpoint, created, categories, xmlURL, description, htmlURL,
      language, title, version, url, outlines⟩, xo => by
    have ih := FromOutlinesPtr_isOk outlines xo.Outlines
    simp only [PtrOutline.NilFree, xmlOutline.FromOutlinePtr]
    by_cases h : PtrOutline.NilFreeSeq outlines = true
    · rw [if_pos h] at ih ⊢
      obtain ⟨w, hw⟩ := ih
      rw [hw]
      exact ⟨_, rfl⟩
    · rw [if_neg h] at ih ⊢
      rw [ih]
theorem FromOutlinesPtr_isOk : (os : Option (List (Option PtrOutline))) →
    (xos : xmlOutlines) →
    (if PtrOutline.NilFreeSeq os = true then ∃ w, xmlOutlines.FromOutlinesPtr xos os = .ok w
      else xmlOutlines.FromOutlinesPtr xos os = .error .nilDereference)
  | none, xos => by
    simp [PtrOutline.NilFreeSeq, xmlOutlines.FromOutlinesPtr]
  | some l, xos => by
    simpa only [PtrOutline.NilFreeSeq, xmlOutlines.FromOutlinesPtr] using
      FromOutlinesPtr_loop_isOk l xos
theorem FromOutlinesPtr_loop_isOk : (l : List (Option PtrOutline)) → (xos : xmlOutlines) →
    (if PtrOutline.NilFreeAll l = true then
        ∃ w, xmlOutlines.FromOutlinesPtr_loop xos l = .ok w
      else xmlOutlines.FromOutlinesPtr_loop xos l = .error .nilDereference)
  | [], xos => by
    simp [PtrOutline.NilFreeAll, xmlOutlines.FromOutlinesPtr_loop]
  | none :: rest, xos => by
    simp [PtrOutline.NilFreeAll, xmlOutlines.FromOutlinesPtr_loop, xmlOutline.FromOutlinePtr]
  | some o :: rest, xos => by
    have ih1 := FromOutlinePtr_isOk o xmlOutline.zero
    simp only [PtrOutline.NilFreeAll, xmlOutlines.FromOutlinesPtr_loop, Bool.and_eq_true]
    by_cases h1 : o.NilFree = true
    · rw [if_pos h1] at ih1
      obtain ⟨w, hw⟩ := ih1
      rw [hw]
      have ih2 := FromOutlinesPtr_loop_isOk rest (goAppend xos w)
      by_cases h2 : PtrOutline.NilFreeAll rest = true
      · rw [if_pos h2] at ih2
        rw [if_pos ⟨h1, h2⟩]
        exact ih2
      · rw [if_neg h2] at ih2
        rw [if_neg (fun h => h2 h.2)]
        exact ih2
    · rw [if_neg h1] at ih1
      rw [ih1, if_neg (fun h => h1 h.1)]
end

theorem FromOPMLPtr_isOk (xo : xmlOPML) (p : Option PtrOPML) :
    (if PtrOPML.NilFree p = true then ∃ w, xo.FromOPMLPtr p = .ok w
      else xo.FromOPMLPtr p = .error .nilDereference) := by
  cases p with
  | none => simp [PtrOPML.NilFree, xmlOPML.FromOPMLPtr]
  | some o =>
    have ih := FromOutlinesPtr_isOk o.Outlines xo.Body.Outlines
    simp only [PtrOPML.NilFree, xmlOPML.FromOPMLPtr]
    by_cases h : PtrOutline.NilFreeSeq o.Outlines = true
    · rw [if_pos h] at ih ⊢
      obtain ⟨w, hw⟩ := ih
      rw [hw]
      exact ⟨_, rfl⟩
    · rw [if_neg h] at ih ⊢
      rw [ih]

mutual
theorem NilFree_toPtr : (o : Outline) → o.toPtr.NilFree = true
  | ⟨text, type, isComment, isBreakpoint, created, categories, xmlURL, description, htmlURL,
      language, title, version, url, outlines⟩ => by
    simp only [Outline.toPtr, PtrOutline.NilFree, NilFreeSeq_toPtrSeq outlines]
theorem NilFreeSeq_toPtrSeq : (os : Option (List Outline)) →
    PtrOutline.NilFreeSeq (Outline.toPtrSeq os) = true
  | none => by simp [Outline.toPtrSeq, PtrOutline.NilFreeSeq]
  | some l => by simp only [Outline.toPtrSeq, PtrOutline.NilFreeSeq, NilFreeAll_toPtrAll l]
theorem NilFreeAll_toPtrAll : (l : List Outline) →
    PtrOutline.NilFreeAll (Outline.toPtrAll l) = true
  | [] => by simp [Outline.toPtrAll, PtrOutline.NilFreeAll]
  | o :: rest => by
    simp only [Outline.toPtrAll, PtrOutline.NilFreeAll, NilFree_toPtr o,
      NilFreeAll_toPtrAll rest, Bool.and_self]
end

/-- C24, counterexample: a document whose slice of outlines holds a nil
pointer, at the top (`&OPML{Version: "2.0", Outlines: []*Outline{nil}}`) or one
level down, is a finite outline tree on which `FromOPML` does not complete: it
panics on the dereference of the nil pointer, and so do `Render` and
`(*Renderer).Render`, which return no error at all.  So does a nil document. -/
theorem FromOPML_panics_on_nil_outline :
    PtrOPML.NilFree (some samplePtrOPML) = false ∧
    xmlOPML.zero.FromOPMLPtr (some samplePtrOPML) = .error .nilDereference ∧
    xmlOPML.zero.FromOPMLPtr (some sampleDeepPtrOPML) = .error .nilDereference ∧
    xmlOPML.zero.FromOPMLPtr none = .error .nilDereference ∧
    Renderer.RenderPtr sampleURLString ⟨⟨fun _ => none⟩⟩ (some samplePtrOPML) =
      .error .nilDereference ∧
    RenderPtr sampleURLString (fun _ : Unit => ⟨fun _ => none⟩) () (some sampleDeepPtrOPML) =
      .error .nilDereference := by
  simp [PtrOPML.NilFree, PtrOutline.NilFreeSeq, PtrOutline.NilFreeAll, samplePtrOPML,
    sampleDeepPtrOPML, xmlOPML.FromOPMLPtr, xmlOutlines.FromOutlinesPtr,
    xmlOutlines.FromOutlinesPtr_loop, xmlOutline.FromOutlinePtr, Renderer.RenderPtr, RenderPtr,
    NewRenderer, Outline.toPtr, Outline.ofText]

/-- C24, amended: `FromOPML` completes and gives a wire record exactly for the
documents that are not nil and whose slices of outlines, at every depth, hold
no nil pointer; on every other document it panics with a nil dereference, and
so does `Render`.  For a document without nil pointers the wire record is the
one of the conversion on values, the encoder builds its element without an
error of its own, and the error `Render` and `(*Renderer).Render` return is
the error of the writer on that element.  `MarshalXMLAttr` of `xmlTime`, of
`xmlURL` and of `xmlCategories` returns a nil error for every value, and the
attributes of every wire outline are built without error. -/
theorem render_errors_are_writer_errors {Writer : Type} (urlString : URL → GoString)
    (p : Option PtrOPML) (d : OPML) (r : Renderer) (newEncoder : Writer → xml.Encoder)
    (w : Writer) (t : xmlTime) (u : xmlURL) (c : xmlCategories) (name : xml.Name) :
    ((∃ x, xmlOPML.zero.FromOPMLPtr p = .ok x) ↔ PtrOPML.NilFree p = true) ∧
    (PtrOPML.NilFree p = false →
      xmlOPML.zero.FromOPMLPtr p = .error .nilDereference ∧
      r.RenderPtr urlString p = .error .nilDereference ∧
      RenderPtr urlString newEncoder w p = .error .nilDereference) ∧
    (PtrOPML.NilFree p = true →
      ∃ x e, xmlOPML.zero.FromOPMLPtr p = .ok x ∧ x.encode urlString = .ok e ∧
        r.RenderPtr urlString p = .ok (r.XMLEncoder.write e) ∧
        RenderPtr urlString newEncoder w p = .ok ((newEncoder w).write e)) ∧
    (PtrOPML.NilFree (some d.toPtr) = true ∧
      xmlOPML.zero.FromOPMLPtr (some d.toPtr) = .ok (xmlOPML.zero.FromOPML d) ∧
      r.RenderPtr urlString (some d.toPtr) = .ok (r.Render urlString d) ∧
      RenderPtr urlString newEncoder w (some d.toPtr) =
        .ok (Render urlString newEncoder w d)) ∧
    (xmlTime.MarshalXMLAttr t name).2 = none ∧
    (xmlURL.MarshalXMLAttr urlString u name).2 = none ∧
    (xmlCategories.MarshalXMLAttr c name).2 = none ∧
    (∀ xo : xmlOutline, ∃ attrs, xo.encodeAttrs urlString = .ok attrs) := by
  have hok := FromOPMLPtr_isOk xmlOPML.zero p
  have hd : xmlOPML.zero.FromOPMLPtr (some d.toPtr) = .ok (xmlOPML.zero.FromOPML d) := by
    simp only [xmlOPML.FromOPMLPtr, OPML.toPtr, xmlOPML.FromOPML,
      FromOutlinesPtr_toPtrSeq d.Outlines]
  refine ⟨?_, ?_, ?_, ⟨?_, hd, ?_, ?_⟩, rfl, rfl, rfl,
    fun xo => ⟨_, encodeAttrs_eq urlString xo⟩⟩
  · by_cases h : PtrOPML.NilFree p = true
    · rw [if_pos h] at hok
      exact ⟨fun _ => h, fun _ => hok⟩
    · rw [if_neg h] at hok
      refine ⟨fun hx => ?_, fun h1 => absurd h1 h⟩
      obtain ⟨x, hx⟩ := hx
      rw [hok] at hx
      cases hx
  · intro h
    rw [if_neg (by simp [h])] at hok
    refine ⟨hok, ?_, ?_⟩
    · simp only [Renderer.RenderPtr, hok]
    · simp only [RenderPtr, Renderer.RenderPtr, hok]
  · intro h
    rw [if_pos h] at hok
    obtain ⟨x, hx⟩ := hok
    obtain ⟨cs, hcs⟩ := xmlOPML_encode_ok urlString x
    refine ⟨x, _, hx, hcs, ?_, ?_⟩
    · simp [Renderer.RenderPtr, hx, xml.Encoder.Encode, hcs]
    · simp [RenderPtr, NewRenderer, Renderer.RenderPtr, hx, xml.Encoder.Encode, hcs]
  · simp only [PtrOPML.NilFree, OPML.toPtr, NilFreeSeq_toPtrSeq]
  · simp only [Renderer.RenderPtr, hd, Renderer.Render]
  · simp only [RenderPtr, Render, Renderer.RenderPtr, hd, Renderer.Render]

end Opml
